import Mathlib

/-!
# bantam: order book and connection engine

A shallow embedding of `src/cpp/bantam/order_book.h` and `src/cpp/bantam/client.cpp`
(`client.h`), followed by theorems about the embedded functions.

Conventions of the embedding

* `double` prices and volumes are exact rationals (`ℚ`).
* `std::map<double, double>` is a list of `(price, volume)` entries kept in strictly
  ascending price order (`map_wf`).  The map functions are defined on every list and
  the theorems that need the order say so.
* `BOOST_VERIFY (c)` is embedded in its checking configuration: a failing check ends
  the call, which then returns `none`.
-/

namespace bantam

/-! ## order_book.h: data model -/

/-- Side tag of a change event (`enum class order_book_side`). -/
inductive order_book_side
  | bid
  | ask
deriving DecidableEq, Repr

/-- One change event (`struct order_book_change`). -/
structure order_book_change where
  side : order_book_side
  price : ℚ
  volume : ℚ
deriving DecidableEq, Repr

/-- Prices (`using price_type = double`). -/
abbrev price_type := ℚ

/-- One side of the book (`using map_type = std::map<price_type, double>`): the entries
in iteration order, that is by ascending price. -/
abbrev map_type := List (price_type × ℚ)

/-- The representation invariant of `std::map`: keys strictly ascending (hence unique). -/
def map_wf (m : map_type) : Prop := List.Pairwise (fun a b => a.1 < b.1) m

instance (m : map_type) : Decidable (map_wf m) := by
  unfold map_wf; infer_instance

/-- Lookup, `m.find (price)`: the volume stored at `price`, `none` for `m.end ()`. -/
def map_find : map_type → price_type → Option ℚ
  | [], _ => none
  | (k, v) :: m, price => if k = price then some v else map_find m price

/-- Insertion, `m.emplace (price, volume)`: adds the entry at its place in the order;
an entry already stored under `price` is kept as it is. -/
def map_emplace : map_type → price_type → ℚ → map_type
  | [], price, volume => [(price, volume)]
  | (k, v) :: m, price, volume =>
    if price < k then (price, volume) :: (k, v) :: m
    else if price = k then (k, v) :: m
    else (k, v) :: map_emplace m price volume

/-- Overwrite through an iterator, `it->second = volume` with `it = m.find (price)`. -/
def map_assign : map_type → price_type → ℚ → map_type
  | [], _, _ => []
  | (k, v) :: m, price, volume =>
    if k = price then (k, volume) :: m else (k, v) :: map_assign m price volume

/-- Removal through an iterator, `m.erase (it)` with `it = m.find (price)`. -/
def map_erase : map_type → price_type → map_type
  | [], _ => []
  | (k, v) :: m, price => if k = price then m else (k, v) :: map_erase m price

/-- Total volume stored on one side. -/
def map_volume (m : map_type) : ℚ := (m.map Prod.snd).sum

/-- The book (`struct order_book`): `std::map<price_type, double> bids, asks`. -/
structure order_book where
  bids : map_type := []
  asks : map_type := []
deriving DecidableEq, Repr

/-- Both sides satisfy the `std::map` invariant. -/
def order_book.wf (b : order_book) : Prop := map_wf b.bids ∧ map_wf b.asks

instance (b : order_book) : Decidable b.wf := by
  unfold order_book.wf; infer_instance

/-- Every stored volume is strictly positive. -/
def map_positive (m : map_type) : Prop := ∀ e ∈ m, 0 < e.2

instance (m : map_type) : Decidable (map_positive m) := by
  unfold map_positive; infer_instance

/-- Every volume stored on the bid side and on the ask side is strictly positive. -/
def order_book.positive (b : order_book) : Prop := map_positive b.bids ∧ map_positive b.asks

instance (b : order_book) : Decidable b.positive := by
  unfold order_book.positive; infer_instance

/-! ## order_book.h: operations -/

/-- Source: `void clear ()`. -/
def order_book.clear (_b : order_book) : order_book := { bids := [], asks := [] }

/-- Source: `bool update (map_type& m, price_type price, double volume)`: the returned flag and
the map after the call; `none` when `BOOST_VERIFY (volume > 0)` fails. -/
def update (m : map_type) (price : price_type) (volume : ℚ) : Option (Bool × map_type) :=
  if volume > 0 then
    match map_find m price with
    | none => some (true, map_emplace m price volume)
    | some second => some (decide (second ≠ volume), map_assign m price volume)
  else none

/-- Source: `bool remove (map_type& m, price_type price)`. -/
def remove (m : map_type) (price : price_type) : Bool × map_type :=
  match map_find m price with
  | some _ => (true, map_erase m price)
  | none => (false, m)

/-- Source: `bool remove_bid (price_type price)`. -/
def order_book.remove_bid (b : order_book) (price : price_type) : Bool × order_book :=
  ((remove b.bids price).1, { b with bids := (remove b.bids price).2 })

/-- Source: `bool remove_ask (price_type price)`. -/
def order_book.remove_ask (b : order_book) (price : price_type) : Bool × order_book :=
  ((remove b.asks price).1, { b with asks := (remove b.asks price).2 })

/-- Source: `bool update_bid (price_type price, double volume)`:
`volume ? update (bids, price, volume) : remove_bid (price)`. -/
def order_book.update_bid (b : order_book) (price : price_type) (volume : ℚ) :
    Option (Bool × order_book) :=
  if volume ≠ 0 then
    (update b.bids price volume).map (fun r => (r.1, { b with bids := r.2 }))
  else some (b.remove_bid price)

/-- Source: `bool update_ask (price_type price, double volume)`:
`volume ? update (asks, price, volume) : remove_ask (price)`. -/
def order_book.update_ask (b : order_book) (price : price_type) (volume : ℚ) :
    Option (Bool × order_book) :=
  if volume ≠ 0 then
    (update b.asks price volume).map (fun r => (r.1, { b with asks := r.2 }))
  else some (b.remove_ask price)

/-- The loop of `buy_partial`, run over the bid entries in reverse iterator order
(`bids.rbegin ()` onwards, descending price).  Returns the entries left (still in
descending order), the volume left, and the change events.

`bids.erase (std::next (it).base ())` removes the entry `it` points at and leaves `it`
on the next lower entry.  `BOOST_ASSERT (volume > 0)` repeats the loop guard. -/
def buy_walk (max_price : ℚ) :
    List (price_type × ℚ) → ℚ → List order_book_change →
      List (price_type × ℚ) × ℚ × List order_book_change
  | [], volume, changes => ([], volume, changes)
  | (p, v) :: rest, volume, changes =>
    if volume > 0 then
      if p ≥ max_price then
        if v > volume then
          let v1 := v - volume
          let changes1 := changes ++ [⟨order_book_side.bid, p, v1⟩]
          if v1 = 0 then buy_walk max_price rest 0 changes1
          else
            let r := buy_walk max_price rest 0 changes1
            ((p, v1) :: r.1, r.2.1, r.2.2)
        else
          buy_walk max_price rest (volume - v) (changes ++ [⟨order_book_side.bid, p, 0⟩])
      else ((p, v) :: rest, volume, changes)
    else ((p, v) :: rest, volume, changes)

/-- Source: `void buy_partial (double max_price, double volume, std::vector<order_book_change>&
changes)`: the book and the change sequence after the call. -/
def order_book.buy_partial (b : order_book) (max_price volume : ℚ)
    (changes : List order_book_change) : order_book × List order_book_change :=
  let r := buy_walk max_price b.bids.reverse volume changes
  let bids := r.1.reverse
  let volume := r.2.1
  let changes := r.2.2
  if volume > 0 then
    match map_find b.asks max_price with
    | none =>
      ({ bids := bids, asks := map_emplace b.asks max_price volume },
        changes ++ [⟨order_book_side.ask, max_price, volume⟩])
    | some second =>
      ({ bids := bids, asks := map_assign b.asks max_price (second + volume) },
        changes ++ [⟨order_book_side.ask, max_price, second + volume⟩])
  else ({ bids := bids, asks := b.asks }, changes)

/-- The loop of `sell_partial`, run over the ask entries from `asks.begin ()` (ascending
price); `it = asks.erase (it)` removes the entry and moves on to the next higher one. -/
def sell_walk (min_price : ℚ) :
    List (price_type × ℚ) → ℚ → List order_book_change →
      List (price_type × ℚ) × ℚ × List order_book_change
  | [], volume, changes => ([], volume, changes)
  | (p, v) :: rest, volume, changes =>
    if volume > 0 then
      if p ≤ min_price then
        if v > volume then
          let v1 := v - volume
          let changes1 := changes ++ [⟨order_book_side.ask, p, v1⟩]
          if v1 = 0 then sell_walk min_price rest 0 changes1
          else
            let r := sell_walk min_price rest 0 changes1
            ((p, v1) :: r.1, r.2.1, r.2.2)
        else
          sell_walk min_price rest (volume - v) (changes ++ [⟨order_book_side.ask, p, 0⟩])
      else ((p, v) :: rest, volume, changes)
    else ((p, v) :: rest, volume, changes)

/-- Source: `void sell_partial (double min_price, double volume, std::vector<order_book_change>&
changes)`: the book and the change sequence after the call. -/
def order_book.sell_partial (b : order_book) (min_price volume : ℚ)
    (changes : List order_book_change) : order_book × List order_book_change :=
  let r := sell_walk min_price b.asks volume changes
  let asks := r.1
  let volume := r.2.1
  let changes := r.2.2
  if volume > 0 then
    match map_find b.bids min_price with
    | none =>
      ({ bids := map_emplace b.bids min_price volume, asks := asks },
        changes ++ [⟨order_book_side.bid, min_price, volume⟩])
    | some second =>
      ({ bids := map_assign b.bids min_price (second + volume), asks := asks },
        changes ++ [⟨order_book_side.bid, min_price, second + volume⟩])
  else ({ bids := b.bids, asks := asks }, changes)

/-- One call on the book, with its arguments. -/
inductive book_call
  | update_bid (price : price_type) (volume : ℚ)
  | update_ask (price : price_type) (volume : ℚ)
  | remove_bid (price : price_type)
  | remove_ask (price : price_type)
  | clear
  | buy_partial (max_price volume : ℚ)
  | sell_partial (min_price volume : ℚ)
deriving DecidableEq, Repr

/-- The volume passed to `update_bid` / `update_ask` is not negative. -/
def book_call.nonneg_volume : book_call → Prop
  | book_call.update_bid _ volume => 0 ≤ volume
  | book_call.update_ask _ volume => 0 ≤ volume
  | _ => True

instance (c : book_call) : Decidable c.nonneg_volume := by
  cases c <;> unfold book_call.nonneg_volume <;> infer_instance

/-- The book after one call; `none` when the call fails `BOOST_VERIFY`.  The change
events of `buy_partial` / `sell_partial` go to a fresh vector. -/
def order_book.call (b : order_book) : book_call → Option order_book
  | book_call.update_bid price volume => (b.update_bid price volume).map Prod.snd
  | book_call.update_ask price volume => (b.update_ask price volume).map Prod.snd
  | book_call.remove_bid price => some (b.remove_bid price).2
  | book_call.remove_ask price => some (b.remove_ask price).2
  | book_call.clear => some b.clear
  | book_call.buy_partial max_price volume => some (b.buy_partial max_price volume []).1
  | book_call.sell_partial min_price volume => some (b.sell_partial min_price volume []).1

/-- The book after a sequence of calls, left to right. -/
def order_book.calls (b : order_book) : List book_call → Option order_book
  | [] => some b
  | c :: cs => (b.call c).bind (fun b1 => b1.calls cs)

/-! ## order_book.h: queries -/

/-- The largest finite `double`, `std::numeric_limits<double>::max ()`, as an exact
number: `(2 ^ 53 - 1) * 2 ^ 971`. -/
def double_max : ℚ := (2 ^ 53 - 1) * 2 ^ 971

/-- The smallest positive normal `double`, `std::numeric_limits<double>::min ()`, as an
exact number: `2 ^ (-1022)`. -/
def double_min : ℚ := 1 / 2 ^ 1022

/-- Source: `double get_median_price () const`.  The pair is `(median, num_sides)`;
`asks.begin ()` is the first entry, `bids.rbegin ()` the last one. -/
def order_book.get_median_price (b : order_book) : ℚ :=
  let s0 : ℚ × ℤ := (0, 0)
  let s1 : ℚ × ℤ :=
    match b.asks.head? with
    | some a => (s0.1 + a.1, s0.2 + 1)
    | none => s0
  let s2 : ℚ × ℤ :=
    match b.bids.getLast? with
    | some a => (s1.1 + a.1, s1.2 + 1)
    | none => s1
  if s2.2 ≠ 0 then s2.1 / (s2.2 : ℚ) else s2.1

/-- Source: `double get_min_ask () const`. -/
def order_book.get_min_ask (b : order_book) : ℚ :=
  match b.asks.head? with
  | none => double_max
  | some a => a.1

/-- Source: `double get_min_ask_vol () const`. -/
def order_book.get_min_ask_vol (b : order_book) : ℚ :=
  match b.asks.head? with
  | none => 0
  | some a => a.2

/-- Source: `double get_max_bid () const`. -/
def order_book.get_max_bid (b : order_book) : ℚ :=
  match b.bids.getLast? with
  | none => double_min
  | some a => a.1

/-- Source: `double get_max_bid_vol () const`. -/
def order_book.get_max_bid_vol (b : order_book) : ℚ :=
  match b.bids.getLast? with
  | none => 0
  | some a => a.2

/-- Source: `std::vector<order_book_change> snapshot () const`: both loops run forward
(`for (auto& v : asks)`, `for (auto& v : bids)`), that is by ascending price. -/
def order_book.snapshot (b : order_book) : List order_book_change :=
  b.asks.map (fun v => ⟨order_book_side.ask, v.1, v.2⟩) ++
    b.bids.map (fun v => ⟨order_book_side.bid, v.1, v.2⟩)

/-- `price` is a price present in `m` and no price present in `m` is lower. -/
def lowest_price (m : map_type) (price : ℚ) : Prop :=
  (∃ e ∈ m, e.1 = price) ∧ ∀ e ∈ m, price ≤ e.1

/-- `price` is a price present in `m` and no price present in `m` is higher. -/
def highest_price (m : map_type) (price : ℚ) : Prop :=
  (∃ e ∈ m, e.1 = price) ∧ ∀ e ∈ m, e.1 ≤ price

/-! ## The mirror image of a book

Not in the source: the reading of "mirror image" against which `sell_partial` is
compared with `buy_partial`. -/

/-- One side with every price negated, again in ascending order of price. -/
def mirror_map (m : map_type) : map_type := (m.map (fun e => (-e.1, e.2))).reverse

/-- The book with every price negated and the bid and ask sides exchanged. -/
def order_book.mirror (b : order_book) : order_book :=
  { bids := mirror_map b.asks, asks := mirror_map b.bids }

/-- The other side of the book. -/
def order_book_side.mirror : order_book_side → order_book_side
  | order_book_side.bid => order_book_side.ask
  | order_book_side.ask => order_book_side.bid

/-- A change event with the price negated and the side tag exchanged. -/
def order_book_change.mirror (e : order_book_change) : order_book_change :=
  ⟨e.side.mirror, -e.price, e.volume⟩

/-! ## client.h, client.cpp: data model

The connection engine is embedded as functions on an explicit state.  What the engine
does to the outside (calls into the transport, log lines, calls of user callbacks) is
appended to `client.trace`, in program order.  The transport (Boost.Beast / Asio) and
the JSON library (rapidjson) are outside the repository; the embedding fixes their
interface as follows.

* A completion handler gets its inputs as arguments: the error code as a `Bool` (true
  for an error), the clock reading as `now`, the received frame as a `frame`.
* `ws_.lowest_layer ().is_open ()` is the field `is_open`.  No engine function changes
  it: `async_close` only starts the closing handshake.
* `int64_t` opaque ids are integers; the counter does not reach `2 ^ 63` in practice.
* Callbacks (`std::function`) are named by numbers and their behaviour is given by a
  `handlers` value: any function from engine state to engine state, which may throw.
-/

/-- A JSON value, as far as the engine builds or reads one. -/
inductive value
  | null
  | str (s : String)
  | int (n : Int)
  | raw (text : String)
deriving DecidableEq, Repr

/-- An outbound JSON object (`rapidjson::Document doc (kObjectType)`): the members in
the order `AddMember` added them. -/
abbrev document := List (String × value)

/-- An inbound JSON document after `doc.Parse (str)`, seen through the accessors
`on_read` uses: `type` and `opaque_` are `none` when `doc.HasMember` is false,
`channel` is `doc["channel"].GetString ()`, `content` is `doc["content"]`.  Documents on
which these accessors are undefined (a member of another JSON type) are left out. -/
structure inbound where
  type : Option String := none
  opaque_ : Option Int := none
  channel : String := ""
  content : value := value.null
deriving DecidableEq, Repr

/-- An encoded message in the write queue: text given to `write (std::string&&)`, or the
text `rapidjson::Writer` produces for a document, represented by that document. -/
inductive message
  | text (str : String)
  | json (doc : document)
deriving DecidableEq, Repr

/-- A received frame: a text frame (`ws_.got_text ()`) with the document parsed from it,
or a binary frame (`ws_.got_binary ()`). -/
inductive frame
  | text (doc : inbound)
  | binary (str : String)
deriving DecidableEq, Repr

/-- The argument a `json_callback_type` callback is called with: `doc["content"]` of a
get response, or the whole document of a data message. -/
inductive callback_arg
  | content (val : value)
  | doc (d : inbound)
deriving DecidableEq, Repr

/-- A `json_callback_type` (`std::function<void (const rapidjson::Value&)>`): `none` is
the empty function object, `some f` the callable named `f`. -/
abbrev json_callback_type := Option Nat

/-- What the engine does to the outside. -/
inductive event
  | info (what : String)
  | fail (what : String)
  | cerr (what : String)
  | async_resolve
  | async_read
  | async_write (msg : message)
  | async_close
  | async_wait
  | handle_connected
  | ready_callback (f : Nat)
  | json_callback (f : Nat) (arg : callback_arg)
deriving DecidableEq, Repr

/-- A `std::map` of the engine (`subscriptions`, `resource_reads`), as an association
list with unique keys; the engine never iterates over these maps. -/
abbrev table (κ α : Type) := List (κ × α)

/-- Lookup, `m.find (key)`. -/
def table_find {κ α : Type} [DecidableEq κ] : table κ α → κ → Option α
  | [], _ => none
  | (k, a) :: m, key => if k = key then some a else table_find m key

/-- Assignment through `operator[]`, `m[key] = a`: overwrites or inserts. -/
def table_put {κ α : Type} [DecidableEq κ] : table κ α → κ → α → table κ α
  | [], key, a => [(key, a)]
  | (k, b) :: m, key, a => if k = key then (k, a) :: m else (k, b) :: table_put m key a

/-- Insertion, `m.emplace (key, a)`: an entry already stored under `key` is kept. -/
def table_emplace {κ α : Type} [DecidableEq κ] : table κ α → κ → α → table κ α
  | [], key, a => [(key, a)]
  | (k, b) :: m, key, a => if k = key then (k, b) :: m else (k, b) :: table_emplace m key a

/-- The engine state (`struct client`, private members), with the trace. -/
structure client where
  handshake_completed : Bool := false
  is_open : Bool := false
  last_read_time : Int := 0
  reconnect_seconds : Nat := 30
  writing_now : Bool := false
  reading_now : Bool := false
  subscriptions : table String json_callback_type := []
  resource_reads : table Int json_callback_type := []
  opaque_ : Int := 0
  write_queue : List message := []
  ready_callback : Option Nat := none
  trace : List event := []
deriving DecidableEq, Repr

/-- How a call that may throw ends: normally, or with a `std::exception` whose `what ()`
is given.  Either way the state reached so far stays. -/
inductive outcome
  | returned (c : client)
  | threw (what : String) (c : client)
deriving DecidableEq, Repr

/-- The state an outcome leaves. -/
def outcome.state : outcome → client
  | outcome.returned c => c
  | outcome.threw _ c => c

/-- The behaviour of the user callbacks, by name. -/
structure handlers where
  json_callback : Nat → callback_arg → client → outcome
  ready_callback : Nat → client → outcome

/-! ## client.h, client.cpp: operations -/

/-- Source: `bool is_connected () const`. -/
def client.is_connected (c : client) : Bool := c.is_open && c.handshake_completed

/-- Source: `void info (const std::string& what)`. -/
def client.info (c : client) (what : String) : client :=
  { c with trace := c.trace ++ [event.info what] }

/-- Source: `void fail (boost::system::error_code ec, char const* what)`. -/
def client.fail (c : client) (what : String) : client :=
  { c with trace := c.trace ++ [event.fail what] }

/-- A line written to `std::cerr` by a catch block. -/
def client.cerr (c : client) (what : String) : client :=
  { c with trace := c.trace ++ [event.cerr what] }

/-- Source: `void client::write_next ()`. -/
def client.write_next (c : client) : client :=
  if c.writing_now || c.write_queue.isEmpty || !c.is_connected then c
  else
    match c.write_queue with
    | [] => c
    | front :: _ => { c with writing_now := true, trace := c.trace ++ [event.async_write front] }

/-- Source: `void client::write (std::string&& msg)`. -/
def client.write (c : client) (msg : message) : client :=
  if !c.is_connected then c
  else client.write_next { c with write_queue := c.write_queue ++ [msg] }

/-- Source: `void client::write (const rapidjson::Value& doc)`. -/
def client.write_doc (c : client) (doc : document) : client :=
  c.write (message.json doc)

/-- Source: `void client::close ()`. -/
def client.close (c : client) : client :=
  let c1 := c.info "Closing connection"
  let c2 := if c1.is_connected then { c1 with trace := c1.trace ++ [event.async_close] } else c1
  { c2 with reading_now := false, writing_now := false }

/-- Source: `void client::open ()`. -/
def client.open (c : client) (now : Int) : client :=
  let c1 := c.info "Opening connection"
  { c1 with last_read_time := now, trace := c1.trace ++ [event.async_resolve] }

/-- Source: `void client::reconnect ()`. -/
def client.reconnect (c : client) (now : Int) : client :=
  client.open (client.close (c.info "Reconnecting")) now

/-- Source: `void client::do_read ()`. -/
def client.do_read (c : client) : client :=
  if c.reading_now then c
  else { c with reading_now := true, trace := c.trace ++ [event.async_read] }

/-- The document `write_hello` builds. -/
def hello_document (k : Int) : document :=
  [("type", value.str "hello"), ("opaque", value.int k), ("protocol_version", value.str "1.0")]

/-- Source: `void client::write_hello (int64_t opaque)`. -/
def client.write_hello (c : client) (k : Int) : client :=
  c.write_doc (hello_document k)

/-- Source: `void client::write_pong (int64_t opaque)`. -/
def client.write_pong (c : client) (k : Int) : client :=
  c.write_doc [("type", value.str "pong"), ("opaque", value.int k)]

/-- The document `get_resource` builds. -/
def get_document (path : String) (id : Int) : document :=
  [("type", value.str "get"), ("resource", value.str path), ("opaque", value.int id)]

/-- Source: `void client::get_resource (const std::string& path, const json_callback_type&
callback)`; `next_opaque ()` is `++opaque`. -/
def client.get_resource (c : client) (path : String) (callback : json_callback_type) :
    outcome :=
  match callback with
  | none => outcome.threw "Invalid argument value: callback" c
  | some f =>
    let id := c.opaque_ + 1
    let c1 := { c with opaque_ := id }
    let c2 := { c1 with resource_reads := table_put c1.resource_reads id (some f) }
    outcome.returned (c2.write_doc (get_document path id))

/-- Source: `void client::subscribe (const std::string& channel_name, const json_callback_type&
callback)`. -/
def client.subscribe (c : client) (channel_name : String) (callback : json_callback_type) :
    outcome :=
  if !c.handshake_completed then outcome.threw "Connection is not ready" c
  else
    let c1 := { c with subscriptions := table_emplace c.subscriptions channel_name callback }
    let id := c1.opaque_ + 1
    let c2 := { c1 with opaque_ := id }
    outcome.returned (c2.write_doc
      [("type", value.str "subscribe"), ("channel", value.str channel_name),
        ("opaque", value.int id)])

/-- Source: `virtual void handle_connected ()`, the implementation of `client`:
`if (ready_callback) ready_callback ();`. -/
def client.handle_connected (env : handlers) (c : client) : outcome :=
  let c1 := { c with trace := c.trace ++ [event.handle_connected] }
  match c1.ready_callback with
  | none => outcome.returned c1
  | some f => env.ready_callback f { c1 with trace := c1.trace ++ [event.ready_callback f] }

/-- A call `it->second (arg)` of a stored callback; calling the empty function object
throws `std::bad_function_call`. -/
def client.call (env : handlers) (c : client) (callback : json_callback_type)
    (arg : callback_arg) : outcome :=
  match callback with
  | none => outcome.threw "bad_function_call" c
  | some f => env.json_callback f arg { c with trace := c.trace ++ [event.json_callback f arg] }

/-- The inner `try` / `catch` of `on_read` around `handle_connected ()`. -/
def client.catch_connected : outcome → client
  | outcome.returned c => c
  | outcome.threw what c => client.close (c.cerr ("Handle connected - " ++ what))

/-- The body of the `try` block of `on_read`. -/
def client.on_read_try (env : handlers) (c : client) : frame → outcome
  | frame.binary _ => outcome.returned c
  | frame.text doc =>
    match doc.type with
    | none => outcome.threw "Sequence failed, invalid message format" c
    | some type =>
      let opaque_id : Int := doc.opaque_.getD (-1)
      if type = "hello" then
        if c.handshake_completed then
          outcome.threw "Connection sequence error, handshake already completed" c
        else
          let c1 := { c with handshake_completed := true }
          let c2 := c1.write_hello opaque_id
          outcome.returned (client.catch_connected (c2.handle_connected env))
      else if type = "ping" then outcome.returned (c.write_pong opaque_id)
      else if type = "get" then
        match table_find c.resource_reads opaque_id with
        | none =>
          outcome.threw ("Invalid resource read opaque id: " ++ toString opaque_id) c
        | some callback => c.call env callback (callback_arg.content doc.content)
      else if type = "data" then
        match table_find c.subscriptions doc.channel with
        | some callback => c.call env callback (callback_arg.doc doc)
        | none => outcome.returned c
      else outcome.returned c

/-- The `catch (std::exception& e)` block of `on_read`: log, then `close ()`. -/
def client.catch_read : outcome → client
  | outcome.returned c => c
  | outcome.threw what c => client.close (c.cerr ("Handle read - " ++ what))

/-- Source: `void client::on_read (boost::system::error_code ec, size_t bytes_transferred)`. -/
def client.on_read (env : handlers) (c : client) (now : Int) (ec : Bool) (fr : frame) :
    client :=
  let c1 := { c with reading_now := false }
  if ec then c1.fail "read"
  else
    let c2 := { c1 with last_read_time := now }
    let c3 := client.catch_read (c2.on_read_try env fr)
    client.write_next (client.do_read c3)

/-- Source: `void client::on_write (boost::system::error_code ec, size_t bytes_transferred)`;
`none` when `BOOST_VERIFY (writing_now)` or `BOOST_VERIFY (!write_queue.empty ())` fails.
`handle_write ()` is the empty implementation of `client`. -/
def client.on_write (c : client) (ec : Bool) : Option client :=
  if ec then some (c.fail "write")
  else if !c.writing_now then none
  else
    match c.write_queue with
    | [] => none
    | _ :: tail =>
      let c1 := { c with writing_now := false, write_queue := tail }
      some (if !c1.write_queue.isEmpty then c1.write_next else c1)

/-- One step of the event loop as far as the write queue is concerned: a `write ()` call
by the user, a write completion, or a read completion. -/
inductive loop_step
  | write (msg : message)
  | on_write (ec : Bool)
  | on_read (now : Int) (ec : Bool) (fr : frame)
deriving DecidableEq, Repr

/-- The state after one step; `none` when a `BOOST_VERIFY` fails. -/
def client.step (env : handlers) (c : client) : loop_step → Option client
  | loop_step.write msg => some (c.write msg)
  | loop_step.on_write ec => c.on_write ec
  | loop_step.on_read now ec fr => some (c.on_read env now ec fr)

/-- The state after a sequence of steps. -/
def client.steps (env : handlers) (c : client) : List loop_step → Option client
  | [] => some c
  | s :: ss => (c.step env s).bind (fun c1 => c1.steps env ss)

/-- The messages handed to the transport (`ws_.async_write`), in order. -/
def handed_over : List event → List message
  | [] => []
  | event.async_write msg :: t => msg :: handed_over t
  | _ :: t => handed_over t

/-- How often the callback `f` was called. -/
def times_called (f : Nat) : List event → Nat
  | [] => 0
  | event.json_callback g _ :: t => (if g = f then 1 else 0) + times_called f t
  | _ :: t => times_called f t

/-- An event that is a call of user code. -/
def event.is_callback : event → Bool
  | event.json_callback _ _ => true
  | event.ready_callback _ => true
  | event.handle_connected => true
  | _ => false

/-- Handlers that do nothing and return. -/
def idle_handlers : handlers :=
  { json_callback := fun _ _ c => outcome.returned c,
    ready_callback := fun _ c => outcome.returned c }

/-- The callbacks of `examples/example_client.cpp`, as far as they call the engine: the
ready callback (named 0) calls `get_resource ("channels", ...)` with a callback named 1. -/
def example_handlers : handlers :=
  { json_callback := fun _ _ c => outcome.returned c,
    ready_callback := fun _ c => c.get_resource "channels" (some 1) }

/-! ## client.cpp: the watchdog timer -/

/-- Source: `int64_t client::last_read_elapsed () const`.  Time points are counts of
clock ticks, `ticks_per_second` of them to the second (the period of
`std::chrono::system_clock` is fixed by the library); `duration_cast<seconds>` rounds
toward zero. -/
def client.last_read_elapsed (c : client) (ticks_per_second : Nat) (now : Int) : Int :=
  (now - c.last_read_time).tdiv ticks_per_second

/-- The second statement of `on_timer`: wait for the next tick, or report the error. -/
def client.timer_rearm (c : client) (ec : Bool) : client :=
  if !ec then { c with trace := c.trace ++ [event.async_wait] }
  else c.fail "Reconnect timer"

/-- Source: `void client::on_timer (const boost::system::error_code& ec)`.  `now` is
the clock reading of `last_read_elapsed ()`, `later` the one of `open ()`.  The
comparison `last_read_elapsed () >= reconnect_seconds` has an `int64_t` on the left and
an `unsigned long` on the right and is made in `unsigned long`, taken as 64 bits wide:
the left side is reduced modulo `2 ^ 64`. -/
def client.on_timer (c : client) (ticks_per_second : Nat) (now later : Int) (ec : Bool) :
    client :=
  let c1 :=
    if (c.reconnect_seconds : Int) ≤ c.last_read_elapsed ticks_per_second now % 2 ^ 64 then
      c.reconnect later
    else c
  c1.timer_rearm ec

/-! ## User code and the reachable states -/

/-- What user code (a callback, or the program that owns the engine) can do to the
engine: call a function of its public interface, or throw. -/
inductive user_action
  | write (msg : message)
  | get_resource (path : String) (callback : json_callback_type)
  | subscribe (channel_name : String) (callback : json_callback_type)
  | open (now : Int)
  | close
  | reconnect (now : Int)
  | throw (what : String)
deriving DecidableEq, Repr

/-- One action of user code. -/
def client.act (c : client) : user_action → outcome
  | user_action.write msg => outcome.returned (c.write msg)
  | user_action.get_resource path callback => c.get_resource path callback
  | user_action.subscribe channel_name callback => c.subscribe channel_name callback
  | user_action.open now => outcome.returned (c.open now)
  | user_action.close => outcome.returned c.close
  | user_action.reconnect now => outcome.returned (c.reconnect now)
  | user_action.throw what => outcome.threw what c

/-- A sequence of actions; an exception ends it. -/
def client.script (c : client) : List user_action → outcome
  | [] => outcome.returned c
  | a :: rest =>
    match c.act a with
    | outcome.returned c1 => c1.script rest
    | outcome.threw what c1 => outcome.threw what c1

/-- Callbacks that act on the engine through its public interface only: each callback is
given by the actions it takes, which may depend on its argument and on the state. -/
def scripted_handlers (json : Nat → callback_arg → client → List user_action)
    (ready : Nat → client → List user_action) : handlers :=
  { json_callback := fun f arg c => c.script (json f arg c),
    ready_callback := fun f c => c.script (ready f c) }

/-- One step of the engine: a call of the public interface from outside a callback, a
read, write or timer completion, or the transport opening or closing the socket. -/
inductive engine_step
  | call (a : user_action)
  | on_read (now : Int) (ec : Bool) (fr : frame)
  | on_write (ec : Bool)
  | on_timer (ticks_per_second : Nat) (now later : Int) (ec : Bool)
  | transport (is_open : Bool)
deriving DecidableEq, Repr

/-- The state after one step; `none` when a `BOOST_VERIFY` fails. -/
def client.advance (env : handlers) (c : client) : engine_step → Option client
  | engine_step.call a => some (c.act a).state
  | engine_step.on_read now ec fr => some (c.on_read env now ec fr)
  | engine_step.on_write ec => c.on_write ec
  | engine_step.on_timer ticks_per_second now later ec =>
    some (c.on_timer ticks_per_second now later ec)
  | engine_step.transport is_open => some { c with is_open := is_open }

/-- The state after a sequence of steps. -/
def client.advances (env : handlers) (c : client) : List engine_step → Option client
  | [] => some c
  | s :: ss => (c.advance env s).bind (fun c1 => c1.advances env ss)

/-! ## Double arithmetic

The embedding above reads a `double` as an exact number.  Two places of the source are
embedded a second time with what exact numbers leave out: the values of a `double`
argument that are not numbers (for the check in `update`), and the rounding of the
arithmetic in `buy_partial`. -/

/-- A `double` argument by its kind: not a number, an infinity, or a finite value (the
two zeros are the one value 0). -/
inductive double
  | nan
  | neg_inf
  | pos_inf
  | finite (q : ℚ)
deriving DecidableEq, Repr

/-- Conversion of a `double` to `bool`, as in `volume ? ... : ...`: false for zero only. -/
def double.to_bool : double → Bool
  | double.finite q => decide (q ≠ 0)
  | _ => true

/-- The comparison `volume > 0`; it is false for a NaN. -/
def double.gt_zero : double → Bool
  | double.nan => false
  | double.neg_inf => false
  | double.pos_inf => true
  | double.finite q => decide (0 < q)

/-- The value is negative (`volume < 0`); a NaN is not. -/
def double.negative : double → Bool
  | double.nan => false
  | double.neg_inf => true
  | double.pos_inf => false
  | double.finite q => decide (q < 0)

/-- What becomes of `BOOST_VERIFY (volume > 0)` in a call of `update_bid` or
`update_ask`. -/
inductive verify_result
  | not_reached
  | passed
  | failed
deriving DecidableEq, Repr

/-- The path of `update_bid (price, volume)` / `update_ask (price, volume)` to the check:
`volume ? update (...) : remove (...)`, and `BOOST_VERIFY (volume > 0)` as the first
statement of `update`. -/
def update_verify (volume : double) : verify_result :=
  if volume.to_bool then
    (if volume.gt_zero then verify_result.passed else verify_result.failed)
  else verify_result.not_reached

/-- Rounding to the nearest integer, ties to the even one. -/
def round_half_even (x : ℚ) : ℤ :=
  if x - ⌊x⌋ < 1 / 2 then ⌊x⌋
  else if x - ⌊x⌋ > 1 / 2 then ⌊x⌋ + 1
  else if ⌊x⌋ % 2 = 0 then ⌊x⌋
  else ⌊x⌋ + 1

/-- The result of an arithmetic operation in `double` (IEEE 754 binary64, round to
nearest, ties to even) whose exact result is `q`: between `2 ^ e` and `2 ^ (e + 1)` the
doubles are the multiples of `2 ^ (e - 52)`, below `2 ^ (-1022)` the multiples of
`2 ^ (-1074)`.  Results beyond the largest finite double (they become infinite) are
outside this function. -/
def double_round (q : ℚ) : ℚ :=
  if q = 0 then 0
  else
    (round_half_even (q / 2 ^ (max (Int.log 2 |q|) (-1022) - 52)) : ℚ) *
      2 ^ (max (Int.log 2 |q|) (-1022) - 52)

/-- The loop of `buy_partial` as `buy_walk`, with every arithmetic result rounded by
`rnd`: `v -= volume` and `volume -= v`.  The comparisons are exact. -/
def buy_walk_rounded (rnd : ℚ → ℚ) (max_price : ℚ) :
    List (price_type × ℚ) → ℚ → List order_book_change →
      List (price_type × ℚ) × ℚ × List order_book_change
  | [], volume, changes => ([], volume, changes)
  | (p, v) :: rest, volume, changes =>
    if volume > 0 then
      if p ≥ max_price then
        if v > volume then
          let v1 := rnd (v - volume)
          let changes1 := changes ++ [⟨order_book_side.bid, p, v1⟩]
          if v1 = 0 then buy_walk_rounded rnd max_price rest 0 changes1
          else
            let r := buy_walk_rounded rnd max_price rest 0 changes1
            ((p, v1) :: r.1, r.2.1, r.2.2)
        else
          buy_walk_rounded rnd max_price rest (rnd (volume - v))
            (changes ++ [⟨order_book_side.bid, p, 0⟩])
      else ((p, v) :: rest, volume, changes)
    else ((p, v) :: rest, volume, changes)

/-- The function `buy_partial` as `order_book.buy_partial`, with every arithmetic result
rounded by `rnd`: the loop, and `it->second += volume`. -/
def order_book.buy_partial_rounded (rnd : ℚ → ℚ) (b : order_book) (max_price volume : ℚ)
    (changes : List order_book_change) : order_book × List order_book_change :=
  let r := buy_walk_rounded rnd max_price b.bids.reverse volume changes
  let bids := r.1.reverse
  let volume := r.2.1
  let changes := r.2.2
  if volume > 0 then
    match map_find b.asks max_price with
    | none =>
      ({ bids := bids, asks := map_emplace b.asks max_price volume },
        changes ++ [⟨order_book_side.ask, max_price, volume⟩])
    | some second =>
      ({ bids := bids, asks := map_assign b.asks max_price (rnd (second + volume)) },
        changes ++ [⟨order_book_side.ask, max_price, rnd (second + volume)⟩])
  else ({ bids := bids, asks := b.asks }, changes)

end bantam

namespace bantam

/-! ## Lemmas on the map functions -/

theorem map_find_mem {m : map_type} {price v : ℚ} (h : map_find m price = some v) :
    (price, v) ∈ m := by
  induction m with
  | nil => simp [map_find] at h
  | cons e m ih =>
    obtain ⟨k, w⟩ := e
    by_cases hk : k = price
    · simp [map_find, hk] at h
      simp [hk, h]
    · simp [map_find, hk] at h
      exact List.mem_cons_of_mem _ (ih h)

theorem map_positive_cons {e : price_type × ℚ} {m : map_type} :
    map_positive (e :: m) ↔ 0 < e.2 ∧ map_positive m := by
  simp [map_positive]

theorem map_positive_emplace {m : map_type} (price : ℚ) {volume : ℚ} (hm : map_positive m)
    (hv : 0 < volume) : map_positive (map_emplace m price volume) := by
  induction m with
  | nil => simpa [map_emplace, map_positive] using hv
  | cons e m ih =>
    obtain ⟨k, w⟩ := e
    rw [map_positive_cons] at hm
    unfold map_emplace
    split_ifs
    · exact map_positive_cons.2 ⟨hv, map_positive_cons.2 hm⟩
    · exact map_positive_cons.2 hm
    · exact map_positive_cons.2 ⟨hm.1, ih hm.2⟩

theorem map_positive_assign {m : map_type} (price : ℚ) {volume : ℚ} (hm : map_positive m)
    (hv : 0 < volume) : map_positive (map_assign m price volume) := by
  induction m with
  | nil => simpa [map_assign] using hm
  | cons e m ih =>
    obtain ⟨k, w⟩ := e
    rw [map_positive_cons] at hm
    unfold map_assign
    split_ifs
    · exact map_positive_cons.2 ⟨hv, hm.2⟩
    · exact map_positive_cons.2 ⟨hm.1, ih hm.2⟩

theorem map_positive_erase {m : map_type} (price : ℚ) (hm : map_positive m) :
    map_positive (map_erase m price) := by
  induction m with
  | nil => simpa [map_erase] using hm
  | cons e m ih =>
    obtain ⟨k, w⟩ := e
    rw [map_positive_cons] at hm
    unfold map_erase
    split_ifs
    · exact hm.2
    · exact map_positive_cons.2 ⟨hm.1, ih hm.2⟩

theorem map_positive_reverse {m : map_type} : map_positive m.reverse ↔ map_positive m := by
  simp [map_positive]

theorem map_positive_find {m : map_type} {price v : ℚ} (hm : map_positive m)
    (h : map_find m price = some v) : 0 < v :=
  hm _ (map_find_mem h)

theorem map_wf_cons {e : price_type × ℚ} {m : map_type} :
    map_wf (e :: m) ↔ (∀ a ∈ m, e.1 < a.1) ∧ map_wf m := by
  simp [map_wf]

theorem map_find_eq_none {m : map_type} {price : ℚ} :
    map_find m price = none ↔ ∀ e ∈ m, e.1 ≠ price := by
  induction m with
  | nil => simp [map_find]
  | cons e m ih =>
    obtain ⟨k, w⟩ := e
    by_cases hk : k = price
    · simp [map_find, hk]
    · simp [map_find, hk, ih]

theorem map_find_of_mem {m : map_type} {price v : ℚ} (hm : map_wf m) (h : (price, v) ∈ m) :
    map_find m price = some v := by
  induction m with
  | nil => simp at h
  | cons e m ih =>
    obtain ⟨k, w⟩ := e
    rw [map_wf_cons] at hm
    rcases List.mem_cons.1 h with h1 | h1
    · simp only [Prod.mk.injEq] at h1
      simp [map_find, h1.1, h1.2]
    · have hlt : k < price := hm.1 _ h1
      simp [map_find, ne_of_lt hlt, ih hm.2 h1]

theorem map_find_eq_some {m : map_type} {price v : ℚ} (hm : map_wf m) :
    map_find m price = some v ↔ (price, v) ∈ m :=
  ⟨map_find_mem, map_find_of_mem hm⟩

theorem map_emplace_keys {m : map_type} {price volume : ℚ} {a : price_type × ℚ}
    (h : a ∈ map_emplace m price volume) : a = (price, volume) ∨ a ∈ m := by
  induction m with
  | nil => simpa [map_emplace] using h
  | cons e m ih =>
    obtain ⟨k, w⟩ := e
    unfold map_emplace at h
    split_ifs at h
    · simpa using h
    · exact Or.inr h
    · rcases List.mem_cons.1 h with h1 | h1
      · exact Or.inr (by simp [h1])
      · rcases ih h1 with h2 | h2
        · exact Or.inl h2
        · exact Or.inr (List.mem_cons_of_mem _ h2)

theorem map_wf_emplace {m : map_type} (price volume : ℚ) (hm : map_wf m) :
    map_wf (map_emplace m price volume) := by
  induction m with
  | nil => simp [map_emplace, map_wf]
  | cons e m ih =>
    obtain ⟨k, w⟩ := e
    have hc := map_wf_cons.1 hm
    unfold map_emplace
    split_ifs with h1 h2
    · refine map_wf_cons.2 ⟨?_, hm⟩
      intro a ha
      rcases List.mem_cons.1 ha with h | h
      · simpa [h] using h1
      · exact lt_trans h1 (hc.1 a h)
    · exact hm
    · refine map_wf_cons.2 ⟨?_, ih hc.2⟩
      intro a ha
      rcases map_emplace_keys ha with h | h
      · have : k < price := lt_of_le_of_ne (not_lt.1 h1) (Ne.symm h2)
        simpa [h] using this
      · exact hc.1 a h

theorem map_assign_keys {m : map_type} {price volume : ℚ} {a : price_type × ℚ}
    (h : a ∈ map_assign m price volume) : ∃ e ∈ m, e.1 = a.1 := by
  induction m with
  | nil => simp [map_assign] at h
  | cons e m ih =>
    obtain ⟨k, w⟩ := e
    unfold map_assign at h
    split_ifs at h
    · rcases List.mem_cons.1 h with h1 | h1
      · exact ⟨(k, w), List.mem_cons_self _ _, by simp [h1]⟩
      · exact ⟨a, List.mem_cons_of_mem _ h1, rfl⟩
    · rcases List.mem_cons.1 h with h1 | h1
      · exact ⟨(k, w), List.mem_cons_self _ _, by simp [h1]⟩
      · obtain ⟨e, he, hk⟩ := ih h1
        exact ⟨e, List.mem_cons_of_mem _ he, hk⟩

theorem map_wf_assign {m : map_type} (price volume : ℚ) (hm : map_wf m) :
    map_wf (map_assign m price volume) := by
  induction m with
  | nil => simp [map_assign, map_wf]
  | cons e m ih =>
    obtain ⟨k, w⟩ := e
    have hc := map_wf_cons.1 hm
    unfold map_assign
    split_ifs
    · exact map_wf_cons.2 ⟨hc.1, hc.2⟩
    · refine map_wf_cons.2 ⟨?_, ih hc.2⟩
      intro a ha
      obtain ⟨e, he, hk⟩ := map_assign_keys ha
      rw [← hk]
      exact hc.1 e he

theorem map_erase_subset {m : map_type} {price : ℚ} {a : price_type × ℚ}
    (h : a ∈ map_erase m price) : a ∈ m := by
  induction m with
  | nil => simp [map_erase] at h
  | cons e m ih =>
    obtain ⟨k, w⟩ := e
    unfold map_erase at h
    split_ifs at h
    · exact List.mem_cons_of_mem _ h
    · rcases List.mem_cons.1 h with h1 | h1
      · simp [h1]
      · exact List.mem_cons_of_mem _ (ih h1)

theorem map_wf_erase {m : map_type} (price : ℚ) (hm : map_wf m) :
    map_wf (map_erase m price) := by
  induction m with
  | nil => simp [map_erase, map_wf]
  | cons e m ih =>
    obtain ⟨k, w⟩ := e
    have hc := map_wf_cons.1 hm
    unfold map_erase
    split_ifs
    · exact hc.2
    · exact map_wf_cons.2 ⟨fun a ha => hc.1 a (map_erase_subset ha), ih hc.2⟩

theorem map_find_emplace_self {m : map_type} {price : ℚ} (volume : ℚ)
    (h : map_find m price = none) : map_find (map_emplace m price volume) price = some volume := by
  induction m with
  | nil => simp [map_emplace, map_find]
  | cons e m ih =>
    obtain ⟨k, w⟩ := e
    by_cases hk : k = price
    · simp [map_find, hk] at h
    · simp only [map_find, hk, if_false] at h
      unfold map_emplace
      split_ifs with h1 h2
      · simp [map_find]
      · exact absurd h2.symm hk
      · simp [map_find, hk, ih h]

theorem map_find_emplace_other {m : map_type} {price q : ℚ} (volume : ℚ) (hq : q ≠ price) :
    map_find (map_emplace m price volume) q = map_find m q := by
  induction m with
  | nil => simp [map_emplace, map_find, Ne.symm hq]
  | cons e m ih =>
    obtain ⟨k, w⟩ := e
    unfold map_emplace
    split_ifs with h1 h2
    · simp [map_find, Ne.symm hq]
    · rfl
    · by_cases hk : k = q
      · simp [map_find, hk]
      · simp [map_find, hk, ih]

theorem map_find_assign_self {m : map_type} {price second : ℚ} (volume : ℚ)
    (h : map_find m price = some second) :
    map_find (map_assign m price volume) price = some volume := by
  induction m with
  | nil => simp [map_find] at h
  | cons e m ih =>
    obtain ⟨k, w⟩ := e
    by_cases hk : k = price
    · simp [map_assign, map_find, hk]
    · simp only [map_find, hk, if_false] at h
      simp [map_assign, map_find, hk, ih h]

theorem map_find_assign_other {m : map_type} {price q : ℚ} (volume : ℚ) (hq : q ≠ price) :
    map_find (map_assign m price volume) q = map_find m q := by
  induction m with
  | nil => simp [map_assign]
  | cons e m ih =>
    obtain ⟨k, w⟩ := e
    by_cases hk : k = price
    · subst hk
      simp [map_assign, map_find, Ne.symm hq]
    · by_cases hkq : k = q
      · subst hkq
        simp [map_assign, map_find, hk]
      · simp [map_assign, map_find, hk, hkq, ih]

theorem map_find_erase_self {m : map_type} (price : ℚ) (hm : map_wf m) :
    map_find (map_erase m price) price = none := by
  induction m with
  | nil => simp [map_erase, map_find]
  | cons e m ih =>
    obtain ⟨k, w⟩ := e
    have hc := map_wf_cons.1 hm
    by_cases hk : k = price
    · simp only [map_erase, hk, if_true]
      rw [map_find_eq_none]
      intro a ha
      have := hc.1 a ha
      simp only [hk] at this
      exact (ne_of_lt this).symm
    · simp [map_erase, map_find, hk, ih hc.2]

theorem map_volume_cons (e : price_type × ℚ) (m : map_type) :
    map_volume (e :: m) = e.2 + map_volume m := by
  simp [map_volume]

theorem map_volume_reverse (m : map_type) : map_volume m.reverse = map_volume m := by
  simp [map_volume, List.sum_reverse]

/-! ## Lemmas on the two walks -/

theorem buy_walk_done (max_price : ℚ) (l : List (price_type × ℚ)) {volume : ℚ}
    (changes : List order_book_change) (h : ¬ 0 < volume) :
    buy_walk max_price l volume changes = (l, volume, changes) := by
  cases l with
  | nil => rfl
  | cons e l => obtain ⟨p, v⟩ := e; simp [buy_walk, h]

theorem buy_walk_below (max_price : ℚ) (p v : ℚ) (rest : List (price_type × ℚ))
    (volume : ℚ) (changes : List order_book_change) (h : p < max_price) :
    buy_walk max_price ((p, v) :: rest) volume changes = ((p, v) :: rest, volume, changes) := by
  simp [buy_walk, not_le.2 h]

theorem buy_walk_fill (max_price : ℚ) (p v : ℚ) (rest : List (price_type × ℚ))
    (volume : ℚ) (changes : List order_book_change) (h0 : 0 < volume) (hp : max_price ≤ p)
    (hv : volume < v) :
    buy_walk max_price ((p, v) :: rest) volume changes =
      ((p, v - volume) :: rest, 0, changes ++ [⟨order_book_side.bid, p, v - volume⟩]) := by
  have hne : ¬ v - volume = 0 := by linarith
  simp [buy_walk, h0, hp, hv, hne, buy_walk_done]

theorem buy_walk_drain (max_price : ℚ) (p v : ℚ) (rest : List (price_type × ℚ))
    (volume : ℚ) (changes : List order_book_change) (h0 : 0 < volume) (hp : max_price ≤ p)
    (hv : v ≤ volume) :
    buy_walk max_price ((p, v) :: rest) volume changes =
      buy_walk max_price rest (volume - v) (changes ++ [⟨order_book_side.bid, p, 0⟩]) := by
  simp [buy_walk, h0, hp, not_lt.2 hv]

theorem sell_walk_done (min_price : ℚ) (l : List (price_type × ℚ)) {volume : ℚ}
    (changes : List order_book_change) (h : ¬ 0 < volume) :
    sell_walk min_price l volume changes = (l, volume, changes) := by
  cases l with
  | nil => rfl
  | cons e l => obtain ⟨p, v⟩ := e; simp [sell_walk, h]

theorem sell_walk_above (min_price : ℚ) (p v : ℚ) (rest : List (price_type × ℚ))
    (volume : ℚ) (changes : List order_book_change) (h : min_price < p) :
    sell_walk min_price ((p, v) :: rest) volume changes =
      ((p, v) :: rest, volume, changes) := by
  simp [sell_walk, not_le.2 h]

theorem sell_walk_fill (min_price : ℚ) (p v : ℚ) (rest : List (price_type × ℚ))
    (volume : ℚ) (changes : List order_book_change) (h0 : 0 < volume) (hp : p ≤ min_price)
    (hv : volume < v) :
    sell_walk min_price ((p, v) :: rest) volume changes =
      ((p, v - volume) :: rest, 0, changes ++ [⟨order_book_side.ask, p, v - volume⟩]) := by
  have hne : ¬ v - volume = 0 := by linarith
  simp [sell_walk, h0, hp, hv, hne, sell_walk_done]

theorem sell_walk_drain (min_price : ℚ) (p v : ℚ) (rest : List (price_type × ℚ))
    (volume : ℚ) (changes : List order_book_change) (h0 : 0 < volume) (hp : p ≤ min_price)
    (hv : v ≤ volume) :
    sell_walk min_price ((p, v) :: rest) volume changes =
      sell_walk min_price rest (volume - v) (changes ++ [⟨order_book_side.ask, p, 0⟩]) := by
  simp [sell_walk, h0, hp, not_lt.2 hv]

theorem buy_walk_positive (max_price : ℚ) (l : List (price_type × ℚ)) (volume : ℚ)
    (changes : List order_book_change) (hl : map_positive l) :
    map_positive (buy_walk max_price l volume changes).1 := by
  induction l generalizing volume changes with
  | nil => simpa [buy_walk] using hl
  | cons e l ih =>
    obtain ⟨p, v⟩ := e
    have hc := map_positive_cons.1 hl
    by_cases h0 : 0 < volume
    · by_cases hp : max_price ≤ p
      · by_cases hv : volume < v
        · rw [buy_walk_fill _ _ _ _ _ _ h0 hp hv]
          exact map_positive_cons.2 ⟨sub_pos.2 hv, hc.2⟩
        · rw [buy_walk_drain _ _ _ _ _ _ h0 hp (not_lt.1 hv)]
          exact ih _ _ hc.2
      · rw [buy_walk_below _ _ _ _ _ _ (not_le.1 hp)]
        exact hl
    · rw [buy_walk_done _ _ _ h0]
      exact hl

theorem sell_walk_positive (min_price : ℚ) (l : List (price_type × ℚ)) (volume : ℚ)
    (changes : List order_book_change) (hl : map_positive l) :
    map_positive (sell_walk min_price l volume changes).1 := by
  induction l generalizing volume changes with
  | nil => simpa [sell_walk] using hl
  | cons e l ih =>
    obtain ⟨p, v⟩ := e
    have hc := map_positive_cons.1 hl
    by_cases h0 : 0 < volume
    · by_cases hp : p ≤ min_price
      · by_cases hv : volume < v
        · rw [sell_walk_fill _ _ _ _ _ _ h0 hp hv]
          exact map_positive_cons.2 ⟨sub_pos.2 hv, hc.2⟩
        · rw [sell_walk_drain _ _ _ _ _ _ h0 hp (not_lt.1 hv)]
          exact ih _ _ hc.2
      · rw [sell_walk_above _ _ _ _ _ _ (not_le.1 hp)]
        exact hl
    · rw [sell_walk_done _ _ _ h0]
      exact hl

theorem buy_partial_positive (b : order_book) (max_price volume : ℚ)
    (changes : List order_book_change) (hb : b.positive) :
    (b.buy_partial max_price volume changes).1.positive := by
  have hw := map_positive_reverse.2
    (buy_walk_positive max_price b.bids.reverse volume changes (map_positive_reverse.2 hb.1))
  unfold order_book.buy_partial
  simp only []
  split_ifs with h
  · split
    · exact ⟨hw, map_positive_emplace _ hb.2 h⟩
    · next second hs =>
      exact ⟨hw, map_positive_assign _ hb.2 (add_pos (map_positive_find hb.2 hs) h)⟩
  · exact ⟨hw, hb.2⟩

theorem sell_partial_positive (b : order_book) (min_price volume : ℚ)
    (changes : List order_book_change) (hb : b.positive) :
    (b.sell_partial min_price volume changes).1.positive := by
  have hw := sell_walk_positive min_price b.asks volume changes hb.2
  unfold order_book.sell_partial
  simp only []
  split_ifs with h
  · split
    · exact ⟨map_positive_emplace _ hb.1 h, hw⟩
    · next second hs =>
      exact ⟨map_positive_assign _ hb.1 (add_pos (map_positive_find hb.1 hs) h), hw⟩
  · exact ⟨hb.1, hw⟩

theorem update_positive (m : map_type) (price : ℚ) {volume : ℚ} (hm : map_positive m)
    (hv : 0 ≤ volume) (h0 : volume ≠ 0) :
    ∃ r, update m price volume = some r ∧ map_positive r.2 := by
  have hpos : 0 < volume := lt_of_le_of_ne hv (Ne.symm h0)
  unfold update
  rw [if_pos hpos]
  cases map_find m price with
  | none => exact ⟨_, rfl, map_positive_emplace _ hm hpos⟩
  | some second => exact ⟨_, rfl, map_positive_assign _ hm hpos⟩

theorem remove_positive {m : map_type} (price : ℚ) (hm : map_positive m) :
    map_positive (remove m price).2 := by
  unfold remove
  cases map_find m price with
  | none => exact hm
  | some second => exact map_positive_erase _ hm

theorem call_positive (b : order_book) (c : book_call) (hb : b.positive)
    (hc : c.nonneg_volume) : ∃ b1, b.call c = some b1 ∧ b1.positive := by
  cases c with
  | update_bid price volume =>
    by_cases h0 : volume = 0
    · exact ⟨(b.remove_bid price).2, by simp [order_book.call, order_book.update_bid, h0],
        remove_positive _ hb.1, hb.2⟩
    · obtain ⟨r, hr, hp⟩ := update_positive b.bids price hb.1 hc h0
      exact ⟨{ b with bids := r.2 },
        by simp [order_book.call, order_book.update_bid, h0, hr], hp, hb.2⟩
  | update_ask price volume =>
    by_cases h0 : volume = 0
    · exact ⟨(b.remove_ask price).2, by simp [order_book.call, order_book.update_ask, h0],
        hb.1, remove_positive _ hb.2⟩
    · obtain ⟨r, hr, hp⟩ := update_positive b.asks price hb.2 hc h0
      exact ⟨{ b with asks := r.2 },
        by simp [order_book.call, order_book.update_ask, h0, hr], hb.1, hp⟩
  | remove_bid price => exact ⟨_, rfl, remove_positive _ hb.1, hb.2⟩
  | remove_ask price => exact ⟨_, rfl, hb.1, remove_positive _ hb.2⟩
  | clear => exact ⟨_, rfl, by simp [order_book.clear, order_book.positive, map_positive]⟩
  | buy_partial max_price volume => exact ⟨_, rfl, buy_partial_positive _ _ _ _ hb⟩
  | sell_partial min_price volume => exact ⟨_, rfl, sell_partial_positive _ _ _ _ hb⟩

theorem calls_positive (b : order_book) (cs : List book_call) (hb : b.positive)
    (hcs : ∀ c ∈ cs, c.nonneg_volume) : ∃ b1, b.calls cs = some b1 ∧ b1.positive := by
  induction cs generalizing b with
  | nil => exact ⟨b, rfl, hb⟩
  | cons c cs ih =>
    obtain ⟨b1, h1, hp1⟩ := call_positive b c hb (hcs c (List.mem_cons_self _ _))
    obtain ⟨b2, h2, hp2⟩ := ih b1 hp1 (fun c hc => hcs c (List.mem_cons_of_mem _ hc))
    exact ⟨b2, by simp [order_book.calls, h1, h2], hp2⟩

/-! ## Theorems on the order book -/

/-- C1: starting from the empty book, every finite sequence of `update_bid` /
`update_ask` calls with a non-negative volume, `remove_bid` / `remove_ask`, `clear`,
`buy_partial` and `sell_partial` calls runs through (no check fails) and leaves a book
in which every stored bid and ask volume is strictly positive. -/
theorem C1_positive_volume_invariant (cs : List book_call)
    (hcs : ∀ c ∈ cs, c.nonneg_volume) :
    ∃ b : order_book, order_book.calls {} cs = some b ∧
      (∀ e ∈ b.bids, 0 < e.2) ∧ (∀ e ∈ b.asks, 0 < e.2) :=
  calls_positive {} cs (by simp [order_book.positive, map_positive]) hcs

end bantam

namespace bantam

/-- C1, at a concrete call sequence. -/
theorem C1_positive_volume_invariant_witness :
    (∀ c ∈ [book_call.update_bid 100 2, book_call.update_ask 101 3,
        book_call.buy_partial 100 5, book_call.update_bid 100 0], c.nonneg_volume) ∧
    ∃ b : order_book, order_book.calls {} [book_call.update_bid 100 2,
        book_call.update_ask 101 3, book_call.buy_partial 100 5,
        book_call.update_bid 100 0] = some b ∧
      (∀ e ∈ b.bids, 0 < e.2) ∧ (∀ e ∈ b.asks, 0 < e.2) :=
  ⟨by simp [book_call.nonneg_volume],
    C1_positive_volume_invariant _ (by simp [book_call.nonneg_volume])⟩

end bantam

namespace bantam

theorem buy_walk_volume (max_price : ℚ) (l : List (price_type × ℚ)) (volume : ℚ)
    (changes : List order_book_change) (h : 0 ≤ volume) :
    map_volume (buy_walk max_price l volume changes).1 + volume =
        map_volume l + (buy_walk max_price l volume changes).2.1 ∧
      0 ≤ (buy_walk max_price l volume changes).2.1 := by
  induction l generalizing volume changes with
  | nil => simp [buy_walk, h]
  | cons e l ih =>
    obtain ⟨p, v⟩ := e
    by_cases h0 : 0 < volume
    · by_cases hp : max_price ≤ p
      · by_cases hv : volume < v
        · rw [buy_walk_fill _ _ _ _ _ _ h0 hp hv]
          simp only [map_volume_cons, le_refl, and_true]
          ring
        · have hv1 : v ≤ volume := not_lt.1 hv
          rw [buy_walk_drain _ _ _ _ _ _ h0 hp hv1]
          obtain ⟨h1, h2⟩ := ih (volume - v)
            (changes ++ [⟨order_book_side.bid, p, 0⟩]) (sub_nonneg.2 hv1)
          refine ⟨?_, h2⟩
          rw [map_volume_cons]
          simp only []
          linarith
      · rw [buy_walk_below _ _ _ _ _ _ (not_le.1 hp)]
        exact ⟨rfl, h⟩
    · rw [buy_walk_done _ _ _ h0]
      exact ⟨rfl, h⟩

/-- C2: for every book, every `max_price` and every volume `vol ≥ 0`, after
`buy_partial (max_price, vol)` the volume taken off the bid side (total before minus
total after) plus the increase of the ask volume at `max_price` (an absent level
counting as 0) equals `vol`.  The positivity of the stored volumes is not needed. -/
theorem C2_buy_partial_conserves_volume (b : order_book) (max_price vol : ℚ)
    (changes : List order_book_change) (hvol : 0 ≤ vol) :
    (map_volume b.bids - map_volume ( b.buy_partial max_price vol changes).1.bids) +
        ((map_find ( b.buy_partial max_price vol changes).1.asks max_price).getD 0 -
          (map_find b.asks max_price).getD 0) = vol := by
  obtain ⟨h1, -⟩ := buy_walk_volume max_price b.bids.reverse vol changes hvol
  rw [map_volume_reverse] at h1
  unfold order_book.buy_partial
  simp only []
  split_ifs with h
  · split
    · next hs =>
      simp only [map_volume_reverse, map_find_emplace_self _ hs, hs, Option.getD_some,
        Option.getD_none]
      linarith
    · next second hs =>
      simp only [map_volume_reverse, map_find_assign_self _ hs, hs, Option.getD_some]
      linarith
  · have h2 := (buy_walk_volume max_price b.bids.reverse vol changes hvol).2
    have h3 : (buy_walk max_price b.bids.reverse vol changes).2.1 = 0 :=
      le_antisymm (not_lt.1 h) h2
    simp only [map_volume_reverse]
    linarith

/-- C2, at a book where one bid level is drained, one is partly filled. -/
theorem C2_buy_partial_conserves_volume_witness :
    (0 : ℚ) ≤ 4 ∧
    (map_volume [(10, 5), (20, 3)] -
        map_volume ( order_book.buy_partial { bids := [(10, 5), (20, 3)], asks := [] }
          5 4 []).1.bids) +
      ((map_find ( order_book.buy_partial { bids := [(10, 5), (20, 3)], asks := [] }
          5 4 []).1.asks 5).getD 0 - (map_find [] 5).getD 0) = 4 :=
  ⟨by norm_num,
    C2_buy_partial_conserves_volume { bids := [(10, 5), (20, 3)], asks := [] } 5 4 []
      (by norm_num)⟩

end bantam

namespace bantam

/-- Entries in descending price order: the order in which `buy_walk` visits the bids. -/
theorem map_wf_reverse {m : map_type} :
    List.Pairwise (fun a b => b.1 < a.1) m.reverse ↔ map_wf m := by
  simp [map_wf, List.pairwise_reverse]

/-- The shape of a finished walk: a run `d` of eligible entries was drained and deleted;
the rest `t` is either left as it is (and starts below `max_price` when volume is left
over), or its first entry was partly filled and no volume is left. -/
theorem buy_walk_shape (max_price : ℚ) (l : List (price_type × ℚ)) (volume : ℚ)
    (changes : List order_book_change) :
    ∃ d t, l = d ++ t ∧ (∀ e ∈ d, max_price ≤ e.1) ∧
      (((buy_walk max_price l volume changes).1 = t ∧
          (0 < (buy_walk max_price l volume changes).2.1 → ∀ e ∈ t.head?, e.1 < max_price)) ∨
        ∃ p v w rest, t = (p, v) :: rest ∧ max_price ≤ p ∧
          (buy_walk max_price l volume changes).1 = (p, w) :: rest ∧
          (buy_walk max_price l volume changes).2.1 = 0) := by
  induction l generalizing volume changes with
  | nil => exact ⟨[], [], rfl, by simp, Or.inl ⟨rfl, by simp⟩⟩
  | cons e l ih =>
    obtain ⟨p, v⟩ := e
    by_cases h0 : 0 < volume
    · by_cases hp : max_price ≤ p
      · by_cases hv : volume < v
        · rw [buy_walk_fill _ _ _ _ _ _ h0 hp hv]
          exact ⟨[], (p, v) :: l, rfl, by simp, Or.inr ⟨p, v, v - volume, l, rfl, hp, rfl, rfl⟩⟩
        · rw [buy_walk_drain _ _ _ _ _ _ h0 hp (not_lt.1 hv)]
          obtain ⟨d, t, hl, hd, hr⟩ := ih (volume - v) (changes ++ [⟨order_book_side.bid, p, 0⟩])
          refine ⟨(p, v) :: d, t, by simp [hl], ?_, hr⟩
          intro e he
          rcases List.mem_cons.1 he with h | h
          · simpa [h] using hp
          · exact hd e h
      · rw [buy_walk_below _ _ _ _ _ _ (not_le.1 hp)]
        exact ⟨[], (p, v) :: l, rfl, by simp,
          Or.inl ⟨rfl, fun _ e he => by
            simp only [List.head?_cons, Option.mem_def, Option.some.injEq] at he
            rw [← he]
            exact not_le.1 hp⟩⟩
    · rw [buy_walk_done _ _ _ h0]
      exact ⟨[], (p, v) :: l, rfl, by simp, Or.inl ⟨rfl, fun h => absurd h h0⟩⟩

/-- What a finished walk over bids in descending price order leaves behind. -/
theorem buy_walk_greedy (max_price : ℚ) (l : List (price_type × ℚ)) (volume : ℚ)
    (changes : List order_book_change) (hl : List.Pairwise (fun a b => b.1 < a.1) l) :
    List.Pairwise (fun a b => b.1 < a.1) (buy_walk max_price l volume changes).1 ∧
    (∀ e : price_type × ℚ, e.1 < max_price →
      (e ∈ (buy_walk max_price l volume changes).1 ↔ e ∈ l)) ∧
    (∀ a ∈ (buy_walk max_price l volume changes).1, max_price ≤ a.1 →
      ¬ 0 < (buy_walk max_price l volume changes).2.1 ∧
      ∀ e : price_type × ℚ, e.1 < a.1 →
        (e ∈ (buy_walk max_price l volume changes).1 ↔ e ∈ l)) ∧
    (∀ x ∈ l, (∀ y ∈ (buy_walk max_price l volume changes).1, y.1 ≠ x.1) →
      ∀ a ∈ (buy_walk max_price l volume changes).1, a.1 < x.1) := by
  obtain ⟨d, t, hdt, hd, hr⟩ := buy_walk_shape max_price l volume changes
  subst hdt
  rw [List.pairwise_append] at hl
  obtain ⟨-, ht, hdt⟩ := hl
  rcases hr with ⟨h1, h2⟩ | ⟨p, v, w, rest, htr, hp, h1, h2⟩
  · rw [h1]
    refine ⟨ht, ?_, ?_, ?_⟩
    · intro e he
      constructor
      · exact fun h => List.mem_append_right _ h
      · intro h
        rcases List.mem_append.1 h with h3 | h3
        · exact absurd (hd e h3) (not_le.2 he)
        · exact h3
    · intro a ha hpa
      have hnot : ¬ 0 < (buy_walk max_price (d ++ t) volume changes).2.1 := by
        intro hpos
        cases t with
        | nil => simp at ha
        | cons c t =>
          have hc : c.1 < max_price := h2 hpos c (by simp)
          rcases List.mem_cons.1 ha with h3 | h3
          · rw [h3] at hpa
            exact absurd hpa (not_le.2 hc)
          · have := (List.pairwise_cons.1 ht).1 a h3
            exact absurd hpa (not_le.2 (lt_trans this hc))
      refine ⟨hnot, ?_⟩
      intro e he
      constructor
      · exact fun h => List.mem_append_right _ h
      · intro h
        rcases List.mem_append.1 h with h3 | h3
        · exact absurd (hdt e h3 a ha) (not_lt.2 (le_of_lt he))
        · exact h3
    · intro x hx hy a ha
      rcases List.mem_append.1 hx with h3 | h3
      · exact hdt x h3 a ha
      · exact absurd rfl (hy x h3)
  · subst htr
    rw [h1, h2]
    have hc := List.pairwise_cons.1 ht
    have hkey : ∀ a ∈ (p, w) :: rest, ∃ c ∈ (p, v) :: rest, c.1 = a.1 := by
      intro a ha
      rcases List.mem_cons.1 ha with h3 | h3
      · exact ⟨(p, v), List.mem_cons_self _ _, by simp [h3]⟩
      · exact ⟨a, List.mem_cons_of_mem _ h3, rfl⟩
    have hlow : ∀ e : price_type × ℚ, e.1 < p → (e ∈ (p, w) :: rest ↔ e ∈ d ++ (p, v) :: rest) := by
      intro e he
      have hne : ∀ u : ℚ, e ≠ (p, u) := fun u h => by simp [h] at he
      constructor
      · intro h
        rcases List.mem_cons.1 h with h3 | h3
        · exact absurd h3 (hne w)
        · exact List.mem_append_right _ (List.mem_cons_of_mem _ h3)
      · intro h
        rcases List.mem_append.1 h with h3 | h3
        · exact absurd (hdt e h3 (p, v) (List.mem_cons_self _ _)) (not_lt.2 (le_of_lt he))
        · rcases List.mem_cons.1 h3 with h4 | h4
          · exact absurd h4 (hne v)
          · exact List.mem_cons_of_mem _ h4
    refine ⟨List.pairwise_cons.2 ⟨fun a ha => hc.1 a ha, hc.2⟩, ?_, ?_, ?_⟩
    · intro e he
      exact hlow e (lt_of_lt_of_le he hp)
    · intro a ha _
      refine ⟨lt_irrefl 0, ?_⟩
      intro e he
      apply hlow e
      rcases List.mem_cons.1 ha with h3 | h3
      · simpa [h3] using he
      · exact lt_trans he (hc.1 a h3)
    · intro x hx hy a ha
      rcases List.mem_append.1 hx with h3 | h3
      · obtain ⟨c, hcm, hck⟩ := hkey a ha
        rw [← hck]
        exact hdt x h3 c hcm
      · rcases List.mem_cons.1 h3 with h4 | h4
        · exact absurd (by simp [h4]) (hy (p, w) (List.mem_cons_self _ _))
        · exact absurd rfl (hy x (List.mem_cons_of_mem _ h4))

end bantam

namespace bantam

theorem map_find_ne_none {m : map_type} {price : ℚ} :
    map_find m price ≠ none ↔ ∃ e ∈ m, e.1 = price := by
  rw [Ne, map_find_eq_none]
  push_neg
  rfl

theorem map_find_congr {m1 m2 : map_type} (h1 : map_wf m1) (h2 : map_wf m2) {q : ℚ}
    (h : ∀ e : price_type × ℚ, e.1 = q → (e ∈ m1 ↔ e ∈ m2)) :
    map_find m1 q = map_find m2 q := by
  cases hf : map_find m1 q with
  | some v =>
    exact ((map_find_eq_some h2).2 ((h (q, v) rfl).1 ((map_find_eq_some h1).1 hf))).symm
  | none =>
    cases hg : map_find m2 q with
    | none => rfl
    | some v =>
      have := (map_find_eq_some h1).2 ((h (q, v) rfl).2 ((map_find_eq_some h2).1 hg))
      rw [hf] at this
      exact absurd this (by simp)

theorem buy_partial_bids (b : order_book) (max_price vol : ℚ)
    (changes : List order_book_change) :
    ( b.buy_partial max_price vol changes).1.bids =
      (buy_walk max_price b.bids.reverse vol changes).1.reverse := by
  unfold order_book.buy_partial
  simp only []
  split_ifs
  · split <;> rfl
  · rfl

theorem buy_partial_asks_kept (b : order_book) (max_price vol : ℚ)
    (changes : List order_book_change)
    (h : ¬ 0 < (buy_walk max_price b.bids.reverse vol changes).2.1) :
    ( b.buy_partial max_price vol changes).1.asks = b.asks := by
  unfold order_book.buy_partial
  simp only []
  rw [if_neg h]

theorem buy_partial_asks_rested (b : order_book) (max_price vol : ℚ)
    (changes : List order_book_change)
    (h : 0 < (buy_walk max_price b.bids.reverse vol changes).2.1) :
    (∀ q, q ≠ max_price →
      map_find ( b.buy_partial max_price vol changes).1.asks q = map_find b.asks q) ∧
    map_find ( b.buy_partial max_price vol changes).1.asks max_price =
      some ((map_find b.asks max_price).getD 0 +
        (buy_walk max_price b.bids.reverse vol changes).2.1) := by
  unfold order_book.buy_partial
  simp only []
  rw [if_pos h]
  split
  · next hs =>
    exact ⟨fun q hq => map_find_emplace_other _ hq, by
      simp [map_find_emplace_self _ hs, hs]⟩
  · next second hs =>
    exact ⟨fun q hq => map_find_assign_other _ hq, by
      simp [map_find_assign_self _ hs, hs]⟩

/-- C3 (amended): for every book whose sides are ordered maps, every `max_price` and
every volume, `buy_partial` leaves the bid levels below `max_price` unchanged; if a bid
level with price `L ≥ max_price` is still present after the call, the ask side is
unchanged and every bid level with a price lower than `L` is unchanged; every bid level
that was deleted has a higher price than every bid level still present; and when the ask
side is modified, no bid level with price `≥ max_price` remains, the ask side differs
only at `max_price`, and the volume there is the former one (0 if absent) plus the
unfilled remainder. -/
theorem C3_buy_partial_greedy (b b1 : order_book) (max_price vol : ℚ)
    (changes changes1 : List order_book_change) (hb : b.wf)
    (h : b.buy_partial max_price vol changes = (b1, changes1)) :
    (∀ q, q < max_price → map_find b1.bids q = map_find b.bids q) ∧
    (∀ L, max_price ≤ L → map_find b1.bids L ≠ none →
      b1.asks = b.asks ∧ ∀ q, q < L → map_find b1.bids q = map_find b.bids q) ∧
    (∀ q r, map_find b.bids q ≠ none → map_find b1.bids q = none →
      map_find b1.bids r ≠ none → r < q) ∧
    (b1.asks ≠ b.asks →
      (∀ L, max_price ≤ L → map_find b1.bids L = none) ∧
      (∀ q, q ≠ max_price → map_find b1.asks q = map_find b.asks q) ∧
      map_find b1.asks max_price = some ((map_find b.asks max_price).getD 0 +
        (vol - (map_volume b.bids - map_volume b1.bids)))) := by
  have hb1 : b1 = ( b.buy_partial max_price vol changes).1 := by rw [h]
  have hbids := buy_partial_bids b max_price vol changes
  rw [← hb1] at hbids
  obtain ⟨gw, glow, gkeep, gdel⟩ := buy_walk_greedy max_price b.bids.reverse vol changes
    (map_wf_reverse.2 hb.1)
  have hwf1 : map_wf b1.bids := by
    rw [hbids]
    exact map_wf_reverse.1 (by simpa using gw)
  have part2 : ∀ L, max_price ≤ L → map_find b1.bids L ≠ none →
      b1.asks = b.asks ∧ ∀ q, q < L → map_find b1.bids q = map_find b.bids q := by
    intro L hL hpres
    obtain ⟨a, ha, hak⟩ := map_find_ne_none.1 hpres
    rw [hbids, List.mem_reverse] at ha
    obtain ⟨hnot, hsame⟩ := gkeep a ha (by rw [hak]; exact hL)
    refine ⟨by rw [hb1]; exact buy_partial_asks_kept b max_price vol changes hnot, ?_⟩
    intro q hq
    apply map_find_congr hwf1 hb.1
    intro e he
    rw [hbids, List.mem_reverse, hsame e (by rw [he, hak]; exact hq), List.mem_reverse]
  refine ⟨?_, part2, ?_, ?_⟩
  · intro q hq
    apply map_find_congr hwf1 hb.1
    intro e he
    rw [hbids, List.mem_reverse, glow e (by rw [he]; exact hq), List.mem_reverse]
  · intro q r hq hgone hr
    obtain ⟨x, hx, hxk⟩ := map_find_ne_none.1 hq
    obtain ⟨a, ha, hak⟩ := map_find_ne_none.1 hr
    rw [hbids, List.mem_reverse] at ha
    rw [map_find_eq_none] at hgone
    have := gdel x (List.mem_reverse.2 hx)
      (fun y hy => by
        rw [hxk]
        exact hgone y (by rw [hbids, List.mem_reverse]; exact hy)) a ha
    rw [hak, hxk] at this
    exact this
  · intro hch
    have hpos : 0 < (buy_walk max_price b.bids.reverse vol changes).2.1 := by
      by_contra hnot
      exact hch (by rw [hb1]; exact buy_partial_asks_kept b max_price vol changes hnot)
    have hvol : 0 ≤ vol := by
      by_contra hneg
      rw [buy_walk_done _ _ _ (fun h0 => hneg (le_of_lt h0))] at hpos
      exact hneg (le_of_lt hpos)
    obtain ⟨hother, hself⟩ := buy_partial_asks_rested b max_price vol changes hpos
    rw [← hb1] at hother hself
    refine ⟨?_, hother, ?_⟩
    · intro L hL
      by_contra hpres
      exact hch (part2 L hL hpres).1
    · rw [hself, hbids, map_volume_reverse]
      have hv := (buy_walk_volume max_price b.bids.reverse vol changes hvol).1
      rw [map_volume_reverse] at hv
      congr 1
      linarith

end bantam

namespace bantam

/-- C3, the claim as stated fails: with bids 10 ↦ 5 and 15 ↦ 5, `buy_partial (5, 1)`
leaves the level 10 (a price `≥ max_price`) in the book although the higher level 15 has
not been deleted; it was only reduced to 4. -/
theorem C3_counterexample :
    order_book.wf { bids := [(10, 5), (15, 5)], asks := [] } ∧
    order_book.positive { bids := [(10, 5), (15, 5)], asks := [] } ∧
    (0 : ℚ) < 1 ∧ (5 : ℚ) ≤ 10 ∧ (10 : ℚ) < 15 ∧
    map_find ( order_book.buy_partial { bids := [(10, 5), (15, 5)], asks := [] }
      5 1 []).1.bids 10 = some 5 ∧
    map_find ( order_book.buy_partial { bids := [(10, 5), (15, 5)], asks := [] }
      5 1 []).1.bids 15 = some 4 := by
  refine ⟨?_, ?_, by norm_num, by norm_num, by norm_num, ?_, ?_⟩
  · norm_num [order_book.wf, map_wf]
  · simp [order_book.positive, map_positive]
  · norm_num [order_book.buy_partial, buy_walk, map_find]
  · norm_num [order_book.buy_partial, buy_walk, map_find]

/-- C3 (amended), at the book of the counterexample: the level 15 is still present, so
the ask side and every lower bid level are unchanged. -/
theorem C3_buy_partial_greedy_witness :
    order_book.wf { bids := [(10, 5), (15, 5)], asks := [] } ∧
    order_book.buy_partial { bids := [(10, 5), (15, 5)], asks := [] } 5 1 [] =
      ({ bids := [(10, 5), (15, 4)], asks := [] }, [⟨order_book_side.bid, 15, 4⟩]) ∧
    (([] : map_type) = [] ∧
      ∀ q : ℚ, q < 15 → map_find [(10, 5), (15, 4)] q = map_find [(10, 5), (15, 5)] q) :=
  ⟨by norm_num [order_book.wf, map_wf],
    by norm_num [order_book.buy_partial, buy_walk],
    (C3_buy_partial_greedy { bids := [(10, 5), (15, 5)], asks := [] }
      { bids := [(10, 5), (15, 4)], asks := [] } 5 1 [] [⟨order_book_side.bid, 15, 4⟩]
      (by norm_num [order_book.wf, map_wf])
      (by norm_num [order_book.buy_partial, buy_walk])).2.1 15 (by norm_num)
      (by simp [map_find])⟩

end bantam

namespace bantam

theorem update_stores (m : map_type) (price : ℚ) {volume : ℚ} (hm : map_wf m)
    (hv : 0 < volume) :
    ∃ r, update m price volume = some r ∧ map_find r.2 price = some volume ∧ map_wf r.2 := by
  unfold update
  rw [if_pos hv]
  cases hs : map_find m price with
  | none => exact ⟨_, rfl, map_find_emplace_self _ hs, map_wf_emplace _ _ hm⟩
  | some second => exact ⟨_, rfl, map_find_assign_self _ hs, map_wf_assign _ _ hm⟩

theorem remove_absent (m : map_type) (price : ℚ) (hm : map_wf m) :
    map_find (remove m price).2 price = none := by
  unfold remove
  cases hs : map_find m price with
  | none => exact hs
  | some second => exact map_find_erase_self _ hm

theorem remove_of_absent {m : map_type} {price : ℚ} (h : map_find m price = none) :
    remove m price = (false, m) := by
  unfold remove
  rw [h]

theorem remove_of_present {m : map_type} {price second : ℚ}
    (h : map_find m price = some second) : (remove m price).1 = true := by
  unfold remove
  rw [h]

/-- C4: on a book whose sides are ordered maps, for every price `p` and volume `v > 0`,
`update_bid (p, v)` followed by `update_bid (p, 0)` both run through, the second one
reports a deletion, and afterwards there is no bid level at `p`, so a following
`remove_bid (p)` returns false and changes nothing; and whenever `remove_bid (p)` is
called twice in a row, the second call returns false and leaves the book unchanged.
The same holds for `update_ask` / `remove_ask` on the ask side. -/
theorem C4_zero_update_deletes_and_remove_idempotent (b : order_book) (p v : ℚ)
    (hb : b.wf) (hv : 0 < v) :
    (∃ r1 b1 b2, b.update_bid p v = some (r1, b1) ∧ b1.update_bid p 0 = some (true, b2) ∧
      map_find b2.bids p = none ∧ b2.remove_bid p = (false, b2)) ∧
    (b.remove_bid p).2.remove_bid p = (false, (b.remove_bid p).2) ∧
    (∃ r1 b1 b2, b.update_ask p v = some (r1, b1) ∧ b1.update_ask p 0 = some (true, b2) ∧
      map_find b2.asks p = none ∧ b2.remove_ask p = (false, b2)) ∧
    (b.remove_ask p).2.remove_ask p = (false, (b.remove_ask p).2) := by
  refine ⟨?_, ?_, ?_, ?_⟩
  · obtain ⟨r, hr, hfind, hwf⟩ := update_stores b.bids p hb.1 hv
    have habs := remove_absent r.2 p hwf
    refine ⟨r.1, { b with bids := r.2 }, { b with bids := (remove r.2 p).2 }, ?_, ?_, habs, ?_⟩
    · simp [order_book.update_bid, ne_of_gt hv, hr]
    · simp [order_book.update_bid, order_book.remove_bid, remove_of_present hfind]
    · simp [order_book.remove_bid, remove_of_absent habs]
  · have habs := remove_absent b.bids p hb.1
    simp [order_book.remove_bid, remove_of_absent habs]
  · obtain ⟨r, hr, hfind, hwf⟩ := update_stores b.asks p hb.2 hv
    have habs := remove_absent r.2 p hwf
    refine ⟨r.1, { b with asks := r.2 }, { b with asks := (remove r.2 p).2 }, ?_, ?_, habs, ?_⟩
    · simp [order_book.update_ask, ne_of_gt hv, hr]
    · simp [order_book.update_ask, order_book.remove_ask, remove_of_present hfind]
    · simp [order_book.remove_ask, remove_of_absent habs]
  · have habs := remove_absent b.asks p hb.2
    simp [order_book.remove_ask, remove_of_absent habs]

/-- C4, at the book with one bid at 100 and one ask at 101. -/
theorem C4_zero_update_deletes_and_remove_idempotent_witness :
    order_book.wf { bids := [(100, 2)], asks := [(101, 3)] } ∧ (0 : ℚ) < 7 ∧
    ( order_book.remove_bid { bids := [(100, 2)], asks := [(101, 3)] } 100).2.remove_bid 100 =
      (false, ( order_book.remove_bid { bids := [(100, 2)], asks := [(101, 3)] } 100).2) :=
  ⟨by norm_num [order_book.wf, map_wf], by norm_num,
    (C4_zero_update_deletes_and_remove_idempotent { bids := [(100, 2)], asks := [(101, 3)] }
      100 7 (by norm_num [order_book.wf, map_wf]) (by norm_num)).2.1⟩

end bantam

namespace bantam

/-! ## Lemmas on the engine -/

/-- The trace grew by `added`, and no event of `added` is a call of user code. -/
theorem quiet_refl (t : List event) :
    ∃ added : List event, t = t ++ added ∧ ∀ e ∈ added, e.is_callback = false :=
  ⟨[], by simp, by simp⟩

theorem write_next_fields (c : client) :
    (client.write_next c).resource_reads = c.resource_reads ∧
    (client.write_next c).subscriptions = c.subscriptions ∧
    (client.write_next c).write_queue = c.write_queue ∧
    (client.write_next c).handshake_completed = c.handshake_completed ∧
    (client.write_next c).is_open = c.is_open ∧
    (client.write_next c).opaque_ = c.opaque_ ∧
    (client.write_next c).ready_callback = c.ready_callback := by
  unfold client.write_next
  split_ifs
  · simp
  · split <;> simp

theorem write_next_trace (c : client) :
    ∃ added : List event, (client.write_next c).trace = c.trace ++ added ∧
      ∀ e ∈ added, e.is_callback = false := by
  unfold client.write_next
  split_ifs
  · exact quiet_refl _
  · split
    · exact quiet_refl _
    · next front rest _ =>
      exact ⟨[event.async_write front], rfl, by simp [event.is_callback]⟩

theorem do_read_fields (c : client) :
    (client.do_read c).resource_reads = c.resource_reads ∧
    (client.do_read c).subscriptions = c.subscriptions ∧
    (client.do_read c).write_queue = c.write_queue ∧
    (client.do_read c).handshake_completed = c.handshake_completed ∧
    (client.do_read c).is_open = c.is_open ∧
    (client.do_read c).opaque_ = c.opaque_ ∧
    (client.do_read c).ready_callback = c.ready_callback := by
  unfold client.do_read
  split_ifs <;> simp

theorem do_read_trace (c : client) :
    ∃ added : List event, (client.do_read c).trace = c.trace ++ added ∧
      ∀ e ∈ added, e.is_callback = false := by
  unfold client.do_read
  split_ifs
  · exact quiet_refl _
  · exact ⟨[event.async_read], rfl, by simp [event.is_callback]⟩

theorem close_fields (c : client) :
    (client.close c).resource_reads = c.resource_reads ∧
    (client.close c).subscriptions = c.subscriptions ∧
    (client.close c).write_queue = c.write_queue ∧
    (client.close c).handshake_completed = c.handshake_completed ∧
    (client.close c).is_open = c.is_open ∧
    (client.close c).opaque_ = c.opaque_ ∧
    (client.close c).ready_callback = c.ready_callback := by
  unfold client.close client.info
  simp only []
  split_ifs <;> simp

theorem close_trace (c : client) :
    ∃ added : List event, (client.close c).trace = c.trace ++ added ∧
      event.info "Closing connection" ∈ added ∧ ∀ e ∈ added, e.is_callback = false := by
  unfold client.close client.info
  simp only []
  split_ifs
  · exact ⟨[event.info "Closing connection", event.async_close], by simp,
      by simp, by simp [event.is_callback]⟩
  · exact ⟨[event.info "Closing connection"], by simp, by simp,
      by simp [event.is_callback]⟩

/-- What the `catch` block of `on_read` and the tail of `on_read` do to a state `c` in
which the `try` block threw: the maps, the queue and the flags of the handshake stay,
`close ()` is called, and no user code runs. -/
theorem read_error_tail (c : client) (what : String) :
    (client.write_next (client.do_read (client.close (c.cerr what)))).resource_reads =
      c.resource_reads ∧
    (client.write_next (client.do_read (client.close (c.cerr what)))).subscriptions =
      c.subscriptions ∧
    (client.write_next (client.do_read (client.close (c.cerr what)))).write_queue =
      c.write_queue ∧
    ∃ added : List event,
      (client.write_next (client.do_read (client.close (c.cerr what)))).trace =
        c.trace ++ added ∧
      event.info "Closing connection" ∈ added ∧ ∀ e ∈ added, e.is_callback = false := by
  obtain ⟨w1, w2, w3, -⟩ := write_next_fields (client.do_read (client.close (c.cerr what)))
  obtain ⟨d1, d2, d3, -⟩ := do_read_fields (client.close (c.cerr what))
  obtain ⟨c1, c2, c3, -⟩ := close_fields (c.cerr what)
  obtain ⟨aw, hw, qw⟩ := write_next_trace (client.do_read (client.close (c.cerr what)))
  obtain ⟨ad, hd, qd⟩ := do_read_trace (client.close (c.cerr what))
  obtain ⟨ac, hc, hinfo, qc⟩ := close_trace (c.cerr what)
  refine ⟨by rw [w1, d1, c1]; rfl, by rw [w2, d2, c2]; rfl, by rw [w3, d3, c3]; rfl, ?_⟩
  refine ⟨[event.cerr what] ++ ac ++ ad ++ aw, ?_, ?_, ?_⟩
  · rw [hw, hd, hc]
    simp [client.cerr]
  · simp [hinfo]
  · intro e he
    simp only [List.mem_append, List.mem_singleton] at he
    rcases he with ((h | h) | h) | h
    · rw [h]; rfl
    · exact qc e h
    · exact qd e h
    · exact qw e h

end bantam

namespace bantam

theorem catch_read_resource_reads (o : outcome) :
    (client.catch_read o).resource_reads = o.state.resource_reads := by
  cases o with
  | returned c => rfl
  | threw what c => exact (close_fields (c.cerr ("Handle read - " ++ what))).1

theorem on_read_get_unmatched (env : handlers) (c : client) (now : Int) (doc : inbound)
    (htype : doc.type = some "get")
    (hkey : table_find c.resource_reads (doc.opaque_.getD (-1)) = none) :
    c.on_read env now false (frame.text doc) =
      client.write_next (client.do_read (client.close (client.cerr
        { c with reading_now := false, last_read_time := now }
        ("Handle read - " ++
          ("Invalid resource read opaque id: " ++ toString (doc.opaque_.getD (-1))))))) := by
  simp [client.on_read, client.on_read_try, htype, hkey, client.catch_read]

theorem on_read_get_matched (env : handlers) (c : client) (now : Int) (doc : inbound)
    (f : Nat) (htype : doc.type = some "get")
    (hkey : table_find c.resource_reads (doc.opaque_.getD (-1)) = some (some f)) :
    c.on_read env now false (frame.text doc) =
      client.write_next (client.do_read (client.catch_read
        (env.json_callback f (callback_arg.content doc.content)
          { c with reading_now := false, last_read_time := now,
                   trace := c.trace ++ [event.json_callback f
                     (callback_arg.content doc.content)] }))) := by
  simp [client.on_read, client.on_read_try, htype, hkey, client.call]

theorem on_read_second_hello (env : handlers) (c : client) (now : Int) (doc : inbound)
    (htype : doc.type = some "hello") (hflag : c.handshake_completed = true) :
    c.on_read env now false (frame.text doc) =
      client.write_next (client.do_read (client.close (client.cerr
        { c with reading_now := false, last_read_time := now }
        ("Handle read - " ++
          "Connection sequence error, handshake already completed")))) := by
  simp [client.on_read, client.on_read_try, htype, hflag, client.catch_read]

end bantam

namespace bantam

/-! ## Theorems on the engine -/

/-- C5, the claim as stated fails: after `get_resource` has registered callback 7 under
opaque id 1, the get response with id 1 is processed and the entry for id 1 is still in
`resource_reads`; a second inbound get with id 1 calls the callback again (it has been
called twice) and is no protocol error (`close ()` is not called). -/
theorem C5_counterexample :
    (( client.get_resource { handshake_completed := true, is_open := true } "channels"
        (some 7)).state.on_read idle_handlers 1 false
        (frame.text { type := some "get", opaque_ := some 1 })).resource_reads
      = [(1, some 7)] ∧
    times_called 7
      ((( client.get_resource { handshake_completed := true, is_open := true } "channels"
        (some 7)).state.on_read idle_handlers 1 false
        (frame.text { type := some "get", opaque_ := some 1 })).on_read idle_handlers 2 false
        (frame.text { type := some "get", opaque_ := some 1 })).trace = 2 ∧
    event.info "Closing connection" ∉
      ((( client.get_resource { handshake_completed := true, is_open := true } "channels"
        (some 7)).state.on_read idle_handlers 1 false
        (frame.text { type := some "get", opaque_ := some 1 })).on_read idle_handlers 2 false
        (frame.text { type := some "get", opaque_ := some 1 })).trace := by
  decide

/-- C5 (amended): when an inbound get response is processed whose opaque id (`-1` when
absent) is registered in `resource_reads` with callback `f`, the engine calls `f` once,
with the content of the response and in a state whose `resource_reads` is the one before
the read; the engine does not remove the entry: if the callback itself leaves
`resource_reads` as it is, the map after `on_read` is the map before, so a later get
with the same id calls `f` again. -/
theorem C5_get_response_calls_callback_and_keeps_entry (env : handlers) (c : client)
    (now : Int) (doc : inbound) (f : Nat) (htype : doc.type = some "get")
    (hkey : table_find c.resource_reads (doc.opaque_.getD (-1)) = some (some f)) :
    c.on_read env now false (frame.text doc) =
      client.write_next (client.do_read (client.catch_read
        (env.json_callback f (callback_arg.content doc.content)
          { c with reading_now := false, last_read_time := now,
                   trace := c.trace ++ [event.json_callback f
                     (callback_arg.content doc.content)] }))) ∧
    ((env.json_callback f (callback_arg.content doc.content)
          { c with reading_now := false, last_read_time := now,
                   trace := c.trace ++ [event.json_callback f
                     (callback_arg.content doc.content)] }).state.resource_reads =
        c.resource_reads →
      (c.on_read env now false (frame.text doc)).resource_reads = c.resource_reads ∧
      table_find (c.on_read env now false (frame.text doc)).resource_reads
        (doc.opaque_.getD (-1)) = some (some f)) := by
  have heq := on_read_get_matched env c now doc f htype hkey
  refine ⟨heq, fun hkeep => ?_⟩
  have hmap : (c.on_read env now false (frame.text doc)).resource_reads = c.resource_reads := by
    rw [heq, (write_next_fields _).1, (do_read_fields _).1, catch_read_resource_reads, hkeep]
  exact ⟨hmap, by rw [hmap]; exact hkey⟩

/-- C5 (amended), at the state `get_resource` leaves. -/
theorem C5_get_response_calls_callback_and_keeps_entry_witness :
    (({ type := some "get", opaque_ := some 1 } : inbound).type = some "get") ∧
    table_find ( client.get_resource { handshake_completed := true, is_open := true }
      "channels" (some 7)).state.resource_reads
      (({ type := some "get", opaque_ := some 1 } : inbound).opaque_.getD (-1)) =
        some (some 7) ∧
    table_find (( client.get_resource { handshake_completed := true, is_open := true }
      "channels" (some 7)).state.on_read idle_handlers 1 false
        (frame.text { type := some "get", opaque_ := some 1 })).resource_reads
      (({ type := some "get", opaque_ := some 1 } : inbound).opaque_.getD (-1)) =
        some (some 7) :=
  ⟨rfl, by decide,
    ((C5_get_response_calls_callback_and_keeps_entry idle_handlers
      ( client.get_resource { handshake_completed := true, is_open := true }
        "channels" (some 7)).state 1 { type := some "get", opaque_ := some 1 } 7 rfl
      (by decide)).2 (by decide)).2⟩

/-- C6: for every engine state and every inbound get message whose opaque id (`-1` when
the field is absent) is not a key of `resource_reads`, `on_read` catches the error and
calls `close ()`: the result is the state after the log line, `close ()`, `do_read ()`
and `write_next ()`, whatever the callbacks are; `resource_reads` and `subscriptions`
are unchanged and no user code is called. -/
theorem C6_unmatched_get_is_protocol_error (env : handlers) (c : client) (now : Int)
    (doc : inbound) (htype : doc.type = some "get")
    (hkey : table_find c.resource_reads (doc.opaque_.getD (-1)) = none) :
    c.on_read env now false (frame.text doc) =
      client.write_next (client.do_read (client.close (client.cerr
        { c with reading_now := false, last_read_time := now }
        ("Handle read - " ++
          ("Invalid resource read opaque id: " ++ toString (doc.opaque_.getD (-1))))))) ∧
    (c.on_read env now false (frame.text doc)).resource_reads = c.resource_reads ∧
    (c.on_read env now false (frame.text doc)).subscriptions = c.subscriptions ∧
    ∃ added : List event,
      (c.on_read env now false (frame.text doc)).trace = c.trace ++ added ∧
      event.info "Closing connection" ∈ added ∧ ∀ e ∈ added, e.is_callback = false := by
  have heq := on_read_get_unmatched env c now doc htype hkey
  refine ⟨heq, ?_⟩
  rw [heq]
  obtain ⟨h1, h2, -, h4⟩ := read_error_tail
    ({ c with reading_now := false, last_read_time := now } : client)
    ("Handle read - " ++
      ("Invalid resource read opaque id: " ++ toString (doc.opaque_.getD (-1))))
  exact ⟨h1, h2, h4⟩

/-- C6, at a connected engine with one pending request (id 1) and a response with id 2. -/
theorem C6_unmatched_get_is_protocol_error_witness :
    (({ type := some "get", opaque_ := some 2 } : inbound).type = some "get") ∧
    table_find
      ({ handshake_completed := true, is_open := true, resource_reads := [(1, some 7)] } :
        client).resource_reads
      (({ type := some "get", opaque_ := some 2 } : inbound).opaque_.getD (-1)) = none ∧
    ( client.on_read idle_handlers
        { handshake_completed := true, is_open := true, resource_reads := [(1, some 7)] }
        0 false (frame.text { type := some "get", opaque_ := some 2 })).resource_reads =
      [(1, some 7)] :=
  ⟨rfl, by decide,
    (C6_unmatched_get_is_protocol_error idle_handlers
      { handshake_completed := true, is_open := true, resource_reads := [(1, some 7)] } 0
      { type := some "get", opaque_ := some 2 } rfl (by decide)).2.1⟩

/-- C7: for every engine state in which `handshake_completed` is set, an inbound hello
is a protocol error: `on_read` catches it and calls `close ()`; the result is the state
after the log line, `close ()`, `do_read ()` and `write_next ()`, whatever the callbacks
are; the write queue is unchanged (no hello reply) and no user code is called, in
particular not `handle_connected` or the ready callback. -/
theorem C7_second_hello_is_rejected (env : handlers) (c : client) (now : Int)
    (doc : inbound) (htype : doc.type = some "hello")
    (hflag : c.handshake_completed = true) :
    c.on_read env now false (frame.text doc) =
      client.write_next (client.do_read (client.close (client.cerr
        { c with reading_now := false, last_read_time := now }
        ("Handle read - " ++
          "Connection sequence error, handshake already completed")))) ∧
    (c.on_read env now false (frame.text doc)).write_queue = c.write_queue ∧
    ∃ added : List event,
      (c.on_read env now false (frame.text doc)).trace = c.trace ++ added ∧
      event.info "Closing connection" ∈ added ∧ ∀ e ∈ added, e.is_callback = false := by
  have heq := on_read_second_hello env c now doc htype hflag
  refine ⟨heq, ?_⟩
  rw [heq]
  obtain ⟨-, -, h3, h4⟩ := read_error_tail
    ({ c with reading_now := false, last_read_time := now } : client)
    ("Handle read - " ++ "Connection sequence error, handshake already completed")
  exact ⟨h3, h4⟩

/-- C7, at a connected engine with a ready callback. -/
theorem C7_second_hello_is_rejected_witness :
    (({ type := some "hello", opaque_ := some 5 } : inbound).type = some "hello") ∧
    ({ handshake_completed := true, is_open := true, ready_callback := some 0 } :
        client).handshake_completed = true ∧
    ( client.on_read idle_handlers
        { handshake_completed := true, is_open := true, ready_callback := some 0 }
        0 false (frame.text { type := some "hello", opaque_ := some 5 })).write_queue = [] :=
  ⟨rfl, rfl,
    (C7_second_hello_is_rejected idle_handlers
      { handshake_completed := true, is_open := true, ready_callback := some 0 } 0
      { type := some "hello", opaque_ := some 5 } rfl rfl).2.1⟩

end bantam

namespace bantam

theorem catch_connected_write_queue (o : outcome) :
    (client.catch_connected o).write_queue = o.state.write_queue := by
  cases o with
  | returned c => rfl
  | threw what c => exact (close_fields (c.cerr ("Handle connected - " ++ what))).2.2.1

theorem write_connected (c : client) (msg : message) (h : c.is_connected = true) :
    c.write msg = client.write_next { c with write_queue := c.write_queue ++ [msg] } := by
  simp [client.write, h]

theorem write_not_connected (c : client) (msg : message) (h : c.is_connected = false) :
    c.write msg = c := by
  simp [client.write, h]

theorem on_read_first_hello (env : handlers) (c : client) (now : Int) (doc : inbound)
    (k : Int) (hflag : c.handshake_completed = false) (htype : doc.type = some "hello")
    (hk : doc.opaque_ = some k) :
    c.on_read env now false (frame.text doc) =
      client.write_next (client.do_read (client.catch_connected (client.handle_connected env
        ( client.write_hello
          { c with reading_now := false, last_read_time := now, handshake_completed := true }
          k)))) := by
  simp [client.on_read, client.on_read_try, htype, hk, hflag, client.catch_read]

/-- C8: for every engine state with an open transport and `handshake_completed` unset,
processing an inbound hello with opaque id `k` reaches, before any user code has run, a
state in which the flag is set and the write queue is the former queue followed by
exactly one message, the document with the members type = "hello", opaque = `k`,
protocol_version = "1.0"; in that state `handle_connected` is called, once, and
`on_read` ends with `do_read ()` and `write_next ()`.  The queue `on_read` leaves is the
queue `handle_connected` leaves, so whatever the connected notification appends to the
queue stands behind the hello reply. -/
theorem C8_first_hello_completes_handshake (env : handlers) (c : client) (now : Int)
    (doc : inbound) (k : Int) (hopen : c.is_open = true)
    (hflag : c.handshake_completed = false) (htype : doc.type = some "hello")
    (hk : doc.opaque_ = some k) :
    ( client.write_hello
      { c with reading_now := false, last_read_time := now, handshake_completed := true }
      k).handshake_completed = true ∧
    ( client.write_hello
      { c with reading_now := false, last_read_time := now, handshake_completed := true }
      k).write_queue = c.write_queue ++ [message.json
        [("type", value.str "hello"), ("opaque", value.int k),
          ("protocol_version", value.str "1.0")]] ∧
    (∃ added : List event,
      ( client.write_hello
        { c with reading_now := false, last_read_time := now, handshake_completed := true }
        k).trace = c.trace ++ added ∧ ∀ e ∈ added, e.is_callback = false) ∧
    c.on_read env now false (frame.text doc) =
      client.write_next (client.do_read (client.catch_connected (client.handle_connected env
        ( client.write_hello
          { c with reading_now := false, last_read_time := now, handshake_completed := true }
          k)))) ∧
    ∀ extra : List message,
      ( client.handle_connected env ( client.write_hello
        { c with reading_now := false, last_read_time := now, handshake_completed := true }
        k)).state.write_queue =
        ( client.write_hello
          { c with reading_now := false, last_read_time := now, handshake_completed := true }
          k).write_queue ++ extra →
      (c.on_read env now false (frame.text doc)).write_queue =
        c.write_queue ++ [message.json (hello_document k)] ++ extra := by
  have hconn : client.is_connected
      { c with reading_now := false, last_read_time := now, handshake_completed := true } =
        true := by
    simp [client.is_connected, hopen]
  have hw : client.write_hello
      { c with reading_now := false, last_read_time := now, handshake_completed := true } k =
      client.write_next
        { c with reading_now := false, last_read_time := now, handshake_completed := true,
                 write_queue := c.write_queue ++ [message.json (hello_document k)] } := by
    unfold client.write_hello client.write_doc
    rw [write_connected _ _ hconn]
  have hq : ( client.write_hello
      { c with reading_now := false, last_read_time := now, handshake_completed := true }
      k).write_queue = c.write_queue ++ [message.json (hello_document k)] := by
    rw [hw, (write_next_fields _).2.2.1]
  have heq := on_read_first_hello env c now doc k hflag htype hk
  refine ⟨?_, hq, ?_, heq, ?_⟩
  · rw [hw, (write_next_fields _).2.2.2.1]
  · rw [hw]
    exact write_next_trace _
  · intro extra hextra
    rw [heq, (write_next_fields _).2.2.1, (do_read_fields _).2.2.1,
      catch_connected_write_queue, hextra, hq]

/-- C8, with the ready callback of the example client: the get request it enqueues
stands behind the hello reply. -/
theorem C8_first_hello_completes_handshake_witness :
    ({ is_open := true, ready_callback := some 0 } : client).is_open = true ∧
    ({ is_open := true, ready_callback := some 0 } : client).handshake_completed = false ∧
    ({ type := some "hello", opaque_ := some 5 } : inbound).type = some "hello" ∧
    ({ type := some "hello", opaque_ := some 5 } : inbound).opaque_ = some 5 ∧
    ( client.on_read example_handlers { is_open := true, ready_callback := some 0 } 0 false
        (frame.text { type := some "hello", opaque_ := some 5 })).write_queue =
      [] ++ [message.json (hello_document 5)] ++ [message.json (get_document "channels" 1)] :=
  ⟨rfl, rfl, rfl, rfl,
    (C8_first_hello_completes_handshake example_handlers
      { is_open := true, ready_callback := some 0 } 0
      { type := some "hello", opaque_ := some 5 } 5 rfl rfl rfl rfl).2.2.2.2
      [message.json (get_document "channels" 1)] (by decide)⟩

/-- C9, the code at the failing input: a connected engine accepts `write ("m1")` and
hands it to the transport; before that write completes, a read completion carries a text
message without "type"; `on_read` calls `close ()`, which clears `writing_now`, and then
`write_next ()`, which hands the head of the queue, "m1" again, to the transport.  When
both writes then complete, the second completion fails `BOOST_VERIFY (writing_now)`. -/
theorem C9_close_lets_write_next_hand_over_the_head_again :
    ( client.steps idle_handlers { handshake_completed := true, is_open := true }
        [loop_step.write (message.text "m1"),
          loop_step.on_read 0 false (frame.text {})]).map (fun c => handed_over c.trace) =
      some [message.text "m1", message.text "m1"] ∧
    client.steps idle_handlers { handshake_completed := true, is_open := true }
        [loop_step.write (message.text "m1"), loop_step.on_read 0 false (frame.text {}),
          loop_step.on_write false, loop_step.on_write false] = none := by
  decide

/-- C10, the claim as stated fails: on an engine that is not connected (here the initial
state, before the hello), `write` returns at its guard and the queue stays empty; and
`get_resource` registers its callback but its request is neither queued nor in flight. -/
theorem C10_counterexample :
    ( client.write {} (message.text "m")).write_queue = [] ∧
    ( client.get_resource {} "channels" (some 1)).state.write_queue = [] ∧
    ( client.get_resource {} "channels" (some 1)).state.resource_reads = [(1, some 1)] ∧
    ( client.get_resource {} "channels" (some 1)).state.trace = [] := by
  decide

/-- C10 (amended): `write (m)` appends `m` to the tail of the queue when the engine is
connected (transport open and handshake completed) and leaves the whole state unchanged
otherwise.  Consequently a `get_resource` call with a non-empty callback, which returns
normally, leaves its encoded get request at the tail of the queue when the engine is
connected; otherwise it leaves the queue unchanged. -/
theorem C10_write_appends_when_connected (c : client) (m : message) (path : String)
    (f : Nat) :
    (c.write m).write_queue = (if c.is_connected then c.write_queue ++ [m] else c.write_queue) ∧
    (if c.is_connected then True else c.write m = c) ∧
    c.get_resource path (some f) = outcome.returned (c.get_resource path (some f)).state ∧
    (c.get_resource path (some f)).state.write_queue =
      (if c.is_connected then
        c.write_queue ++ [message.json (get_document path (c.opaque_ + 1))]
      else c.write_queue) := by
  have hgc : client.is_connected
      { c with opaque_ := c.opaque_ + 1,
               resource_reads := table_put c.resource_reads (c.opaque_ + 1) (some f) } =
      c.is_connected := rfl
  cases h : c.is_connected with
  | true =>
    refine ⟨?_, trivial, rfl, ?_⟩
    · rw [write_connected _ _ h, (write_next_fields _).2.2.1]
      simp
    · simp only [client.get_resource, outcome.state, client.write_doc]
      rw [write_connected _ _ (hgc.trans h), (write_next_fields _).2.2.1]
      simp
  | false =>
    refine ⟨?_, ?_, rfl, ?_⟩
    · rw [write_not_connected _ _ h]
      simp
    · simpa using write_not_connected _ _ h
    · simp only [client.get_resource, outcome.state, client.write_doc]
      rw [write_not_connected _ _ (hgc.trans h)]
      simp

end bantam

namespace bantam

/-! ## Subscriptions and usage errors -/

theorem write_fields (c : client) (msg : message) :
    (c.write msg).resource_reads = c.resource_reads ∧
    (c.write msg).subscriptions = c.subscriptions ∧
    (c.write msg).handshake_completed = c.handshake_completed ∧
    (c.write msg).is_open = c.is_open ∧
    (c.write msg).opaque_ = c.opaque_ ∧
    (c.write msg).ready_callback = c.ready_callback := by
  unfold client.write
  split_ifs
  · simp
  · obtain ⟨h1, h2, -, h4, h5, h6, h7⟩ :=
      write_next_fields ({ c with write_queue := c.write_queue ++ [msg] } : client)
    exact ⟨h1, h2, h4, h5, h6, h7⟩

theorem table_find_emplace_self {κ α : Type} [DecidableEq κ] (m : table κ α) (key : κ)
    (a : α) : table_find (table_emplace m key a) key = some ((table_find m key).getD a) := by
  induction m with
  | nil => simp [table_emplace, table_find]
  | cons e m ih =>
    obtain ⟨k, b⟩ := e
    by_cases hk : k = key
    · simp [table_emplace, table_find, hk]
    · simp [table_emplace, table_find, hk, ih]

theorem table_find_emplace_other {κ α : Type} [DecidableEq κ] (m : table κ α) {key q : κ}
    (a : α) (hq : q ≠ key) : table_find (table_emplace m key a) q = table_find m q := by
  induction m with
  | nil => simp [table_emplace, table_find, Ne.symm hq]
  | cons e m ih =>
    obtain ⟨k, b⟩ := e
    by_cases hk : k = key
    · simp [table_emplace, table_find, hk]
    · by_cases hkq : k = q
      · subst hkq
        simp [table_emplace, table_find, hk]
      · simp [table_emplace, table_find, hk, hkq, ih]

theorem subscribe_after_handshake (c : client) (channel_name : String)
    (callback : json_callback_type) (h : c.handshake_completed = true) :
    c.subscribe channel_name callback =
        outcome.returned (c.subscribe channel_name callback).state ∧
    (c.subscribe channel_name callback).state.subscriptions =
        table_emplace c.subscriptions channel_name callback ∧
    (c.subscribe channel_name callback).state.handshake_completed = true := by
  have hs : c.subscribe channel_name callback =
      outcome.returned (client.write_doc
        { c with subscriptions := table_emplace c.subscriptions channel_name callback,
                 opaque_ := c.opaque_ + 1 }
        [("type", value.str "subscribe"), ("channel", value.str channel_name),
          ("opaque", value.int (c.opaque_ + 1))]) := by
    simp [client.subscribe, h]
  rw [hs]
  refine ⟨rfl, ?_, ?_⟩
  · simp only [outcome.state, client.write_doc]
    rw [(write_fields _ _).2.1]
  · simp only [outcome.state, client.write_doc]
    rw [(write_fields _ _).2.2.1]
    exact h

theorem on_read_data (env : handlers) (c : client) (now : Int) (doc : inbound)
    (htype : doc.type = some "data") :
    c.on_read env now false (frame.text doc) =
      client.write_next (client.do_read (client.catch_read
        (match table_find c.subscriptions doc.channel with
          | some callback =>
            client.call env ({ c with reading_now := false, last_read_time := now } : client)
              callback (callback_arg.doc doc)
          | none =>
            outcome.returned
              ({ c with reading_now := false, last_read_time := now } : client)))) := by
  simp [client.on_read, client.on_read_try, htype]

/-- C11, the claim as stated fails: on a connected engine, `subscribe ("x", 1)` followed
by `subscribe ("x", 2)` leaves "x" mapped to callback 1, and a following data message
for channel "x" calls callback 1 and not callback 2. -/
theorem C11_counterexample :
    (( client.subscribe { handshake_completed := true, is_open := true } "x"
        (some 1)).state.subscribe "x" (some 2)).state.subscriptions = [("x", some 1)] ∧
    times_called 1
      ( client.on_read idle_handlers
        (( client.subscribe { handshake_completed := true, is_open := true } "x"
          (some 1)).state.subscribe "x" (some 2)).state 0 false
        (frame.text { type := some "data", channel := "x" })).trace = 1 ∧
    times_called 2
      ( client.on_read idle_handlers
        (( client.subscribe { handshake_completed := true, is_open := true } "x"
          (some 1)).state.subscribe "x" (some 2)).state 0 false
        (frame.text { type := some "data", channel := "x" })).trace = 0 := by
  decide

/-- C11 (amended): the first subscription wins.  On an engine whose handshake has
completed, `subscribe (ch, f)` followed by `subscribe (ch, g)` both return normally, and
afterwards the subscription map maps `ch` to the callback it held before the two calls
or, if it held none, to `f`; never to `g` because of the second call.  A following
inbound data message for `ch` calls that callback. -/
theorem C11_first_subscription_wins (env : handlers) (c : client) (ch : String)
    (f g : json_callback_type) (now : Int) (doc : inbound)
    (hflag : c.handshake_completed = true) (htype : doc.type = some "data")
    (hch : doc.channel = ch) :
    c.subscribe ch f = outcome.returned (c.subscribe ch f).state ∧
    (c.subscribe ch f).state.subscribe ch g =
      outcome.returned ((c.subscribe ch f).state.subscribe ch g).state ∧
    table_find ((c.subscribe ch f).state.subscribe ch g).state.subscriptions ch =
      some ((table_find c.subscriptions ch).getD f) ∧
    client.on_read env ((c.subscribe ch f).state.subscribe ch g).state now false
        (frame.text doc) =
      client.write_next (client.do_read (client.catch_read
        ( client.call env
          ({ ((c.subscribe ch f).state.subscribe ch g).state with
              reading_now := false, last_read_time := now } : client)
          ((table_find c.subscriptions ch).getD f) (callback_arg.doc doc)))) := by
  obtain ⟨r1, s1, h1⟩ := subscribe_after_handshake c ch f hflag
  obtain ⟨r2, s2, -⟩ := subscribe_after_handshake (c.subscribe ch f).state ch g h1
  have hfind : table_find ((c.subscribe ch f).state.subscribe ch g).state.subscriptions ch =
      some ((table_find c.subscriptions ch).getD f) := by
    rw [s2, table_find_emplace_self, s1, table_find_emplace_self]
    simp
  refine ⟨r1, r2, hfind, ?_⟩
  rw [on_read_data env _ now doc htype, hch, hfind]

/-- C11 (amended), at a connected engine without subscriptions. -/
theorem C11_first_subscription_wins_witness :
    ({ handshake_completed := true, is_open := true } : client).handshake_completed = true ∧
    ({ type := some "data", channel := "x" } : inbound).type = some "data" ∧
    ({ type := some "data", channel := "x" } : inbound).channel = "x" ∧
    table_find (( client.subscribe { handshake_completed := true, is_open := true } "x"
        (some 1)).state.subscribe "x" (some 2)).state.subscriptions "x" =
      some ((table_find ({ handshake_completed := true, is_open := true } :
        client).subscriptions "x").getD (some 1)) :=
  ⟨rfl, rfl, rfl,
    (C11_first_subscription_wins idle_handlers { handshake_completed := true, is_open := true }
      "x" (some 1) (some 2) 0 { type := some "data", channel := "x" } rfl rfl rfl).2.2.1⟩

/-- C12: `get_resource` with an empty callback throws and leaves the whole engine state
as it was; `subscribe` throws and leaves the whole state as it was when
`handshake_completed` is unset.  `get_resource` with a non-empty callback returns
normally, and so does `subscribe` when `handshake_completed` is set. -/
theorem C12_usage_errors_are_rejected_atomically (c : client) (path channel_name : String)
    (callback : json_callback_type) (f : Nat) :
    c.get_resource path none = outcome.threw "Invalid argument value: callback" c ∧
    c.subscribe channel_name callback =
      (if c.handshake_completed then
        outcome.returned (c.subscribe channel_name callback).state
      else outcome.threw "Connection is not ready" c) ∧
    c.get_resource path (some f) = outcome.returned (c.get_resource path (some f)).state := by
  refine ⟨rfl, ?_, rfl⟩
  cases h : c.handshake_completed with
  | true => simpa using (subscribe_after_handshake c channel_name callback h).1
  | false => simp [client.subscribe, h]

end bantam

namespace bantam

/-! ## Updates and queries of the order book -/

theorem update_effect (m : map_type) (price : ℚ) {volume : ℚ} (hv : 0 < volume) :
    ∃ m1, update m price volume = some (decide (map_find m price ≠ some volume), m1) ∧
      map_find m1 price = some volume ∧
      ∀ q, q ≠ price → map_find m1 q = map_find m q := by
  unfold update
  rw [if_pos hv]
  cases hs : map_find m price with
  | none =>
    exact ⟨_, by simp, map_find_emplace_self _ hs, fun q hq => map_find_emplace_other _ hq⟩
  | some second =>
    exact ⟨_, by simp, map_find_assign_self _ hs, fun q hq => map_find_assign_other _ hq⟩

/-- C13: for every book, price `p` and volume `v > 0`, `update_bid (p, v)` runs through,
returns true exactly when before the call there was no bid level at `p` or its volume
differed from `v`, and leaves a book whose bid side maps `p` to `v`, with every other
bid level and the whole ask side unchanged; repeating the update returns false.  With
volume 0 the call is `remove_bid (p)`.  The same holds for `update_ask` on the ask
side. -/
theorem C13_update_with_positive_volume (b : order_book) (p v : ℚ) (hv : 0 < v) :
    (∃ b1, b.update_bid p v = some (decide (map_find b.bids p ≠ some v), b1) ∧
      map_find b1.bids p = some v ∧
      (∀ q, q ≠ p → map_find b1.bids q = map_find b.bids q) ∧
      b1.asks = b.asks ∧
      ∃ b2, b1.update_bid p v = some (false, b2)) ∧
    b.update_bid p 0 = some (b.remove_bid p) ∧
    (∃ b1, b.update_ask p v = some (decide (map_find b.asks p ≠ some v), b1) ∧
      map_find b1.asks p = some v ∧
      (∀ q, q ≠ p → map_find b1.asks q = map_find b.asks q) ∧
      b1.bids = b.bids ∧
      ∃ b2, b1.update_ask p v = some (false, b2)) ∧
    b.update_ask p 0 = some (b.remove_ask p) := by
  have hne : v ≠ 0 := ne_of_gt hv
  refine ⟨?_, by simp [order_book.update_bid], ?_, by simp [order_book.update_ask]⟩
  · obtain ⟨m1, h1, hself, hother⟩ := update_effect b.bids p hv
    obtain ⟨m2, h2, -, -⟩ := update_effect m1 p hv
    refine ⟨{ b with bids := m1 }, by simp [order_book.update_bid, hne, h1], hself,
      hother, rfl, { b with bids := m2 }, ?_⟩
    simp [order_book.update_bid, hne, h2, hself]
  · obtain ⟨m1, h1, hself, hother⟩ := update_effect b.asks p hv
    obtain ⟨m2, h2, -, -⟩ := update_effect m1 p hv
    refine ⟨{ b with asks := m1 }, by simp [order_book.update_ask, hne, h1], hself,
      hother, rfl, { b with asks := m2 }, ?_⟩
    simp [order_book.update_ask, hne, h2, hself]

/-- C13, at the book with one bid at 100 and one ask at 101. -/
theorem C13_update_with_positive_volume_witness :
    (0 : ℚ) < 7 ∧
    order_book.update_bid { bids := [(100, 2)], asks := [(101, 3)] } 100 0 =
      some ( order_book.remove_bid { bids := [(100, 2)], asks := [(101, 3)] } 100) :=
  ⟨by norm_num,
    (C13_update_with_positive_volume { bids := [(100, 2)], asks := [(101, 3)] } 100 7
      (by norm_num)).2.1⟩

theorem head_is_lowest {m : map_type} {a : price_type × ℚ} (hm : map_wf m)
    (h : m.head? = some a) : lowest_price m a.1 ∧ map_find m a.1 = some a.2 := by
  cases m with
  | nil => simp at h
  | cons e m =>
    simp only [List.head?_cons, Option.some.injEq] at h
    subst h
    have hc := map_wf_cons.1 hm
    refine ⟨⟨⟨e, List.mem_cons_self _ _, rfl⟩, ?_⟩, ?_⟩
    · intro x hx
      rcases List.mem_cons.1 hx with h1 | h1
      · rw [h1]
      · exact le_of_lt (hc.1 x h1)
    · exact map_find_of_mem hm (List.mem_cons_self _ _)

theorem last_is_highest {m : map_type} {a : price_type × ℚ} (hm : map_wf m)
    (h : m.getLast? = some a) : highest_price m a.1 ∧ map_find m a.1 = some a.2 := by
  have hmem : a ∈ m := List.mem_of_getLast?_eq_some h
  refine ⟨⟨⟨a, hmem, rfl⟩, ?_⟩, map_find_of_mem hm hmem⟩
  intro x hx
  obtain ⟨init, hinit⟩ : ∃ init, m = init ++ [a] := by
    rcases List.getLast?_eq_some_iff.1 h with ⟨init, hinit⟩
    exact ⟨init, hinit⟩
  subst hinit
  unfold map_wf at hm
  rw [List.pairwise_append] at hm
  rcases List.mem_append.1 hx with h1 | h1
  · exact le_of_lt (hm.2.2 x h1 a (List.mem_singleton_self a))
  · rw [List.mem_singleton.1 h1]

theorem lowest_price_unique {m : map_type} {p q : ℚ} (hp : lowest_price m p)
    (hq : lowest_price m q) : p = q := by
  obtain ⟨⟨e, he, hek⟩, hpl⟩ := hp
  obtain ⟨⟨d, hd, hdk⟩, hql⟩ := hq
  have h1 := hpl d hd
  have h2 := hql e he
  rw [hdk] at h1
  rw [hek] at h2
  exact le_antisymm h1 h2

theorem highest_price_unique {m : map_type} {p q : ℚ} (hp : highest_price m p)
    (hq : highest_price m q) : p = q := by
  obtain ⟨⟨e, he, hek⟩, hpl⟩ := hp
  obtain ⟨⟨d, hd, hdk⟩, hql⟩ := hq
  have h1 := hpl d hd
  have h2 := hql e he
  rw [hdk] at h1
  rw [hek] at h2
  exact le_antisymm h2 h1

end bantam

namespace bantam

/-- C14: on a book whose sides are ordered maps, `get_min_ask` is the least price
present on the ask side and `get_min_ask_vol` the volume stored at it, `get_max_bid` is
the greatest price present on the bid side and `get_max_bid_vol` the volume stored at
it; on an empty side the price query returns its fixed sentinel
(`numeric_limits<double>::max ()` for asks, `numeric_limits<double>::min ()` for bids)
and the volume query returns 0.  After `clear`, `update_bid (100, 2)`,
`update_ask (101, 3)` the results are 100 (volume 2) and 101 (volume 3). -/
theorem C14_best_prices (b : order_book) (hb : b.wf) :
    (b.asks ≠ [] → lowest_price b.asks b.get_min_ask ∧
      map_find b.asks b.get_min_ask = some b.get_min_ask_vol) ∧
    (b.bids ≠ [] → highest_price b.bids b.get_max_bid ∧
      map_find b.bids b.get_max_bid = some b.get_max_bid_vol) ∧
    (b.asks = [] → b.get_min_ask = double_max ∧ b.get_min_ask_vol = 0) ∧
    (b.bids = [] → b.get_max_bid = double_min ∧ b.get_max_bid_vol = 0) ∧
    ∃ b1, order_book.calls {} [book_call.clear, book_call.update_bid 100 2,
        book_call.update_ask 101 3] = some b1 ∧
      b1.get_max_bid = 100 ∧ b1.get_max_bid_vol = 2 ∧
      b1.get_min_ask = 101 ∧ b1.get_min_ask_vol = 3 := by
  refine ⟨?_, ?_, ?_, ?_, ?_⟩
  · intro hne
    cases hh : b.asks.head? with
    | none => exact absurd (List.head?_eq_none_iff.1 hh) hne
    | some a =>
      have := head_is_lowest hb.2 hh
      simpa [order_book.get_min_ask, order_book.get_min_ask_vol, hh] using this
  · intro hne
    cases hh : b.bids.getLast? with
    | none => exact absurd (List.getLast?_eq_none_iff.1 hh) hne
    | some a =>
      have := last_is_highest hb.1 hh
      simpa [order_book.get_max_bid, order_book.get_max_bid_vol, hh] using this
  · intro he
    simp [order_book.get_min_ask, order_book.get_min_ask_vol, he]
  · intro he
    simp [order_book.get_max_bid, order_book.get_max_bid_vol, he]
  · refine ⟨{ bids := [(100, 2)], asks := [(101, 3)] }, ?_, ?_, ?_, ?_, ?_⟩
    · norm_num [order_book.calls, order_book.call, order_book.clear, order_book.update_bid,
        order_book.update_ask, update, map_find, map_emplace]
    · simp [order_book.get_max_bid]
    · simp [order_book.get_max_bid_vol]
    · simp [order_book.get_min_ask]
    · simp [order_book.get_min_ask_vol]

/-- C14, at the book with bids at 99 and 100 and asks at 101 and 102. -/
theorem C14_best_prices_witness :
    order_book.wf { bids := [(99, 1), (100, 2)], asks := [(101, 3), (102, 4)] } ∧
    (({ bids := [(99, 1), (100, 2)], asks := [(101, 3), (102, 4)] } : order_book).bids ≠ [] →
      highest_price [(99, 1), (100, 2)]
        ( order_book.get_max_bid
          { bids := [(99, 1), (100, 2)], asks := [(101, 3), (102, 4)] }) ∧
      map_find [(99, 1), (100, 2)]
        ( order_book.get_max_bid
          { bids := [(99, 1), (100, 2)], asks := [(101, 3), (102, 4)] }) =
        some ( order_book.get_max_bid_vol
          { bids := [(99, 1), (100, 2)], asks := [(101, 3), (102, 4)] })) :=
  ⟨by norm_num [order_book.wf, map_wf],
    (C14_best_prices { bids := [(99, 1), (100, 2)], asks := [(101, 3), (102, 4)] }
      (by norm_num [order_book.wf, map_wf])).2.1⟩

/-- C15: on a book whose sides are ordered maps, `get_median_price` is half the sum of
the lowest ask price and the highest bid price when both sides are non-empty, the lowest
ask price when only the ask side is non-empty, the highest bid price when only the bid
side is non-empty, and 0 when both sides are empty.  Bids {100: 2} and asks {101: 3}
give 100.5. -/
theorem C15_median_price (b : order_book) (hb : b.wf) :
    (∀ lo hi, lowest_price b.asks lo → highest_price b.bids hi →
      b.get_median_price = (lo + hi) / 2) ∧
    (∀ lo, lowest_price b.asks lo → b.bids = [] → b.get_median_price = lo) ∧
    (∀ hi, b.asks = [] → highest_price b.bids hi → b.get_median_price = hi) ∧
    (b.asks = [] → b.bids = [] → b.get_median_price = 0) ∧
    order_book.get_median_price { bids := [(100, 2)], asks := [(101, 3)] } = 201 / 2 := by
  have hlo : ∀ lo, lowest_price b.asks lo → ∃ a, b.asks.head? = some a ∧ a.1 = lo := by
    intro lo hl
    cases hh : b.asks.head? with
    | none =>
      obtain ⟨⟨e, he, -⟩, -⟩ := hl
      rw [List.head?_eq_none_iff.1 hh] at he
      simp at he
    | some a => exact ⟨a, rfl, lowest_price_unique (head_is_lowest hb.2 hh).1 hl⟩
  have hhi : ∀ hi, highest_price b.bids hi → ∃ a, b.bids.getLast? = some a ∧ a.1 = hi := by
    intro hi hl
    cases hh : b.bids.getLast? with
    | none =>
      obtain ⟨⟨e, he, -⟩, -⟩ := hl
      rw [List.getLast?_eq_none_iff.1 hh] at he
      simp at he
    | some a => exact ⟨a, rfl, highest_price_unique (last_is_highest hb.1 hh).1 hl⟩
  refine ⟨?_, ?_, ?_, ?_, ?_⟩
  · intro lo hi hl hh
    obtain ⟨a, ha, hak⟩ := hlo lo hl
    obtain ⟨c, hc, hck⟩ := hhi hi hh
    simp only [order_book.get_median_price, ha, hc, hak, hck]
    norm_num
  · intro lo hl he
    obtain ⟨a, ha, hak⟩ := hlo lo hl
    simp [order_book.get_median_price, ha, he, hak]
  · intro hi he hh
    obtain ⟨c, hc, hck⟩ := hhi hi hh
    simp [order_book.get_median_price, hc, he, hck]
  · intro h1 h2
    simp [order_book.get_median_price, h1, h2]
  · norm_num [order_book.get_median_price]

/-- C15, at the book with bids at 99 and 100 and asks at 101 and 102. -/
theorem C15_median_price_witness :
    order_book.wf { bids := [(99, 1), (100, 2)], asks := [(101, 3), (102, 4)] } ∧
    lowest_price [(101, 3), (102, 4)] 101 ∧ highest_price [(99, 1), (100, 2)] 100 ∧
    order_book.get_median_price { bids := [(99, 1), (100, 2)], asks := [(101, 3), (102, 4)] } =
      (101 + 100) / 2 :=
  ⟨by norm_num [order_book.wf, map_wf],
    by norm_num [lowest_price], by norm_num [highest_price],
    (C15_median_price { bids := [(99, 1), (100, 2)], asks := [(101, 3), (102, 4)] }
      (by norm_num [order_book.wf, map_wf])).1 101 100
      (by norm_num [lowest_price]) (by norm_num [highest_price])⟩

end bantam

namespace bantam

/-- C16, the claim as stated fails: with bids at 1 and 2, `snapshot ()` lists the bid
level 1 before the bid level 2, that is in ascending and not in descending price
order. -/
theorem C16_counterexample :
    order_book.wf { bids := [(1, 5), (2, 6)], asks := [(3, 7)] } ∧
    order_book.snapshot { bids := [(1, 5), (2, 6)], asks := [(3, 7)] } =
      [⟨order_book_side.ask, 3, 7⟩, ⟨order_book_side.bid, 1, 5⟩,
        ⟨order_book_side.bid, 2, 6⟩] ∧
    (1 : ℚ) < 2 := by
  refine ⟨by norm_num [order_book.wf, map_wf], by simp [order_book.snapshot], by norm_num⟩

/-- C16 (amended): on a book whose sides are ordered maps, `snapshot ()` returns a
sequence of length (number of ask levels + number of bid levels): first one entry per
ask level, tagged ask, in ascending price order, then one entry per bid level, tagged
bid, also in ascending price order; each entry carries the level's stored volume. -/
theorem C16_snapshot_order (b : order_book) (hb : b.wf) :
    b.snapshot.length = b.asks.length + b.bids.length ∧
    ∃ front back : List order_book_change, b.snapshot = front ++ back ∧
      front.length = b.asks.length ∧ back.length = b.bids.length ∧
      (∀ e ∈ front, e.side = order_book_side.ask) ∧
      (∀ e ∈ back, e.side = order_book_side.bid) ∧
      List.Pairwise (fun x y => x.price < y.price) front ∧
      List.Pairwise (fun x y => x.price < y.price) back ∧
      (∀ p v, (⟨order_book_side.ask, p, v⟩ : order_book_change) ∈ front ↔
        map_find b.asks p = some v) ∧
      (∀ p v, (⟨order_book_side.bid, p, v⟩ : order_book_change) ∈ back ↔
        map_find b.bids p = some v) := by
  refine ⟨by simp [order_book.snapshot], _, _, rfl, by simp, by simp, ?_, ?_, ?_, ?_, ?_, ?_⟩
  · intro e he
    obtain ⟨a, -, rfl⟩ := List.mem_map.1 he
    rfl
  · intro e he
    obtain ⟨a, -, rfl⟩ := List.mem_map.1 he
    rfl
  · rw [List.pairwise_map]
    exact hb.2
  · rw [List.pairwise_map]
    exact hb.1
  · intro p v
    rw [map_find_eq_some hb.2]
    constructor
    · intro h
      obtain ⟨a, ha, hav⟩ := List.mem_map.1 h
      simp only [order_book_change.mk.injEq, true_and] at hav
      obtain ⟨h1, h2⟩ := hav
      rw [← h1, ← h2]
      exact ha
    · intro h
      exact List.mem_map.2 ⟨(p, v), h, rfl⟩
  · intro p v
    rw [map_find_eq_some hb.1]
    constructor
    · intro h
      obtain ⟨a, ha, hav⟩ := List.mem_map.1 h
      simp only [order_book_change.mk.injEq, true_and] at hav
      obtain ⟨h1, h2⟩ := hav
      rw [← h1, ← h2]
      exact ha
    · intro h
      exact List.mem_map.2 ⟨(p, v), h, rfl⟩

/-- C16 (amended), at the book of the counterexample. -/
theorem C16_snapshot_order_witness :
    order_book.wf { bids := [(1, 5), (2, 6)], asks := [(3, 7)] } ∧
    ( order_book.snapshot { bids := [(1, 5), (2, 6)], asks := [(3, 7)] }).length =
      ({ bids := [(1, 5), (2, 6)], asks := [(3, 7)] } : order_book).asks.length +
        ({ bids := [(1, 5), (2, 6)], asks := [(3, 7)] } : order_book).bids.length :=
  ⟨by norm_num [order_book.wf, map_wf],
    (C16_snapshot_order { bids := [(1, 5), (2, 6)], asks := [(3, 7)] }
      (by norm_num [order_book.wf, map_wf])).1⟩

end bantam

namespace bantam

/-! ## Decoding and handshake sequencing -/

/-- The tail of `on_read` (`do_read ()`, `write_next ()`) only starts transport
operations. -/
theorem read_tail_trace (c : client) :
    ∃ added : List event, (client.write_next (client.do_read c)).trace = c.trace ++ added ∧
      ∀ e ∈ added, e = event.async_read ∨ ∃ m, e = event.async_write m := by
  have hw : ∀ d : client, ∃ added : List event, (client.write_next d).trace = d.trace ++ added ∧
      ∀ e ∈ added, e = event.async_read ∨ ∃ m, e = event.async_write m := by
    intro d
    unfold client.write_next
    split_ifs
    · exact ⟨[], by simp, by simp⟩
    · split
      · exact ⟨[], by simp, by simp⟩
      · next front rest _ => exact ⟨[event.async_write front], rfl, by simp⟩
  have hd : ∃ added : List event, (client.do_read c).trace = c.trace ++ added ∧
      ∀ e ∈ added, e = event.async_read ∨ ∃ m, e = event.async_write m := by
    unfold client.do_read
    split_ifs
    · exact ⟨[], by simp, by simp⟩
    · exact ⟨[event.async_read], rfl, by simp⟩
  obtain ⟨a1, h1, q1⟩ := hd
  obtain ⟨a2, h2, q2⟩ := hw (client.do_read c)
  refine ⟨a1 ++ a2, by rw [h2, h1, List.append_assoc], ?_⟩
  intro e he
  rcases List.mem_append.1 he with h | h
  · exact q1 e h
  · exact q2 e h

theorem on_read_no_type (env : handlers) (c : client) (now : Int) (doc : inbound)
    (htype : doc.type = none) :
    c.on_read env now false (frame.text doc) =
      client.write_next (client.do_read (client.close (client.cerr
        { c with reading_now := false, last_read_time := now }
        ("Handle read - " ++ "Sequence failed, invalid message format")))) := by
  simp [client.on_read, client.on_read_try, htype, client.catch_read]

theorem on_read_other_type (env : handlers) (c : client) (now : Int) (doc : inbound)
    (t : String) (htype : doc.type = some t) (h1 : t ≠ "hello") (h2 : t ≠ "ping")
    (h3 : t ≠ "get") (h4 : t ≠ "data") :
    c.on_read env now false (frame.text doc) =
      client.write_next (client.do_read
        { c with reading_now := false, last_read_time := now }) := by
  simp [client.on_read, client.on_read_try, htype, h1, h2, h3, h4, client.catch_read]

theorem on_read_ping (env : handlers) (c : client) (now : Int) (doc : inbound)
    (htype : doc.type = some "ping") :
    c.on_read env now false (frame.text doc) =
      client.write_next (client.do_read ( client.write_pong
        { c with reading_now := false, last_read_time := now }
        (doc.opaque_.getD (-1)))) := by
  simp [client.on_read, client.on_read_try, htype, client.catch_read]

/-- C19, the claim as stated fails: on a connected engine a text message with the
unrecognized type "subscribe" is processed without any error: `close ()` is not called,
the only thing `on_read` does is to start the next read. -/
theorem C19_counterexample :
    client.on_read idle_handlers { handshake_completed := true, is_open := true } 0 false
        (frame.text { type := some "subscribe", opaque_ := some 1 }) =
      { handshake_completed := true, is_open := true, reading_now := true,
        trace := [event.async_read] } ∧
    event.info "Closing connection" ∉
      ( client.on_read idle_handlers { handshake_completed := true, is_open := true } 0 false
        (frame.text { type := some "subscribe", opaque_ := some 1 })).trace := by
  decide

/-- C19 (amended): a text message without a "type" member is a protocol error: it is
caught in `on_read`, which calls `close ()` and calls no user code.  A text message
whose type is none of hello, ping, get, data is ignored: `on_read` records the read time
and goes on with `do_read ()` and `write_next ()`; `close ()` is not called and no user
code is called.  A message without an "opaque" member is valid and gets the opaque id
-1: a ping without it is answered with `write_pong (-1)`. -/
theorem C19_decode_missing_or_unrecognized_type (env : handlers) (c : client) (now : Int)
    (doc : inbound) :
    (doc.type = none →
      c.on_read env now false (frame.text doc) =
        client.write_next (client.do_read (client.close (client.cerr
          { c with reading_now := false, last_read_time := now }
          ("Handle read - " ++ "Sequence failed, invalid message format")))) ∧
      ∃ added : List event,
        (c.on_read env now false (frame.text doc)).trace = c.trace ++ added ∧
        event.info "Closing connection" ∈ added ∧ ∀ e ∈ added, e.is_callback = false) ∧
    (∀ t, doc.type = some t → t ≠ "hello" → t ≠ "ping" → t ≠ "get" → t ≠ "data" →
      c.on_read env now false (frame.text doc) =
        client.write_next (client.do_read
          { c with reading_now := false, last_read_time := now }) ∧
      ∃ added : List event,
        (c.on_read env now false (frame.text doc)).trace = c.trace ++ added ∧
        event.info "Closing connection" ∉ added ∧ ∀ e ∈ added, e.is_callback = false) ∧
    (doc.type = some "ping" → doc.opaque_ = none →
      c.on_read env now false (frame.text doc) =
        client.write_next (client.do_read ( client.write_pong
          { c with reading_now := false, last_read_time := now } (-1)))) := by
  refine ⟨?_, ?_, ?_⟩
  · intro htype
    have heq := on_read_no_type env c now doc htype
    refine ⟨heq, ?_⟩
    rw [heq]
    exact (read_error_tail
      ({ c with reading_now := false, last_read_time := now } : client) _).2.2.2
  · intro t htype h1 h2 h3 h4
    have heq := on_read_other_type env c now doc t htype h1 h2 h3 h4
    refine ⟨heq, ?_⟩
    rw [heq]
    obtain ⟨added, ha, hq⟩ := read_tail_trace
      ({ c with reading_now := false, last_read_time := now } : client)
    refine ⟨added, ha, ?_, ?_⟩
    · intro hmem
      rcases hq _ hmem with h | ⟨m, h⟩ <;> cases h
    · intro e he
      rcases hq e he with h | ⟨m, h⟩ <;> rw [h] <;> rfl
  · intro htype hop
    have heq := on_read_ping env c now doc htype
    rw [hop] at heq
    exact heq

/-- C19 (amended), at a connected engine and a message of type "subscribe". -/
theorem C19_decode_missing_or_unrecognized_type_witness :
    ({ type := some "subscribe", opaque_ := some 1 } : inbound).type = some "subscribe" ∧
    "subscribe" ≠ "hello" ∧ "subscribe" ≠ "ping" ∧ "subscribe" ≠ "get" ∧
    "subscribe" ≠ "data" ∧
    client.on_read idle_handlers { handshake_completed := true, is_open := true } 0 false
        (frame.text { type := some "subscribe", opaque_ := some 1 }) =
      client.write_next (client.do_read
        { ({ handshake_completed := true, is_open := true } : client) with
          reading_now := false, last_read_time := 0 }) :=
  ⟨rfl, by decide, by decide, by decide, by decide,
    ((C19_decode_missing_or_unrecognized_type idle_handlers
      { handshake_completed := true, is_open := true } 0
      { type := some "subscribe", opaque_ := some 1 }).2.1 "subscribe" rfl
      (by decide) (by decide) (by decide) (by decide)).1⟩

/-- C20, the claim as stated fails: before the handshake (flag unset) a ping is
processed without `close ()` being called; and a get response whose opaque id was
registered by `get_resource` before the handshake calls the registered callback. -/
theorem C20_counterexample :
    event.info "Closing connection" ∉
      ( client.on_read idle_handlers { is_open := true } 0 false
        (frame.text { type := some "ping", opaque_ := some 1 })).trace ∧
    ( client.get_resource { is_open := true } "channels" (some 7)).state.handshake_completed =
      false ∧
    times_called 7
      ( client.on_read idle_handlers
        ( client.get_resource { is_open := true } "channels" (some 7)).state 0 false
        (frame.text { type := some "get", opaque_ := some 1 })).trace = 1 ∧
    event.info "Closing connection" ∉
      ( client.on_read idle_handlers
        ( client.get_resource { is_open := true } "channels" (some 7)).state 0 false
        (frame.text { type := some "get", opaque_ := some 1 })).trace := by
  decide

/-- C20 (amended): with `handshake_completed` unset, a message of a type other than
hello is processed as follows, and the missing handshake is no error.  A ping is
ignored: its pong is dropped by the guard of `write`, `close ()` is not called and no
user code is called.  A get response is matched against `resource_reads` as after the
handshake: on a match the callback is called (only an unmatched id is a protocol
error).  A data message calls the callback subscribed to its channel, if there is one,
and is dropped otherwise. -/
theorem C20_messages_before_the_handshake (env : handlers) (c : client) (now : Int)
    (doc : inbound) (hflag : c.handshake_completed = false) :
    (doc.type = some "ping" →
      c.on_read env now false (frame.text doc) =
        client.write_next (client.do_read
          { c with reading_now := false, last_read_time := now }) ∧
      ∃ added : List event,
        (c.on_read env now false (frame.text doc)).trace = c.trace ++ added ∧
        event.info "Closing connection" ∉ added ∧ ∀ e ∈ added, e.is_callback = false) ∧
    (doc.type = some "get" → ∀ f,
      table_find c.resource_reads (doc.opaque_.getD (-1)) = some (some f) →
      c.on_read env now false (frame.text doc) =
        client.write_next (client.do_read (client.catch_read
          (env.json_callback f (callback_arg.content doc.content)
            { c with reading_now := false, last_read_time := now,
                     trace := c.trace ++ [event.json_callback f
                       (callback_arg.content doc.content)] })))) ∧
    (doc.type = some "data" →
      c.on_read env now false (frame.text doc) =
        client.write_next (client.do_read (client.catch_read
          (match table_find c.subscriptions doc.channel with
            | some callback =>
              client.call env ({ c with reading_now := false, last_read_time := now } : client)
                callback (callback_arg.doc doc)
            | none =>
              outcome.returned
                ({ c with reading_now := false, last_read_time := now } : client))))) := by
  refine ⟨?_, ?_, ?_⟩
  · intro htype
    have hnc : client.is_connected
        ({ c with reading_now := false, last_read_time := now } : client) = false := by
      simp [client.is_connected, hflag]
    have heq : c.on_read env now false (frame.text doc) =
        client.write_next (client.do_read
          { c with reading_now := false, last_read_time := now }) := by
      rw [on_read_ping env c now doc htype]
      unfold client.write_pong client.write_doc
      rw [write_not_connected _ _ hnc]
    refine ⟨heq, ?_⟩
    rw [heq]
    obtain ⟨added, ha, hq⟩ := read_tail_trace
      ({ c with reading_now := false, last_read_time := now } : client)
    refine ⟨added, ha, ?_, ?_⟩
    · intro hmem
      rcases hq _ hmem with h | ⟨m, h⟩ <;> cases h
    · intro e he
      rcases hq e he with h | ⟨m, h⟩ <;> rw [h] <;> rfl
  · intro htype f hkey
    exact on_read_get_matched env c now doc f htype hkey
  · intro htype
    exact on_read_data env c now doc htype

/-- C20 (amended), at an engine with an open transport before the hello. -/
theorem C20_messages_before_the_handshake_witness :
    ({ is_open := true } : client).handshake_completed = false ∧
    ({ type := some "ping", opaque_ := some 1 } : inbound).type = some "ping" ∧
    client.on_read idle_handlers { is_open := true } 0 false
        (frame.text { type := some "ping", opaque_ := some 1 }) =
      client.write_next (client.do_read
        { ({ is_open := true } : client) with reading_now := false, last_read_time := 0 }) :=
  ⟨rfl, rfl,
    ((C20_messages_before_the_handshake idle_handlers { is_open := true } 0
      { type := some "ping", opaque_ := some 1 } rfl).1 rfl).1⟩

end bantam

namespace bantam

/-! ## The mirror image: `sell_partial` against `buy_partial` -/

/-- Two ordered maps with the same entries are the same list. -/
theorem map_ext {m1 m2 : map_type} (h1 : map_wf m1) (h2 : map_wf m2)
    (h : ∀ e : price_type × ℚ, e ∈ m1 ↔ e ∈ m2) : m1 = m2 := by
  have hanti : IsAntisymm (price_type × ℚ) (fun a b => a.1 < b.1) :=
    ⟨fun a b hab hba => absurd hab (lt_asymm hba)⟩
  have hnd : ∀ m : map_type, map_wf m → m.Nodup := by
    intro m hm
    exact List.Pairwise.imp (fun {a b} hab heq => by rw [heq] at hab; exact lt_irrefl _ hab) hm
  exact List.eq_of_perm_of_sorted ((List.perm_ext_iff_of_nodup (hnd m1 h1) (hnd m2 h2)).2 h)
    h1 h2

theorem mem_mirror_map {m : map_type} {e : price_type × ℚ} :
    e ∈ mirror_map m ↔ (-e.1, e.2) ∈ m := by
  unfold mirror_map
  rw [List.mem_reverse, List.mem_map]
  constructor
  · rintro ⟨a, ha, rfl⟩
    simpa using ha
  · intro h
    exact ⟨(-e.1, e.2), h, by simp⟩

theorem map_wf_mirror {m : map_type} (hm : map_wf m) : map_wf (mirror_map m) := by
  unfold mirror_map map_wf
  rw [List.pairwise_reverse, List.pairwise_map]
  exact List.Pairwise.imp (fun {a b} hab => by simpa using hab) hm

theorem mirror_map_mirror_map (m : map_type) : mirror_map (mirror_map m) = m := by
  unfold mirror_map
  rw [List.map_reverse, List.reverse_reverse, List.map_map]
  have : ((fun e : price_type × ℚ => (-e.1, e.2)) ∘ fun e : price_type × ℚ => (-e.1, e.2)) =
      id := by
    funext e
    simp
  rw [this, List.map_id]

theorem map_find_mirror {m : map_type} (hm : map_wf m) (price : ℚ) :
    map_find (mirror_map m) (-price) = map_find m price := by
  cases hf : map_find m price with
  | some v =>
    rw [map_find_eq_some (map_wf_mirror hm), mem_mirror_map]
    simpa using (map_find_eq_some hm).1 hf
  | none =>
    rw [map_find_eq_none] at hf ⊢
    intro e he hk
    rw [mem_mirror_map] at he
    exact hf _ he (by simp [hk])

theorem mem_map_emplace {m : map_type} {price : ℚ} (volume : ℚ)
    (h : map_find m price = none) (e : price_type × ℚ) :
    e ∈ map_emplace m price volume ↔ e = (price, volume) ∨ e ∈ m := by
  constructor
  · exact map_emplace_keys
  · induction m with
    | nil => simp [map_emplace]
    | cons a m ih =>
      obtain ⟨k, w⟩ := a
      have hk : ¬ k = price := by
        intro hk
        simp [map_find, hk] at h
      have hrest : map_find m price = none := by
        simpa [map_find, hk] using h
      intro he
      unfold map_emplace
      split_ifs with h1 h2
      · simpa using he
      · exact absurd h2.symm hk
      · rcases he with he | he
        · exact List.mem_cons_of_mem _ (ih hrest (Or.inl he))
        · rcases List.mem_cons.1 he with h3 | h3
          · rw [h3]
            exact List.mem_cons_self _ _
          · exact List.mem_cons_of_mem _ (ih hrest (Or.inr h3))

theorem mem_map_assign {m : map_type} {price second : ℚ} (volume : ℚ) (hm : map_wf m)
    (h : map_find m price = some second) (e : price_type × ℚ) :
    e ∈ map_assign m price volume ↔ e = (price, volume) ∨ (e ∈ m ∧ e.1 ≠ price) := by
  induction m with
  | nil => simp [map_find] at h
  | cons a m ih =>
    obtain ⟨k, w⟩ := a
    have hc := map_wf_cons.1 hm
    by_cases hk : k = price
    · subst hk
      simp only [map_assign, if_true, List.mem_cons]
      constructor
      · rintro (he | he)
        · exact Or.inl he
        · exact Or.inr ⟨Or.inr he, ne_of_gt (hc.1 e he)⟩
      · rintro (he | ⟨he | he, hne⟩)
        · exact Or.inl he
        · rw [he] at hne
          exact absurd rfl hne
        · exact Or.inr he
    · have hrest : map_find m price = some second := by
        simpa [map_find, hk] using h
      simp only [map_assign, hk, if_false, List.mem_cons, ih hc.2 hrest]
      constructor
      · rintro (he | he | ⟨he, hne⟩)
        · exact Or.inr ⟨Or.inl he, by rw [he]; exact hk⟩
        · exact Or.inl he
        · exact Or.inr ⟨Or.inr he, hne⟩
      · rintro (he | ⟨he | he, hne⟩)
        · exact Or.inr (Or.inl he)
        · exact Or.inl he
        · exact Or.inr (Or.inr ⟨he, hne⟩)

theorem map_emplace_mirror {m : map_type} (hm : map_wf m) {price : ℚ} (volume : ℚ)
    (h : map_find m price = none) :
    map_emplace (mirror_map m) (-price) volume = mirror_map (map_emplace m price volume) := by
  have h1 : map_find (mirror_map m) (-price) = none := by rw [map_find_mirror hm, h]
  apply map_ext (map_wf_emplace _ _ (map_wf_mirror hm)) (map_wf_mirror (map_wf_emplace _ _ hm))
  intro e
  have hr : e ∈ mirror_map (map_emplace m price volume) ↔
      (-e.1, e.2) = (price, volume) ∨ (-e.1, e.2) ∈ m := by
    rw [mem_mirror_map]
    exact mem_map_emplace volume h _
  rw [mem_map_emplace _ h1, hr, mem_mirror_map]
  constructor
  · rintro (he | he)
    · exact Or.inl (by rw [he]; simp)
    · exact Or.inr he
  · rintro (he | he)
    · refine Or.inl ?_
      have h2 := congrArg Prod.fst he
      have h3 := congrArg Prod.snd he
      simp only at h2 h3
      exact Prod.ext (by simp only; linarith) h3
    · exact Or.inr he

theorem map_assign_mirror {m : map_type} (hm : map_wf m) {price second : ℚ} (volume : ℚ)
    (h : map_find m price = some second) :
    map_assign (mirror_map m) (-price) volume = mirror_map (map_assign m price volume) := by
  have h1 : map_find (mirror_map m) (-price) = some second := by rw [map_find_mirror hm, h]
  apply map_ext (map_wf_assign _ _ (map_wf_mirror hm)) (map_wf_mirror (map_wf_assign _ _ hm))
  intro e
  have hr : e ∈ mirror_map (map_assign m price volume) ↔
      (-e.1, e.2) = (price, volume) ∨ ((-e.1, e.2) ∈ m ∧ (-e.1, e.2).1 ≠ price) := by
    rw [mem_mirror_map]
    exact mem_map_assign volume hm h _
  rw [mem_map_assign _ (map_wf_mirror hm) h1, hr, mem_mirror_map]
  constructor
  · rintro (he | ⟨he, hne⟩)
    · exact Or.inl (by rw [he]; simp)
    · refine Or.inr ⟨he, ?_⟩
      simp only
      intro hk
      exact hne (by linarith)
  · rintro (he | ⟨he, hne⟩)
    · refine Or.inl ?_
      have h2 := congrArg Prod.fst he
      have h3 := congrArg Prod.snd he
      simp only at h2 h3
      exact Prod.ext (by simp only; linarith) h3
    · refine Or.inr ⟨he, ?_⟩
      simp only at hne
      intro hk
      exact hne (by linarith)

end bantam

namespace bantam

theorem order_book_change_mirror_mirror (e : order_book_change) : e.mirror.mirror = e := by
  obtain ⟨side, price, volume⟩ := e
  cases side <;> simp [order_book_change.mirror, order_book_side.mirror]

theorem map_mirror_mirror (changes : List order_book_change) :
    (changes.map order_book_change.mirror).map order_book_change.mirror = changes := by
  rw [List.map_map]
  have : (order_book_change.mirror ∘ order_book_change.mirror) = id := by
    funext e
    exact order_book_change_mirror_mirror e
  rw [this, List.map_id]

/-- The walk of `buy_partial` over the negated asks does what the walk of `sell_partial`
does over the asks. -/
theorem buy_walk_mirror (min_price : ℚ) (l : List (price_type × ℚ)) (volume : ℚ)
    (changes : List order_book_change) :
    buy_walk (-min_price) (l.map (fun e => (-e.1, e.2))) volume
        (changes.map order_book_change.mirror) =
      ((sell_walk min_price l volume changes).1.map (fun e => (-e.1, e.2)),
        (sell_walk min_price l volume changes).2.1,
        (sell_walk min_price l volume changes).2.2.map order_book_change.mirror) := by
  induction l generalizing volume changes with
  | nil => simp [buy_walk, sell_walk]
  | cons e l ih =>
    obtain ⟨p, v⟩ := e
    rw [List.map_cons]
    by_cases h0 : 0 < volume
    · by_cases hp : p ≤ min_price
      · by_cases hv : volume < v
        · rw [sell_walk_fill _ _ _ _ _ _ h0 hp hv,
            buy_walk_fill _ _ _ _ _ _ h0 (neg_le_neg hp) hv]
          simp [order_book_change.mirror, order_book_side.mirror]
        · rw [sell_walk_drain _ _ _ _ _ _ h0 hp (not_lt.1 hv),
            buy_walk_drain _ _ _ _ _ _ h0 (neg_le_neg hp) (not_lt.1 hv), ← ih]
          simp [order_book_change.mirror, order_book_side.mirror]
      · rw [sell_walk_above _ _ _ _ _ _ (not_le.1 hp),
          buy_walk_below _ _ _ _ _ _ (neg_lt_neg (not_le.1 hp))]
        simp
    · rw [sell_walk_done _ _ _ h0, buy_walk_done _ _ _ h0]
      simp

/-- C17: on a book whose sides are ordered maps, `sell_partial (p, vol)` yields the
mirror image of the book and the mirror images of the change events that
`buy_partial (-p, vol)` yields on the mirror image of the book (started on the mirror
images of the events already in the output sequence); the mirror image negates every
price and exchanges the bid and ask sides, and on an event the side tag. -/
theorem C17_sell_partial_mirrors_buy_partial (b : order_book) (p vol : ℚ)
    (changes : List order_book_change) (hb : b.wf) :
    b.sell_partial p vol changes =
      (( order_book.buy_partial b.mirror (-p) vol
          (changes.map order_book_change.mirror)).1.mirror,
        ( order_book.buy_partial b.mirror (-p) vol
          (changes.map order_book_change.mirror)).2.map order_book_change.mirror) := by
  have hw := buy_walk_mirror p b.asks vol changes
  have hrev : (mirror_map b.asks).reverse = b.asks.map (fun e => (-e.1, e.2)) := by
    simp [mirror_map]
  have hback : ∀ l : map_type, mirror_map ((l.map (fun e => (-e.1, e.2))).reverse) = l := by
    intro l
    exact mirror_map_mirror_map l
  unfold order_book.sell_partial order_book.buy_partial order_book.mirror
  simp only [hrev, hw, map_find_mirror hb.1]
  split_ifs with h
  · cases hf : map_find b.bids p with
    | none =>
      simp only [map_emplace_mirror hb.1 _ hf, mirror_map_mirror_map, hback, List.map_append,
        map_mirror_mirror, List.map_cons, List.map_nil, order_book_change.mirror,
        order_book_side.mirror, neg_neg]
    | some second =>
      simp only [map_assign_mirror hb.1 _ hf, mirror_map_mirror_map, hback, List.map_append,
        map_mirror_mirror, List.map_cons, List.map_nil, order_book_change.mirror,
        order_book_side.mirror, neg_neg]
  · simp only [mirror_map_mirror_map, hback, map_mirror_mirror]

/-- C17, at a book where the sell order drains the ask at 101 and rests its remainder
as a bid. -/
theorem C17_sell_partial_mirrors_buy_partial_witness :
    order_book.wf { bids := [(99, 1), (100, 2)], asks := [(101, 3), (102, 4)] } ∧
    order_book.sell_partial { bids := [(99, 1), (100, 2)], asks := [(101, 3), (102, 4)] }
        101 5 [] =
      (( order_book.buy_partial
          ( order_book.mirror { bids := [(99, 1), (100, 2)], asks := [(101, 3), (102, 4)] })
          (-101) 5 (([] : List order_book_change).map order_book_change.mirror)).1.mirror,
        ( order_book.buy_partial
          ( order_book.mirror { bids := [(99, 1), (100, 2)], asks := [(101, 3), (102, 4)] })
          (-101) 5 (([] : List order_book_change).map order_book_change.mirror)).2.map
            order_book_change.mirror) :=
  ⟨by norm_num [order_book.wf, map_wf],
    C17_sell_partial_mirrors_buy_partial
      { bids := [(99, 1), (100, 2)], asks := [(101, 3), (102, 4)] } 101 5 []
      (by norm_num [order_book.wf, map_wf])⟩

end bantam

namespace bantam

/-! ## The change events of `buy_partial` -/

/-- The shape of a finished walk, with its events: a run `d` of entries was drained and
deleted, one event with volume 0 each; then either the walk stopped, or the next entry
was partly filled by the volume `k` still open, with one more event. -/
theorem buy_walk_shape_events (max_price : ℚ) (l : List (price_type × ℚ)) (volume : ℚ)
    (changes : List order_book_change) :
    ∃ d t, l = d ++ t ∧
      (((buy_walk max_price l volume changes).1 = t ∧
          (buy_walk max_price l volume changes).2.2 =
            changes ++ d.map (fun e => ⟨order_book_side.bid, e.1, 0⟩)) ∨
        ∃ p v k rest, t = (p, v) :: rest ∧ 0 < k ∧ k < v ∧
          (buy_walk max_price l volume changes).1 = (p, v - k) :: rest ∧
          (buy_walk max_price l volume changes).2.2 =
            changes ++ d.map (fun e => ⟨order_book_side.bid, e.1, 0⟩) ++
              [⟨order_book_side.bid, p, v - k⟩]) := by
  induction l generalizing volume changes with
  | nil => exact ⟨[], [], rfl, Or.inl ⟨rfl, by simp [buy_walk]⟩⟩
  | cons e l ih =>
    obtain ⟨p, v⟩ := e
    by_cases h0 : 0 < volume
    · by_cases hp : max_price ≤ p
      · by_cases hv : volume < v
        · rw [buy_walk_fill _ _ _ _ _ _ h0 hp hv]
          exact ⟨[], (p, v) :: l, rfl, Or.inr ⟨p, v, volume, l, rfl, h0, hv, rfl, by simp⟩⟩
        · rw [buy_walk_drain _ _ _ _ _ _ h0 hp (not_lt.1 hv)]
          obtain ⟨d, t, hl, hr⟩ := ih (volume - v) (changes ++ [⟨order_book_side.bid, p, 0⟩])
          refine ⟨(p, v) :: d, t, by simp [hl], ?_⟩
          rcases hr with ⟨h1, h2⟩ | ⟨q, w, k, rest, ht, hk0, hkw, h1, h2⟩
          · exact Or.inl ⟨h1, by rw [h2]; simp⟩
          · exact Or.inr ⟨q, w, k, rest, ht, hk0, hkw, h1, by rw [h2]; simp⟩
      · rw [buy_walk_below _ _ _ _ _ _ (not_le.1 hp)]
        exact ⟨[], (p, v) :: l, rfl, Or.inl ⟨rfl, by simp⟩⟩
    · rw [buy_walk_done _ _ _ h0]
      exact ⟨[], (p, v) :: l, rfl, Or.inl ⟨rfl, by simp⟩⟩

theorem buy_partial_events (b : order_book) (max_price vol : ℚ)
    (changes : List order_book_change) :
    ( b.buy_partial max_price vol changes).2 =
      (buy_walk max_price b.bids.reverse vol changes).2.2 ++
        (if 0 < (buy_walk max_price b.bids.reverse vol changes).2.1 then
          [⟨order_book_side.ask, max_price, (map_find b.asks max_price).getD 0 +
            (buy_walk max_price b.bids.reverse vol changes).2.1⟩]
        else []) := by
  unfold order_book.buy_partial
  simp only []
  split_ifs with h
  · cases hs : map_find b.asks max_price with
    | none => simp
    | some second => simp
  · simp

/-- The bid events of a walk over an ordered bid side, against the bid side before
(`l`, descending) and after (the first component of the result, descending). -/
theorem buy_walk_events_spec (max_price : ℚ) (l : List (price_type × ℚ)) (volume : ℚ)
    (changes : List order_book_change) (hl : List.Pairwise (fun a b => b.1 < a.1) l) :
    ∃ evs : List order_book_change,
      (buy_walk max_price l volume changes).2.2 = changes ++ evs ∧
      (∀ e ∈ evs, e.side = order_book_side.bid) ∧
      List.Pairwise (fun x y => y.price < x.price) evs ∧
      (∀ e ∈ evs, (∃ v, (e.price, v) ∈ l) ∧
        ((e.volume = 0 ∧ ∀ a ∈ (buy_walk max_price l volume changes).1, a.1 ≠ e.price) ∨
          ((e.price, e.volume) ∈ (buy_walk max_price l volume changes).1 ∧
            ∃ v, (e.price, v) ∈ l ∧ v ≠ e.volume))) ∧
      (∀ q, (∀ e ∈ evs, e.price ≠ q) → ∀ a : price_type × ℚ, a.1 = q →
        (a ∈ (buy_walk max_price l volume changes).1 ↔ a ∈ l)) := by
  obtain ⟨d, t, hdt, hr⟩ := buy_walk_shape_events max_price l volume changes
  subst hdt
  rw [List.pairwise_append] at hl
  obtain ⟨hd, ht, hdt⟩ := hl
  have hdesc : List.Pairwise (fun x y : order_book_change => y.price < x.price)
      (d.map (fun e => (⟨order_book_side.bid, e.1, 0⟩ : order_book_change))) := by
    rw [List.pairwise_map]
    exact hd
  rcases hr with ⟨h1, h2⟩ | ⟨p, v, k, rest, htr, hk0, hkv, h1, h2⟩
  · rw [h1, h2]
    refine ⟨_, rfl, ?_, hdesc, ?_, ?_⟩
    · intro e he
      obtain ⟨a, -, rfl⟩ := List.mem_map.1 he
      rfl
    · intro e he
      obtain ⟨a, ha, rfl⟩ := List.mem_map.1 he
      refine ⟨⟨a.2, List.mem_append_left _ ha⟩, Or.inl ⟨rfl, ?_⟩⟩
      intro x hx
      exact ne_of_lt (hdt a ha x hx)
    · intro q hq a haq
      constructor
      · exact fun h => List.mem_append_right _ h
      · intro h
        rcases List.mem_append.1 h with h3 | h3
        · exact absurd haq (hq _ (List.mem_map.2 ⟨a, h3, rfl⟩))
        · exact h3
  · subst htr
    rw [h1, h2, List.append_assoc]
    have hc := List.pairwise_cons.1 ht
    refine ⟨_, rfl, ?_, ?_, ?_, ?_⟩
    · intro e he
      rcases List.mem_append.1 he with h3 | h3
      · obtain ⟨a, -, rfl⟩ := List.mem_map.1 h3
        rfl
      · rw [List.mem_singleton.1 h3]
    · rw [List.pairwise_append]
      refine ⟨hdesc, List.pairwise_singleton _ _, ?_⟩
      intro x hx y hy
      obtain ⟨a, ha, rfl⟩ := List.mem_map.1 hx
      rw [List.mem_singleton.1 hy]
      exact hdt a ha (p, v) (List.mem_cons_self _ _)
    · intro e he
      rcases List.mem_append.1 he with h3 | h3
      · obtain ⟨a, ha, rfl⟩ := List.mem_map.1 h3
        refine ⟨⟨a.2, List.mem_append_left _ ha⟩, Or.inl ⟨rfl, ?_⟩⟩
        intro x hx
        rcases List.mem_cons.1 hx with h4 | h4
        · rw [h4]
          exact ne_of_lt (hdt a ha (p, v) (List.mem_cons_self _ _))
        · exact ne_of_lt (hdt a ha x (List.mem_cons_of_mem _ h4))
      · rw [List.mem_singleton.1 h3]
        have hmem : (p, v) ∈ d ++ (p, v) :: rest :=
          List.mem_append_right _ (List.mem_cons_self _ _)
        refine ⟨⟨v, hmem⟩, Or.inr ⟨List.mem_cons_self _ _, v, hmem, ?_⟩⟩
        simp only
        linarith
    · intro q hq a haq
      have hqp : p ≠ q := hq ⟨order_book_side.bid, p, v - k⟩ (by simp)
      have hne : ∀ u : ℚ, a ≠ (p, u) := by
        intro u hu
        rw [hu] at haq
        exact hqp haq
      constructor
      · intro h
        rcases List.mem_cons.1 h with h3 | h3
        · exact absurd h3 (hne _)
        · exact List.mem_append_right _ (List.mem_cons_of_mem _ h3)
      · intro h
        rcases List.mem_append.1 h with h3 | h3
        · exact absurd haq (hq _ (List.mem_append_left _ (List.mem_map.2 ⟨a, h3, rfl⟩)))
        · rcases List.mem_cons.1 h3 with h4 | h4
          · exact absurd h4 (hne _)
          · exact List.mem_cons_of_mem _ h4

end bantam

namespace bantam

/-- C18 (amended): with prices and volumes read as exact numbers, on a book whose sides
are ordered maps, for every `max_price`, volume and initial content `changes` of the
output sequence, `buy_partial` keeps `changes` as a
prefix and appends bid events followed by ask events such that: the bid events are in
strictly descending price order (so there is at most one per level); each bid event
belongs to a bid level of the book whose volume the call changed and carries the volume
of that level after the call (0 for a level that was deleted); every bid level the call
changed has its event; and the ask events are the single event
(`max_price`, resulting ask volume at `max_price`) when the ask side was modified, and
none when it was not.  The positivity of the stored volumes is not needed. -/
theorem C18_buy_partial_change_events (b b1 : order_book) (max_price vol : ℚ)
    (changes changes1 : List order_book_change) (hb : b.wf)
    (h : b.buy_partial max_price vol changes = (b1, changes1)) :
    ∃ bid_events ask_events : List order_book_change,
      changes1 = changes ++ bid_events ++ ask_events ∧
      (∀ e ∈ bid_events, e.side = order_book_side.bid) ∧
      List.Pairwise (fun x y => y.price < x.price) bid_events ∧
      (∀ e ∈ bid_events, map_find b.bids e.price ≠ none ∧
        map_find b1.bids e.price ≠ map_find b.bids e.price ∧
        ((e.volume = 0 ∧ map_find b1.bids e.price = none) ∨
          map_find b1.bids e.price = some e.volume)) ∧
      (∀ q, map_find b1.bids q ≠ map_find b.bids q → ∃ e ∈ bid_events, e.price = q) ∧
      ((b1.asks ≠ b.asks ∧ ∃ v, ask_events = [⟨order_book_side.ask, max_price, v⟩] ∧
          map_find b1.asks max_price = some v) ∨
        (b1.asks = b.asks ∧ ask_events = [])) := by
  have hb1 : b1 = ( b.buy_partial max_price vol changes).1 := by rw [h]
  have hc1 : changes1 = ( b.buy_partial max_price vol changes).2 := by rw [h]
  have hbids := buy_partial_bids b max_price vol changes
  rw [← hb1] at hbids
  have hdesc := map_wf_reverse.2 hb.1
  have hwf1 : map_wf b1.bids := by
    rw [hbids]
    exact map_wf_reverse.1
      (by simpa using (buy_walk_greedy max_price b.bids.reverse vol changes hdesc).1)
  obtain ⟨evs, hevs, hside, hord, hev, hrest⟩ :=
    buy_walk_events_spec max_price b.bids.reverse vol changes hdesc
  refine ⟨evs,
    (if 0 < (buy_walk max_price b.bids.reverse vol changes).2.1 then
      [⟨order_book_side.ask, max_price, (map_find b.asks max_price).getD 0 +
        (buy_walk max_price b.bids.reverse vol changes).2.1⟩]
    else []), ?_, hside, hord, ?_, ?_, ?_⟩
  · rw [hc1, buy_partial_events, hevs]
  · intro e he
    obtain ⟨⟨v, hv⟩, hafter⟩ := hev e he
    have hbefore : map_find b.bids e.price = some v :=
      (map_find_eq_some hb.1).2 (List.mem_reverse.1 hv)
    rcases hafter with ⟨h0, habs⟩ | ⟨hmem, w, hw, hne⟩
    · have hnone : map_find b1.bids e.price = none := by
        rw [map_find_eq_none, hbids]
        intro a ha
        exact habs a (List.mem_reverse.1 ha)
      refine ⟨by rw [hbefore]; simp, by rw [hnone, hbefore]; simp, Or.inl ⟨h0, hnone⟩⟩
    · have hsome : map_find b1.bids e.price = some e.volume := by
        rw [map_find_eq_some hwf1, hbids]
        exact List.mem_reverse.2 hmem
      have hbw : map_find b.bids e.price = some w :=
        (map_find_eq_some hb.1).2 (List.mem_reverse.1 hw)
      refine ⟨by rw [hbefore]; simp, ?_, Or.inr hsome⟩
      rw [hsome, hbw]
      intro heq
      exact hne (Option.some.inj heq).symm
  · intro q hq
    by_contra hno
    push_neg at hno
    apply hq
    apply map_find_congr hwf1 hb.1
    intro a haq
    rw [hbids, List.mem_reverse, hrest q hno a haq, List.mem_reverse]
  · by_cases hpos : 0 < (buy_walk max_price b.bids.reverse vol changes).2.1
    · obtain ⟨-, hself⟩ := buy_partial_asks_rested b max_price vol changes hpos
      rw [← hb1] at hself
      refine Or.inl ⟨?_, _, by rw [if_pos hpos], hself⟩
      intro heq
      rw [heq] at hself
      cases hf : map_find b.asks max_price with
      | none => rw [hf] at hself; simp at hself
      | some second =>
        rw [hf] at hself
        simp only [Option.getD_some, Option.some.injEq] at hself
        linarith
    · exact Or.inr ⟨by rw [hb1]; exact buy_partial_asks_kept b max_price vol changes hpos,
        by rw [if_neg hpos]⟩

/-- C18 (amended), at a book where the level 20 is drained, the level 10 is partly filled, and an
event is already in the output sequence. -/
theorem C18_buy_partial_change_events_witness :
    order_book.wf { bids := [(10, 5), (20, 3)], asks := [] } ∧
    order_book.buy_partial { bids := [(10, 5), (20, 3)], asks := [] } 5 4
        [⟨order_book_side.ask, 7, 7⟩] =
      ({ bids := [(10, 4)], asks := [] },
        [⟨order_book_side.ask, 7, 7⟩, ⟨order_book_side.bid, 20, 0⟩,
          ⟨order_book_side.bid, 10, 4⟩]) ∧
    ∃ bid_events ask_events : List order_book_change,
      [⟨order_book_side.ask, 7, 7⟩, ⟨order_book_side.bid, 20, 0⟩,
          ⟨order_book_side.bid, 10, 4⟩] =
        [⟨order_book_side.ask, 7, 7⟩] ++ bid_events ++ ask_events ∧
      (∀ e ∈ bid_events, e.side = order_book_side.bid) ∧
      List.Pairwise (fun x y => y.price < x.price) bid_events :=
  ⟨by norm_num [order_book.wf, map_wf],
    by norm_num [order_book.buy_partial, buy_walk],
    (C18_buy_partial_change_events { bids := [(10, 5), (20, 3)], asks := [] }
      { bids := [(10, 4)], asks := [] } 5 4 [⟨order_book_side.ask, 7, 7⟩]
      [⟨order_book_side.ask, 7, 7⟩, ⟨order_book_side.bid, 20, 0⟩,
        ⟨order_book_side.bid, 10, 4⟩]
      (by norm_num [order_book.wf, map_wf])
      (by norm_num [order_book.buy_partial, buy_walk])).imp
      (fun _ hx => hx.imp (fun _ hy => ⟨hy.1, hy.2.1, hy.2.2.1⟩))⟩

end bantam

namespace bantam

/-! ## The volume assertion -/

theorem update_fails_iff (m : map_type) (price volume : ℚ) :
    update m price volume = none ↔ ¬ 0 < volume := by
  unfold update
  split_ifs with h
  · cases map_find m price <;> simp [h]
  · simp [h]

/-- For a volume that is an exact number: `update_bid` and `update_ask` fail the check
`BOOST_VERIFY (volume > 0)` exactly when the volume is negative, and volume 0 goes to
`remove_bid` / `remove_ask` without reaching the check. -/
theorem update_fails_iff_negative (b : order_book) (p v : ℚ) :
    (b.update_bid p v = none ↔ v < 0) ∧
    (b.update_ask p v = none ↔ v < 0) ∧
    b.update_bid p 0 = some (b.remove_bid p) ∧
    b.update_ask p 0 = some (b.remove_ask p) := by
  refine ⟨?_, ?_, by simp [order_book.update_bid], by simp [order_book.update_ask]⟩
  · by_cases h0 : v = 0
    · simp [order_book.update_bid, h0]
    · simp only [order_book.update_bid, ne_eq, h0, not_false_eq_true, if_true,
        Option.map_eq_none', update_fails_iff]
      constructor
      · intro h
        exact lt_of_le_of_ne (not_lt.1 h) h0
      · intro h
        exact not_lt.2 (le_of_lt h)
  · by_cases h0 : v = 0
    · simp [order_book.update_ask, h0]
    · simp only [order_book.update_ask, ne_eq, h0, not_false_eq_true, if_true,
        Option.map_eq_none', update_fails_iff]
      constructor
      · intro h
        exact lt_of_le_of_ne (not_lt.1 h) h0
      · intro h
        exact not_lt.2 (le_of_lt h)

end bantam

namespace bantam

/-! ## The watchdog -/

/-- The elapsed whole seconds when the clock has not been set back and the difference
of the two tick counts fits an `int64_t`. -/
theorem last_read_elapsed_spec (c : client) (ticks_per_second : Nat) (now : Int)
    (htps : 0 < ticks_per_second) (hmono : c.last_read_time ≤ now)
    (hrange : now - c.last_read_time < 2 ^ 63) :
    c.last_read_elapsed ticks_per_second now = (now - c.last_read_time) / ticks_per_second ∧
    0 ≤ c.last_read_elapsed ticks_per_second now ∧
    c.last_read_elapsed ticks_per_second now % 2 ^ 64 =
      c.last_read_elapsed ticks_per_second now := by
  have hd : 0 ≤ now - c.last_read_time := sub_nonneg.2 hmono
  have hpos : (0 : Int) < ticks_per_second := by exact_mod_cast htps
  have heq : c.last_read_elapsed ticks_per_second now =
      (now - c.last_read_time) / ticks_per_second := by
    unfold client.last_read_elapsed
    exact Int.tdiv_eq_ediv hd (le_of_lt hpos)
  have hnn : 0 ≤ (now - c.last_read_time) / (ticks_per_second : Int) :=
    Int.ediv_nonneg hd (le_of_lt hpos)
  have hle : (now - c.last_read_time) / (ticks_per_second : Int) ≤ now - c.last_read_time :=
    Int.ediv_le_self _ hd
  refine ⟨heq, by rw [heq]; exact hnn, ?_⟩
  rw [heq]
  apply Int.emod_eq_of_lt hnn
  have : (2 : Int) ^ 63 < 2 ^ 64 := by norm_num
  linarith

theorem timer_rearm_trace (c : client) (ec : Bool) :
    ∃ added : List event, (c.timer_rearm ec).trace = c.trace ++ added ∧
      event.info "Reconnecting" ∉ added := by
  unfold client.timer_rearm
  split_ifs
  · exact ⟨[event.async_wait], rfl, by simp⟩
  · exact ⟨[event.fail "Reconnect timer"], rfl, by simp⟩

theorem reconnect_trace (c : client) (now : Int) :
    ∃ added : List event, (c.reconnect now).trace = c.trace ++ added ∧
      event.info "Reconnecting" ∈ added := by
  obtain ⟨ac, hc, -, -⟩ := close_trace (c.info "Reconnecting")
  refine ⟨[event.info "Reconnecting"] ++ ac ++
    [event.info "Opening connection", event.async_resolve], ?_, by simp⟩
  simp only [client.reconnect, client.open, client.info] at hc ⊢
  rw [hc]
  simp

/-- The watchdog while the clock is not set back: with time as tick counts
(`ticks_per_second` to the second, the clock not set back since `last_read_time` was
taken, the difference an `int64_t`), on a timer tick
`last_read_elapsed` is the number of whole seconds since `last_read_time`, and
`reconnect ()` is called if and only if it meets or exceeds `reconnect_seconds`, which
is 30 in the initial state and is kept by `open ()`.  `open ()` and `reconnect ()` set
`last_read_time` to the current time, so a tick at which less than the threshold has
passed since `open ()` does not reconnect: it only waits for the next tick. -/
theorem watchdog_threshold_clock_not_set_back (c : client) (ticks_per_second : Nat) (now later : Int)
    (ec : Bool) (htps : 0 < ticks_per_second) (hmono : c.last_read_time ≤ now)
    (hrange : now - c.last_read_time < 2 ^ 63) :
    c.last_read_elapsed ticks_per_second now = (now - c.last_read_time) / ticks_per_second ∧
    ((c.reconnect_seconds : Int) ≤ c.last_read_elapsed ticks_per_second now ↔
      (c.reconnect_seconds : Int) * ticks_per_second ≤ now - c.last_read_time) ∧
    ((c.reconnect_seconds : Int) ≤ c.last_read_elapsed ticks_per_second now →
      c.on_timer ticks_per_second now later ec = (c.reconnect later).timer_rearm ec) ∧
    (c.last_read_elapsed ticks_per_second now < c.reconnect_seconds →
      c.on_timer ticks_per_second now later ec = c.timer_rearm ec) ∧
    (∃ added : List event,
      (c.on_timer ticks_per_second now later ec).trace = c.trace ++ added ∧
      (event.info "Reconnecting" ∈ added ↔
        (c.reconnect_seconds : Int) ≤ c.last_read_elapsed ticks_per_second now)) ∧
    (c.open now).last_read_time = now ∧
    (c.open now).reconnect_seconds = c.reconnect_seconds ∧
    (c.reconnect later).last_read_time = later ∧
    ({} : client).reconnect_seconds = 30 ∧
    (∀ t : Int, t ≤ now → now - t < (c.reconnect_seconds : Int) * ticks_per_second →
      now - t < 2 ^ 63 →
      client.on_timer (c.open t) ticks_per_second now later ec =
        client.timer_rearm (c.open t) ec) := by
  obtain ⟨heq, hnn, hmod⟩ := last_read_elapsed_spec c ticks_per_second now htps hmono hrange
  have hpos : (0 : Int) < ticks_per_second := by exact_mod_cast htps
  have hyes : (c.reconnect_seconds : Int) ≤ c.last_read_elapsed ticks_per_second now →
      c.on_timer ticks_per_second now later ec = (c.reconnect later).timer_rearm ec := by
    intro h
    unfold client.on_timer
    simp only [hmod, h, if_true]
  have hno : c.last_read_elapsed ticks_per_second now < c.reconnect_seconds →
      c.on_timer ticks_per_second now later ec = c.timer_rearm ec := by
    intro h
    unfold client.on_timer
    simp only [hmod, not_le.2 h, if_false]
  refine ⟨heq, ?_, hyes, hno, ?_, rfl, rfl, rfl, rfl, ?_⟩
  · rw [heq]
    exact Int.le_ediv_iff_mul_le hpos
  · by_cases h : (c.reconnect_seconds : Int) ≤ c.last_read_elapsed ticks_per_second now
    · rw [hyes h]
      obtain ⟨a1, h1, m1⟩ := reconnect_trace c later
      obtain ⟨a2, h2, -⟩ := timer_rearm_trace (c.reconnect later) ec
      refine ⟨a1 ++ a2, by rw [h2, h1, List.append_assoc], ?_⟩
      simp [m1, h]
    · rw [hno (not_le.1 h)]
      obtain ⟨a2, h2, m2⟩ := timer_rearm_trace c ec
      exact ⟨a2, h2, by simp [m2, h]⟩
  · intro t ht hlt hr
    have hopen_time : (c.open t).last_read_time = t := rfl
    have hopen_thr : (c.open t).reconnect_seconds = c.reconnect_seconds := rfl
    obtain ⟨heq1, -, hmod1⟩ := last_read_elapsed_spec (c.open t) ticks_per_second now htps
      (by rw [hopen_time]; exact ht) (by rw [hopen_time]; exact hr)
    have hsmall : client.last_read_elapsed (c.open t) ticks_per_second now <
        c.reconnect_seconds := by
      rw [heq1, hopen_time]
      exact Int.ediv_lt_of_lt_mul hpos hlt
    unfold client.on_timer
    simp only [hmod1, hopen_thr, not_le.2 hsmall, if_false]

/-- The watchdog at the initial threshold of 30 seconds with nanosecond ticks, 31 seconds
after the last read. -/
theorem watchdog_threshold_clock_not_set_back_witness :
    0 < 1000000000 ∧
    ({ last_read_time := 5000000000 } : client).last_read_time ≤ 36000000000 ∧
    (36000000000 : Int) - ({ last_read_time := 5000000000 } : client).last_read_time < 2 ^ 63 ∧
    client.last_read_elapsed { last_read_time := 5000000000 } 1000000000 36000000000 =
      (36000000000 - ({ last_read_time := 5000000000 } : client).last_read_time) /
        (1000000000 : Nat) :=
  ⟨by decide, by decide, by decide,
    (watchdog_threshold_clock_not_set_back { last_read_time := 5000000000 } 1000000000 36000000000
      36000000001 false (by decide) (by decide) (by decide)).1⟩

end bantam

namespace bantam

/-! ## The handshake flag in the reachable states -/

theorem open_flag (c : client) (now : Int) :
    (c.open now).handshake_completed = c.handshake_completed := rfl

theorem reconnect_flag (c : client) (now : Int) :
    (c.reconnect now).handshake_completed = c.handshake_completed := by
  unfold client.reconnect
  rw [open_flag, (close_fields _).2.2.2.1]
  rfl

theorem get_resource_flag (c : client) (path : String) (callback : json_callback_type) :
    (c.get_resource path callback).state.handshake_completed = c.handshake_completed := by
  cases callback with
  | none => rfl
  | some f =>
    simp only [client.get_resource, outcome.state, client.write_doc]
    rw [(write_fields _ _).2.2.1]

theorem subscribe_flag (c : client) (channel_name : String) (callback : json_callback_type) :
    (c.subscribe channel_name callback).state.handshake_completed =
      c.handshake_completed := by
  cases h : c.handshake_completed with
  | true => rw [(subscribe_after_handshake c channel_name callback h).2.2]
  | false => simp [client.subscribe, h, outcome.state]

theorem act_flag (c : client) (a : user_action) :
    (c.act a).state.handshake_completed = c.handshake_completed := by
  match a with
  | user_action.write msg => exact (write_fields c msg).2.2.1
  | user_action.get_resource path callback => exact get_resource_flag c path callback
  | user_action.subscribe channel_name callback => exact subscribe_flag c channel_name callback
  | user_action.open now => rfl
  | user_action.close => exact (close_fields c).2.2.2.1
  | user_action.reconnect now => exact reconnect_flag c now
  | user_action.throw what => rfl

theorem script_flag (c : client) (actions : List user_action) :
    (c.script actions).state.handshake_completed = c.handshake_completed := by
  induction actions generalizing c with
  | nil => rfl
  | cons a rest ih =>
    have ha := act_flag c a
    unfold client.script
    cases hact : c.act a with
    | returned c1 =>
      rw [hact] at ha
      simp only []
      rw [ih c1]
      exact ha
    | threw what c1 =>
      rw [hact] at ha
      exact ha

end bantam

namespace bantam

theorem call_flag (json : Nat → callback_arg → client → List user_action)
    (ready : Nat → client → List user_action) (c : client) (callback : json_callback_type)
    (arg : callback_arg) :
    ( client.call (scripted_handlers json ready) c callback arg).state.handshake_completed =
      c.handshake_completed := by
  cases callback with
  | none => rfl
  | some f =>
    simp only [client.call, scripted_handlers]
    rw [script_flag]

theorem on_read_try_flag (json : Nat → callback_arg → client → List user_action)
    (ready : Nat → client → List user_action) (c : client) (fr : frame)
    (hflag : c.handshake_completed = true) :
    ( client.on_read_try (scripted_handlers json ready) c fr).state.handshake_completed =
      true := by
  cases fr with
  | binary str => exact hflag
  | text doc =>
    cases htype : doc.type with
    | none =>
      simp only [client.on_read_try, htype]
      exact hflag
    | some type =>
      simp only [client.on_read_try, htype, hflag, if_true]
      split_ifs
      · exact hflag
      · simp only [outcome.state, client.write_pong, client.write_doc]
        rw [(write_fields _ _).2.2.1]
        exact hflag
      · split
        · exact hflag
        · rw [call_flag]
          exact hflag
      · split
        · rw [call_flag]
          exact hflag
        · exact hflag
      · exact hflag

theorem on_read_flag (json : Nat → callback_arg → client → List user_action)
    (ready : Nat → client → List user_action) (c : client) (now : Int) (ec : Bool)
    (fr : frame) (hflag : c.handshake_completed = true) :
    ( client.on_read (scripted_handlers json ready) c now ec fr).handshake_completed =
      true := by
  unfold client.on_read
  simp only []
  split_ifs
  · exact hflag
  · rw [(write_next_fields _).2.2.2.1, (do_read_fields _).2.2.2.1]
    have htry := on_read_try_flag json ready
      ({ c with reading_now := false, last_read_time := now } : client) fr hflag
    cases ho : client.on_read_try (scripted_handlers json ready)
        ({ c with reading_now := false, last_read_time := now } : client) fr with
    | returned c1 =>
      rw [ho] at htry
      exact htry
    | threw what c1 =>
      rw [ho] at htry
      simp only [client.catch_read]
      rw [(close_fields _).2.2.2.1]
      exact htry

theorem on_write_flag (c c1 : client) (ec : Bool) (h : c.on_write ec = some c1) :
    c1.handshake_completed = c.handshake_completed := by
  unfold client.on_write at h
  split_ifs at h with h1 h2
  · simp only [Option.some.injEq] at h
    rw [← h]
    rfl
  · cases hq : c.write_queue with
    | nil => rw [hq] at h; simp at h
    | cons front tail =>
      rw [hq] at h
      simp only [Option.some.injEq] at h
      rw [← h]
      split_ifs
      · rw [(write_next_fields _).2.2.2.1]
      · rfl

theorem on_timer_flag (c : client) (ticks_per_second : Nat) (now later : Int) (ec : Bool) :
    (c.on_timer ticks_per_second now later ec).handshake_completed =
      c.handshake_completed := by
  have hrearm : ∀ d : client, (d.timer_rearm ec).handshake_completed =
      d.handshake_completed := by
    intro d
    unfold client.timer_rearm
    split_ifs <;> rfl
  unfold client.on_timer
  simp only []
  rw [hrearm]
  split_ifs
  · exact reconnect_flag c later
  · rfl

theorem advance_flag (json : Nat → callback_arg → client → List user_action)
    (ready : Nat → client → List user_action) (c c1 : client) (s : engine_step)
    (hflag : c.handshake_completed = true)
    (h : c.advance (scripted_handlers json ready) s = some c1) :
    c1.handshake_completed = true := by
  cases s with
  | call a =>
    simp only [client.advance, Option.some.injEq] at h
    rw [← h, act_flag]
    exact hflag
  | on_read now ec fr =>
    simp only [client.advance, Option.some.injEq] at h
    rw [← h]
    exact on_read_flag json ready c now ec fr hflag
  | on_write ec =>
    simp only [client.advance] at h
    rw [on_write_flag c c1 ec h]
    exact hflag
  | on_timer ticks_per_second now later ec =>
    simp only [client.advance, Option.some.injEq] at h
    rw [← h, on_timer_flag]
    exact hflag
  | transport is_open =>
    simp only [client.advance, Option.some.injEq] at h
    rw [← h]
    exact hflag

theorem advances_flag (json : Nat → callback_arg → client → List user_action)
    (ready : Nat → client → List user_action) (c c1 : client) (steps : List engine_step)
    (hflag : c.handshake_completed = true)
    (h : c.advances (scripted_handlers json ready) steps = some c1) :
    c1.handshake_completed = true := by
  induction steps generalizing c with
  | nil =>
    simp only [client.advances, Option.some.injEq] at h
    rw [← h]
    exact hflag
  | cons s ss ih =>
    unfold client.advances at h
    cases hs : c.advance (scripted_handlers json ready) s with
    | none => rw [hs] at h; simp at h
    | some c2 =>
      rw [hs] at h
      exact ih c2 (advance_flag json ready c c2 s hflag hs) h

end bantam

namespace bantam

theorem close_frame (d : client) :
    d.close = { d with reading_now := false, writing_now := false, trace := d.close.trace } := by
  unfold client.close client.info
  simp only []
  split_ifs <;> rfl

theorem reconnect_frame (d : client) (t : Int) :
    d.reconnect t =
      { d with reading_now := false, writing_now := false, last_read_time := t,
               trace := (d.reconnect t).trace } := by
  unfold client.reconnect client.open client.close client.info
  simp only []
  split_ifs <;> rfl

/-- C23: no step of the engine resets `handshake_completed`.  From a state in which the
flag is set, every sequence of steps (calls of `open`, `close`, `reconnect`, `write`,
`get_resource`, `subscribe` from user code, read, write and timer completions with
callbacks that act through the public interface, the socket opening or closing) that
runs through ends in a state in which the flag is set.  `close ()` changes only
`reading_now`, `writing_now` and the trace, `reconnect ()` these and `last_read_time`;
the write queue, both maps and the opaque counter are kept.  Hence in every such state,
also after a reconnect, an inbound hello is a protocol error: `on_read` calls
`close ()` and calls no user code, in particular not `handle_connected`. -/
theorem C23_handshake_flag_is_never_reset
    (json : Nat → callback_arg → client → List user_action)
    (ready : Nat → client → List user_action) (c c1 : client) (steps : List engine_step)
    (hflag : c.handshake_completed = true)
    (hrun : c.advances (scripted_handlers json ready) steps = some c1) :
    c1.handshake_completed = true ∧
    (∀ (d : client) (t : Int),
      d.close = { d with reading_now := false, writing_now := false,
                         trace := d.close.trace } ∧
      d.reconnect t = { d with reading_now := false, writing_now := false,
                               last_read_time := t, trace := (d.reconnect t).trace }) ∧
    (c1.reconnect 0).handshake_completed = true ∧
    ∀ (now : Int) (doc : inbound), doc.type = some "hello" →
      client.on_read (scripted_handlers json ready) c1 now false (frame.text doc) =
        client.write_next (client.do_read (client.close (client.cerr
          { c1 with reading_now := false, last_read_time := now }
          ("Handle read - " ++
            "Connection sequence error, handshake already completed")))) ∧
      ∃ added : List event,
        ( client.on_read (scripted_handlers json ready) c1 now false (frame.text doc)).trace =
          c1.trace ++ added ∧
        event.info "Closing connection" ∈ added ∧ ∀ e ∈ added, e.is_callback = false := by
  have h1 := advances_flag json ready c c1 steps hflag hrun
  refine ⟨h1, fun d t => ⟨close_frame d, reconnect_frame d t⟩,
    by rw [reconnect_flag]; exact h1, ?_⟩
  intro now doc htype
  have heq := on_read_second_hello (scripted_handlers json ready) c1 now doc htype h1
  refine ⟨heq, ?_⟩
  rw [heq]
  exact (read_error_tail
    ({ c1 with reading_now := false, last_read_time := now } : client) _).2.2.2

/-- C23, at a connected engine that reconnects and whose socket is open again: the
flag is still set. -/
theorem C23_handshake_flag_is_never_reset_witness :
    ({ handshake_completed := true, is_open := true } : client).handshake_completed = true ∧
    client.advances
        (scripted_handlers (fun _ _ _ => [])
          (fun _ _ => [user_action.get_resource "channels" (some 1)]))
        { handshake_completed := true, is_open := true }
        [engine_step.call (user_action.reconnect 40), engine_step.transport true] =
      some { handshake_completed := true, is_open := true, last_read_time := 40,
             trace := [event.info "Reconnecting", event.info "Closing connection",
               event.async_close, event.info "Opening connection", event.async_resolve] } ∧
    ({ handshake_completed := true, is_open := true, last_read_time := 40,
       trace := [event.info "Reconnecting", event.info "Closing connection",
         event.async_close, event.info "Opening connection", event.async_resolve] } :
      client).handshake_completed = true :=
  ⟨rfl, by decide,
    (C23_handshake_flag_is_never_reset (fun _ _ _ => [])
      (fun _ _ => [user_action.get_resource "channels" (some 1)])
      { handshake_completed := true, is_open := true }
      { handshake_completed := true, is_open := true, last_read_time := 40,
        trace := [event.info "Reconnecting", event.info "Closing connection",
          event.async_close, event.info "Opening connection", event.async_resolve] }
      [engine_step.call (user_action.reconnect 40), engine_step.transport true]
      rfl (by decide)).1⟩

end bantam

namespace bantam

/-! ## Rounding in `buy_partial` -/

/-- Without rounding the rounded walk is the exact walk. -/
theorem buy_walk_rounded_exact (max_price : ℚ) (l : List (price_type × ℚ)) (volume : ℚ)
    (changes : List order_book_change) :
    buy_walk_rounded (fun q => q) max_price l volume changes =
      buy_walk max_price l volume changes := by
  induction l generalizing volume changes with
  | nil => rfl
  | cons e l ih =>
    obtain ⟨p, v⟩ := e
    simp only [buy_walk_rounded, buy_walk, ih]

/-- Without rounding `buy_partial_rounded` is `buy_partial`. -/
theorem buy_partial_rounded_exact (b : order_book) (max_price volume : ℚ)
    (changes : List order_book_change) :
    b.buy_partial_rounded (fun q => q) max_price volume changes =
      b.buy_partial max_price volume changes := by
  simp only [order_book.buy_partial_rounded, order_book.buy_partial, buy_walk_rounded_exact]

/-- In `double`, `1e16 - 1` is `1e16`: the doubles between `2 ^ 53` and `2 ^ 54` are the
even integers, and of the two nearest ones `1e16` has the even significand. -/
theorem double_round_1e16_minus_1 :
    double_round (10000000000000000 - 1) = 10000000000000000 := by
  have hlog : Int.log 2 |(9999999999999999 : ℚ)| = 53 := by
    rw [abs_of_pos (by norm_num)]
    apply le_antisymm
    · have h : Int.log 2 (9999999999999999 : ℚ) < 54 :=
        (Int.lt_zpow_iff_log_lt (by norm_num) (by norm_num)).1 (by norm_num)
      omega
    · exact (Int.zpow_le_iff_le_log (by norm_num) (by norm_num)).1 (by norm_num)
  have hfloor : ⌊(9999999999999999 : ℚ) / 2⌋ = 4999999999999999 := by
    rw [Int.floor_eq_iff]
    constructor <;> norm_num
  have hq : (10000000000000000 - 1 : ℚ) = 9999999999999999 := by norm_num
  have hexp : max (53 : ℤ) (-1022) - 52 = 1 := by decide
  rw [hq]
  unfold double_round
  rw [if_neg (by norm_num), hlog, hexp, zpow_one]
  unfold round_half_even
  rw [hfloor]
  norm_num

end bantam

namespace bantam

/-- C18, the claim as stated fails in double arithmetic: with the single bid level
10 ↦ 1e16 (a positive volume), `buy_partial (10, 1)` subtracts 1 from 1e16, which in
`double` is 1e16 again; the call appends the bid event (10, 1e16) although the volume at
10, and the whole book, is what it was before. -/
theorem C18_counterexample :
    order_book.wf { bids := [(10, 10000000000000000)], asks := [] } ∧
    order_book.positive { bids := [(10, 10000000000000000)], asks := [] } ∧
    (0 : ℚ) < 1 ∧
    order_book.buy_partial_rounded double_round
        { bids := [(10, 10000000000000000)], asks := [] } 10 1 [] =
      ({ bids := [(10, 10000000000000000)], asks := [] },
        [⟨order_book_side.bid, 10, 10000000000000000⟩]) := by
  have hr : double_round (10000000000000000 - 1) = 10000000000000000 :=
    double_round_1e16_minus_1
  refine ⟨by norm_num [order_book.wf, map_wf], by norm_num [order_book.positive, map_positive],
    by norm_num, ?_⟩
  simp only [order_book.buy_partial_rounded, List.reverse_cons, List.reverse_nil,
    List.nil_append, buy_walk_rounded, hr]
  norm_num

end bantam

namespace bantam

/-! ## The volume assertion for every `double` -/

/-- C22, the claim as stated fails: a NaN volume is not negative, yet it is not zero
either, so `update_bid` / `update_ask` call `update`, and `BOOST_VERIFY (volume > 0)`
fails because the comparison with a NaN is false. -/
theorem C22_counterexample :
    double.nan.negative = false ∧ double.nan.to_bool = true ∧
    double.nan.gt_zero = false ∧ update_verify double.nan = verify_result.failed := by
  decide

/-- C22 (amended): for every book and price, `update_bid` and `update_ask` fail the
check `BOOST_VERIFY (volume > 0)` if and only if the volume argument is negative or a
NaN.  For every volume `≥ 0` (and for `+∞`) the check does not fail: volume 0 goes to
`remove_bid` / `remove_ask` and does not reach it, a positive volume passes it.  For a
finite volume this is the `none` result of `order_book.update_bid` and
`order_book.update_ask`. -/
theorem C22_negative_or_nan_volume_fails_the_assertion (b : order_book) (p : ℚ)
    (volume : double) :
    (update_verify volume = verify_result.failed ↔
      volume.negative = true ∨ volume = double.nan) ∧
    update_verify (double.finite 0) = verify_result.not_reached ∧
    update_verify double.pos_inf = verify_result.passed ∧
    (∀ q : ℚ, update_verify (double.finite q) =
      (if q = 0 then verify_result.not_reached
        else if 0 < q then verify_result.passed else verify_result.failed)) ∧
    (∀ q : ℚ, b.update_bid p q = none ↔ update_verify (double.finite q) = verify_result.failed) ∧
    (∀ q : ℚ, b.update_ask p q = none ↔ update_verify (double.finite q) = verify_result.failed) ∧
    b.update_bid p 0 = some (b.remove_bid p) ∧
    b.update_ask p 0 = some (b.remove_ask p) := by
  have hfin : ∀ q : ℚ, update_verify (double.finite q) =
      (if q = 0 then verify_result.not_reached
        else if 0 < q then verify_result.passed else verify_result.failed) := by
    intro q
    by_cases h0 : q = 0
    · simp [update_verify, double.to_bool, h0]
    · by_cases hp : 0 < q
      · simp [update_verify, double.to_bool, double.gt_zero, h0, hp]
      · simp [update_verify, double.to_bool, double.gt_zero, h0, hp]
  have hfail : ∀ q : ℚ, update_verify (double.finite q) = verify_result.failed ↔ q < 0 := by
    intro q
    rw [hfin q]
    by_cases h0 : q = 0
    · simp [h0]
    · by_cases hp : 0 < q
      · simp [h0, hp, not_lt.2 (le_of_lt hp)]
      · simp [h0, hp, lt_of_le_of_ne (not_lt.1 hp) h0]
  obtain ⟨hbid, hask, hb0, ha0⟩ := update_fails_iff_negative b p 0
  refine ⟨?_, by decide, by decide, hfin, ?_, ?_, hb0, ha0⟩
  · cases volume with
    | nan => decide
    | neg_inf => decide
    | pos_inf => decide
    | finite q =>
      rw [hfail q]
      simp [double.negative]
  · intro q
    rw [hfail q]
    exact (update_fails_iff_negative b p q).1
  · intro q
    rw [hfail q]
    exact (update_fails_iff_negative b p q).2.1

end bantam

namespace bantam

/-! ## The watchdog when the clock is set back -/

/-- C21, the code at the failing input: `last_read_time` was taken at second 20 and the
clock, set back, reads second 10 at the timer tick (nanosecond ticks, threshold 30).
`last_read_elapsed` is -10, which is less than the threshold, yet `on_timer` calls
`reconnect ()`: the comparison with the `unsigned long` threshold converts -10 to
`2 ^ 64 - 10`. -/
theorem C21_clock_set_back_reconnects :
    client.last_read_elapsed { last_read_time := 20000000000 } 1000000000 10000000000 = -10 ∧
    ((-10 : Int) < ({ last_read_time := 20000000000 } : client).reconnect_seconds) ∧
    event.info "Reconnecting" ∈
      ( client.on_timer { last_read_time := 20000000000 } 1000000000 10000000000
        10000000001 false).trace ∧
    ( client.on_timer { last_read_time := 20000000000 } 1000000000 10000000000
        10000000001 false).last_read_time = 10000000001 := by
  decide

end bantam

namespace bantam

/-- Every tick at which the clock reads a whole second or more before `last_read_time`
(the difference an `int64_t`, the threshold at most `2 ^ 63`) has a negative
`last_read_elapsed` and calls `reconnect ()`. -/
theorem on_timer_clock_set_back (c : client) (ticks_per_second : Nat) (now later : Int)
    (ec : Bool) (htps : 0 < ticks_per_second)
    (hback : now - c.last_read_time ≤ -(ticks_per_second : Int))
    (hrange : -(2 ^ 63) < now - c.last_read_time)
    (hthr : (c.reconnect_seconds : Int) ≤ 2 ^ 63) :
    c.last_read_elapsed ticks_per_second now < 0 ∧
    c.on_timer ticks_per_second now later ec = (c.reconnect later).timer_rearm ec := by
  have hpos : (0 : Int) < ticks_per_second := by exact_mod_cast htps
  have helapsed : c.last_read_elapsed ticks_per_second now =
      -((-(now - c.last_read_time)) / (ticks_per_second : Int)) := by
    unfold client.last_read_elapsed
    have h1 : now - c.last_read_time = -(-(now - c.last_read_time)) := by ring
    rw [h1, Int.neg_tdiv, Int.tdiv_eq_ediv (by omega) (le_of_lt hpos)]
    simp
  have hge : 1 ≤ (-(now - c.last_read_time)) / (ticks_per_second : Int) :=
    (Int.le_ediv_iff_mul_le hpos).2 (by omega)
  have hle : (-(now - c.last_read_time)) / (ticks_per_second : Int) ≤
      -(now - c.last_read_time) := Int.ediv_le_self _ (by omega)
  have hneg : c.last_read_elapsed ticks_per_second now < 0 := by
    rw [helapsed]
    omega
  have hlow : -(2 ^ 63) < c.last_read_elapsed ticks_per_second now := by
    rw [helapsed]
    omega
  have hmod : c.last_read_elapsed ticks_per_second now % 2 ^ 64 =
      c.last_read_elapsed ticks_per_second now + 2 ^ 64 := by
    have h2 : c.last_read_elapsed ticks_per_second now % 2 ^ 64 =
        (c.last_read_elapsed ticks_per_second now + 2 ^ 64) % 2 ^ 64 := by
      rw [Int.add_emod_self]
    rw [h2]
    exact Int.emod_eq_of_lt (by omega) (by omega)
  refine ⟨hneg, ?_⟩
  unfold client.on_timer
  have hcond : (c.reconnect_seconds : Int) ≤
      c.last_read_elapsed ticks_per_second now % 2 ^ 64 := by
    rw [hmod]
    omega
  simp only [hcond, if_true]

end bantam
